import Mathlib

/-!
# The subtitle model of kdenlive

A shallow embedding of `src/bin/model/subtitlemodel.cpp` (class `SubtitleModel`):
the cue store `m_subtitleList`, the id registry `m_timeline->m_allSubtitles`,
and the operations that mutate them.

* A `std::map` is a list of entries in ascending key order (`StdMap`); the
  functions do not need the order, the theorems that do assume `StdMap.Sorted`.
* `int` is `ℤ`, `QString` is `String`.
* The `double` arithmetic of `stringtoTime` and `jsontoSubtitle` is rounded, operation
  by operation, to the nearest double (`roundDouble`).
* A call that throws (`std::map::at` on a missing key) returns `none`, and so does a
  conversion to `int` of a value outside its range (`atoi`, a `double` assigned to
  an `int`), whose result is not defined.
* A closure of type `Fun` (`std::function<bool()>` capturing `this`) is a function
  from the model to a result and a model.
* The Qt signals (`dataChanged`, `modelChanged`, begin/endInsertRows) and
  `pCore->refreshProjectRange` reach the view and the subtitle file, not the
  store; they have no counterpart here. The calls forwarded to a registered,
  live snap listener are recorded in `snapLog`.
-/

set_option linter.unusedVariables false

namespace Kdenlive

/-- Modelled from the spec: the class `GenTime` (gentime.h is not among the sources).
A time value is a rational number of seconds, totally ordered; the default
constructed `GenTime()` is `0`. -/
abbrev GenTime := ℚ

namespace GenTime

/-- Modelled from the spec: `GenTime::frames(fps)`, the integer frame count of a time
value at a frame rate. The spec does not fix the rounding; the frame nearest to
`t * fps` is taken. -/
def frames (t : GenTime) (fps : ℚ) : ℤ := ⌊t * fps + 1 / 2⌋

/-- Modelled from the spec: the constructor `GenTime(frames, fps)`, the time value of a
frame count at a frame rate. -/
def ofFrames (n : ℤ) (fps : ℚ) : GenTime := (n : ℚ) / fps

end GenTime

/-- A `std::map<K, V>`: its entries, in ascending key order. -/
abbrev StdMap (K V : Type) := List (K × V)

namespace StdMap

variable {K V : Type} [LinearOrder K]

/-- The value `std::map::find` reaches for a key, if any. -/
def find : StdMap K V → K → Option V
  | [], _ => none
  | (k', v) :: t, k => if k = k' then some v else find t k

/-- The result of `std::map::count`. -/
def count (m : StdMap K V) (k : K) : ℕ :=
  match m.find k with
  | some _ => 1
  | none => 0

/-- The map after `m[k] = v`: the entry is replaced, or inserted at its place. -/
def assign : StdMap K V → K → V → StdMap K V
  | [], k, v => [(k, v)]
  | (k', v') :: t, k, v =>
    if k < k' then (k, v) :: (k', v') :: t
    else if k = k' then (k, v) :: t
    else (k', v') :: assign t k v

/-- The map after `std::map::erase(k)`. -/
def erase (m : StdMap K V) (k : K) : StdMap K V :=
  m.filter (fun e => decide (e.1 ≠ k))

/-- The result of `std::map::size`. -/
def size (m : StdMap K V) : ℕ := m.length

/-- The keys of the map, in iteration order. -/
def keys (m : StdMap K V) : List K := m.map Prod.fst

/-- The representation invariant of a `std::map`: keys strictly ascending. -/
def Sorted (m : StdMap K V) : Prop := (m.map Prod.fst).Pairwise (· < ·)

instance (m : StdMap K V) : Decidable (Sorted m) := by
  unfold Sorted; infer_instance

end StdMap

/-- A call forwarded to a snap listener (`SnapInterface::addPoint`, `removePoint`). -/
inductive SnapCall where
  | addPoint (frame : ℤ)
  | removePoint (frame : ℤ)
  deriving DecidableEq, Repr

/-- The value `SubtitledTime(start, text, end)` that `getSubtitle` returns. -/
structure SubtitledTime where
  start : GenTime
  subtitle : String
  endTime : GenTime
  deriving DecidableEq

/-- The state of a `SubtitleModel` with its timeline's registry. -/
structure SubtitleModel where
  /-- The field `m_subtitleList`: start ↦ (text, end). -/
  m_subtitleList : StdMap GenTime (String × GenTime)
  /-- The field `m_timeline->m_allSubtitles`: id ↦ start. -/
  m_allSubtitles : StdMap ℤ GenTime
  /-- The calls a registered live listener of `m_regSnaps` has received, oldest first. -/
  snapLog : List SnapCall
  deriving DecidableEq

/-- A closure `Fun` (`std::function<bool()>`) over the model. -/
abbrev Fun := SubtitleModel → Bool × SubtitleModel

/-- What a call that builds an undo pair leaves: its result, the `undo` and
`redo` closures (as updated through the reference arguments, or as pushed
on the undo stack) and the model. -/
structure Outcome where
  res : Bool
  undo : Fun
  redo : Fun
  model : SubtitleModel

namespace SubtitleModel

/-- The model of a freshly constructed `SubtitleModel`. -/
def empty : SubtitleModel := ⟨[], [], []⟩

/-- The closure `[]() { return true; }`. -/
def noop : Fun := fun s => (true, s)

/-- Modelled from the spec: the macro `UPDATE_UNDO_REDO(operation, reverse, undo, redo)`
(macros.hpp is not among the sources), the new `undo`: sequential composition,
the accumulated closure, then the new piece. -/
def updateUndo (reverse undo : Fun) : Fun := fun s =>
  let r1 := undo s
  let r2 := reverse r1.2
  (r1.1 && r2.1, r2.2)

/-- Modelled from the spec: the macro `UPDATE_UNDO_REDO(operation, reverse, undo, redo)`
(macros.hpp is not among the sources), the new `redo`: sequential composition,
the accumulated closure, then the new piece. -/
def updateRedo (operation redo : Fun) : Fun := fun s =>
  let r1 := redo s
  let r2 := operation r1.2
  (r1.1 && r2.1, r2.2)

/-- `SubtitleModel::addSnapPoint`, for a live listener. -/
def addSnapPoint (fps : ℚ) (s : SubtitleModel) (startpos : GenTime) : SubtitleModel :=
  { s with snapLog := s.snapLog ++ [SnapCall.addPoint (startpos.frames fps)] }

/-- `SubtitleModel::removeSnapPoint`, for a live listener. -/
def removeSnapPoint (fps : ℚ) (s : SubtitleModel) (startpos : GenTime) : SubtitleModel :=
  { s with snapLog := s.snapLog ++ [SnapCall.removePoint (startpos.frames fps)] }

/-- Modelled from the spec: `TimelineModel::registerSubtitle` (timelinemodel.cpp is not
among the sources): the registry maps the id to the start. -/
def registerSubtitle (s : SubtitleModel) (id : ℤ) (start : GenTime) : SubtitleModel :=
  { s with m_allSubtitles := s.m_allSubtitles.assign id start }

/-- Modelled from the spec: `TimelineModel::deregisterSubtitle` (timelinemodel.cpp is not
among the sources): the id leaves the registry. -/
def deregisterSubtitle (s : SubtitleModel) (id : ℤ) : SubtitleModel :=
  { s with m_allSubtitles := s.m_allSubtitles.erase id }

/-- `SubtitleModel::addSubtitle(id, start, end, str, temporary)`; `temporary` only
reaches the timeline's group registry and is left out. -/
def addSubtitle (fps : ℚ) (s : SubtitleModel) (id : ℤ) (start endPos : GenTime)
    (str : String) : Bool × SubtitleModel :=
  if start.frames fps < 0 ∨ endPos.frames fps < 0 then (false, s)
  else if start.frames fps > endPos.frames fps then (false, s)
  else if s.m_subtitleList.count start > 0 then (false, s)
  else
    let s1 := { s with m_subtitleList := s.m_subtitleList.assign start (str, endPos) }
    let s2 := registerSubtitle s1 id start
    let s3 := addSnapPoint fps s2 start
    let s4 := addSnapPoint fps s3 endPos
    (true, s4)

/-- `SubtitleModel::getIdForStartPos`: `std::find_if` over the registry. -/
def getIdForStartPos (s : SubtitleModel) (startTime : GenTime) : ℤ :=
  match s.m_allSubtitles.find? (fun p => decide (p.2 = startTime)) with
  | some p => p.1
  | none => -1

/-- `SubtitleModel::getStartPosForId`. -/
def getStartPosForId (s : SubtitleModel) (id : ℤ) : GenTime :=
  if s.m_allSubtitles.count id = 0 then 0
  else (s.m_allSubtitles.find id).getD 0

/-- `SubtitleModel::getSubtitle`. -/
def getSubtitle (s : SubtitleModel) (startFrame : GenTime) : SubtitledTime :=
  match List.find? (fun e => decide (e.1 = startFrame)) s.m_subtitleList with
  | some e => ⟨e.1, e.2.1, e.2.2⟩
  | none => ⟨0, "", 0⟩

/-- `SubtitleModel::getAllSubtitles`. -/
def getAllSubtitles (s : SubtitleModel) : List SubtitledTime :=
  s.m_subtitleList.map (fun e => ⟨e.1, e.2.1, e.2.2⟩)

/-- `SubtitleModel::getText`; `none` when `m_subtitleList.at(start)` throws. -/
def getText (s : SubtitleModel) (id : ℤ) : Option String :=
  match s.m_allSubtitles.find id with
  | none => some ""
  | some start =>
    match s.m_subtitleList.find start with
    | some e => some e.1
    | none => none

/-- The store after `m_subtitleList[k].second = e` (`operator[]` default-constructs
a missing entry). -/
def setSecond (m : StdMap GenTime (String × GenTime)) (k e : GenTime) :
    StdMap GenTime (String × GenTime) :=
  m.assign k (((m.find k).getD ("", 0)).1, e)

/-- The store after `m_subtitleList[k].first = t` (`operator[]` default-constructs
a missing entry). -/
def setFirst (m : StdMap GenTime (String × GenTime)) (k : GenTime) (t : String) :
    StdMap GenTime (String × GenTime) :=
  m.assign k (t, ((m.find k).getD ("", 0)).2)

/-- `SubtitleModel::editSubtitle(startPos, newSubtitleText)`. -/
def editSubtitle (fps : ℚ) (s : SubtitleModel) (startPos : GenTime)
    (newSubtitleText : String) : SubtitleModel :=
  if startPos.frames fps < 0 then s
  else { s with m_subtitleList := setFirst s.m_subtitleList startPos newSubtitleText }

/-- `SubtitleModel::setText(id, text)`; the closures of the outcome are the pair
pushed on the undo stack. -/
def setText (fps : ℚ) (s : SubtitleModel) (id : ℤ) (text : String) : Option Outcome :=
  match s.m_allSubtitles.find id with
  | none => some ⟨false, noop, noop, s⟩
  | some start =>
    match s.m_subtitleList.find start with
    | none => none
    | some e =>
      let oldText := e.1
      let s1 := { s with m_subtitleList := setFirst s.m_subtitleList start text }
      let local_redo : Fun := fun m => (true, editSubtitle fps m start text)
      let local_undo : Fun := fun m => (true, editSubtitle fps m start oldText)
      some ⟨true, local_undo, local_redo, (local_redo s1).2⟩

/-- `SubtitleModel::editEndPos(startPos, newEndPos, refreshModel)`. -/
def editEndPos (s : SubtitleModel) (startPos newEndPos : GenTime) : SubtitleModel :=
  if s.m_subtitleList.count startPos ≤ 0 then s
  else { s with m_subtitleList := setSecond s.m_subtitleList startPos newEndPos }

/-- The closure `operation` of `requestResize`, branch `right`. -/
def resizeRightOperation (fps : ℚ) (startPos endPos newEndPos : GenTime) : Fun := fun m =>
  let m1 := { m with m_subtitleList := setSecond m.m_subtitleList startPos newEndPos }
  let m2 := removeSnapPoint fps m1 endPos
  let m3 := addSnapPoint fps m2 newEndPos
  (true, m3)

/-- The closure `reverse` of `requestResize`, branch `right`. -/
def resizeRightReverse (fps : ℚ) (startPos endPos newEndPos : GenTime) : Fun := fun m =>
  let m1 := { m with m_subtitleList := setSecond m.m_subtitleList startPos endPos }
  let m2 := removeSnapPoint fps m1 newEndPos
  let m3 := addSnapPoint fps m2 endPos
  (true, m3)

/-- The closure `operation` of `requestResize`, branch `!right`. -/
def resizeLeftOperation (fps : ℚ) (id : ℤ) (startPos newStartPos endPos : GenTime)
    (text : String) : Fun := fun m =>
  let m1 := { m with m_allSubtitles := m.m_allSubtitles.assign id newStartPos }
  let m2 := { m1 with m_subtitleList := m1.m_subtitleList.erase startPos }
  let m3 := { m2 with m_subtitleList := m2.m_subtitleList.assign newStartPos (text, endPos) }
  let m4 := removeSnapPoint fps m3 startPos
  let m5 := addSnapPoint fps m4 newStartPos
  (true, m5)

/-- The closure `reverse` of `requestResize`, branch `!right`. -/
def resizeLeftReverse (fps : ℚ) (id : ℤ) (startPos newStartPos endPos : GenTime)
    (text : String) : Fun := fun m =>
  let m1 := { m with m_allSubtitles := m.m_allSubtitles.assign id startPos }
  let m2 := { m1 with m_subtitleList := m1.m_subtitleList.erase newStartPos }
  let m3 := { m2 with m_subtitleList := m2.m_subtitleList.assign startPos (text, endPos) }
  let m4 := removeSnapPoint fps m3 newStartPos
  let m5 := addSnapPoint fps m4 startPos
  (true, m5)

/-- `SubtitleModel::requestResize(id, size, right, undo, redo, logUndo)`; `none`
when `m_allSubtitles.at(id)` or `m_subtitleList.at(startPos)` throws. `logUndo`
only decides whether `modelChanged` and `refreshProjectRange` are emitted. -/
def requestResize (fps : ℚ) (s : SubtitleModel) (id size : ℤ) (right : Bool)
    (undo redo : Fun) (logUndo : Bool) : Option Outcome :=
  match s.m_allSubtitles.find id with
  | none => none
  | some startPos =>
    match s.m_subtitleList.find startPos with
    | none => none
    | some e =>
      let endPos := e.2
      if right then
        let newEndPos := startPos + GenTime.ofFrames size fps
        let operation := resizeRightOperation fps startPos endPos newEndPos
        let reverse := resizeRightReverse fps startPos endPos newEndPos
        some ⟨true, updateUndo reverse undo, updateRedo operation redo, (operation s).2⟩
      else
        let newStartPos := endPos - GenTime.ofFrames size fps
        if s.m_subtitleList.count newStartPos > 0 then some ⟨false, undo, redo, s⟩
        else
          let text := e.1
          let operation := resizeLeftOperation fps id startPos newStartPos endPos text
          let reverse := resizeLeftReverse fps id startPos newStartPos endPos text
          some ⟨true, updateUndo reverse undo, updateRedo operation redo, (operation s).2⟩

/-- `SubtitleModel::requestResize(id, size, right)`: the pair is pushed on the undo
stack on success, `undo()` is run on failure. -/
def requestResize3 (fps : ℚ) (s : SubtitleModel) (id size : ℤ) (right : Bool) :
    Option (Bool × SubtitleModel) :=
  match requestResize fps s id size right noop noop true with
  | none => none
  | some o => if o.res then some (true, o.model) else some (false, (o.undo o.model).2)

/-- `SubtitleModel::removeSubtitle(id, temporary)`; `temporary` only reaches the
timeline's group registry and is left out. -/
def removeSubtitle (fps : ℚ) (s : SubtitleModel) (id : ℤ) : Bool × SubtitleModel :=
  match s.m_allSubtitles.find id with
  | none => (false, s)
  | some start =>
    match s.m_subtitleList.find start with
    | none => (false, s)
    | some e =>
      let endPos := e.2
      let s1 := deregisterSubtitle s id
      let s2 := { s1 with m_subtitleList := s1.m_subtitleList.erase start }
      let s3 := removeSnapPoint fps s2 start
      let s4 := removeSnapPoint fps s3 endPos
      (true, s4)

/-- `SubtitleModel::moveSubtitle(subId, newPos, updateModel, updateView)`. -/
def moveSubtitle (fps : ℚ) (s : SubtitleModel) (subId : ℤ) (newPos : GenTime)
    (updateModel updateView : Bool) : Bool × SubtitleModel :=
  match s.m_allSubtitles.find subId with
  | none => (false, s)
  | some oldPos =>
    match s.m_subtitleList.find oldPos with
    | none => (false, s)
    | some e =>
      if s.m_subtitleList.count newPos > 0 then (false, s)
      else
        let subtitleText := e.1
        let s1 := removeSnapPoint fps s oldPos
        let s2 := removeSnapPoint fps s1 e.2
        let duration := e.2 - oldPos
        let endPos := newPos + duration
        let id := getIdForStartPos s2 oldPos
        let s3 := { s2 with m_allSubtitles := s2.m_allSubtitles.assign id newPos }
        let s4 := { s3 with m_subtitleList := s3.m_subtitleList.erase oldPos }
        let s5 := { s4 with m_subtitleList := s4.m_subtitleList.assign newPos (subtitleText, endPos) }
        let s6 := addSnapPoint fps s5 newPos
        let s7 := addSnapPoint fps s6 endPos
        (true, s7)

/-- `SubtitleModel::requestSubtitleMove(clipId, position)`; the closures of the
outcome are the pair pushed on the undo stack when the move succeeds. -/
def requestSubtitleMove (fps : ℚ) (s : SubtitleModel) (clipId : ℤ) (position : GenTime) :
    Outcome :=
  let oldPos := getStartPosForId s clipId
  let local_redo : Fun := fun m => moveSubtitle fps m clipId position true true
  let local_undo : Fun := fun m => moveSubtitle fps m clipId oldPos true true
  let r := local_redo s
  if r.1 then ⟨true, local_undo, local_redo, r.2⟩ else ⟨false, noop, noop, r.2⟩

/-- The loop of `cutSubtitle`: the start of the first cue, in start order, with
`start <= pos && end > pos`, or `GenTime(-1)`. -/
def cutFind (m : StdMap GenTime (String × GenTime)) (pos : GenTime) : GenTime :=
  match List.find? (fun e => decide (e.1 ≤ pos ∧ e.2.2 > pos)) m with
  | some e => e.1
  | none => -1

/-- `SubtitleModel::cutSubtitle(position, undo, redo)`; `newId` is the value
`TimelineModel::getNextId()` returns (the allocator is not among the sources);
`none` when an `at` throws. -/
def cutSubtitle (fps : ℚ) (s : SubtitleModel) (position : ℤ) (undo redo : Fun)
    (newId : ℤ) : Option Outcome :=
  let pos := GenTime.ofFrames position fps
  let start := cutFind s.m_subtitleList pos
  if start ≥ 0 then
    match s.m_subtitleList.find start with
    | none => none
    | some e =>
      let endPos := e.2
      let text := e.1
      let subId := getIdForStartPos s start
      let duration := position - start.frames fps
      match requestResize fps s subId duration true undo redo false with
      | none => none
      | some o =>
        if o.res then
          let local_redo : Fun := fun m => addSubtitle fps m newId pos endPos text
          let local_undo : Fun := fun m => (true, (removeSubtitle fps m newId).2)
          let r := local_redo o.model
          if r.1 then
            some ⟨true, updateUndo local_undo o.undo, updateRedo local_redo o.redo, r.2⟩
          else some ⟨false, o.undo, o.redo, (o.undo r.2).2⟩
        else some ⟨false, o.undo, o.redo, (o.undo o.model).2⟩
  else some ⟨false, undo, redo, (undo s).2⟩

/-- `SubtitleModel::cutSubtitle(position)`: the pair is pushed on the undo stack
on success. -/
def cutSubtitle1 (fps : ℚ) (s : SubtitleModel) (position newId : ℤ) :
    Option (Bool × SubtitleModel) :=
  match cutSubtitle fps s position noop noop newId with
  | none => none
  | some o => some (o.res, o.model)

/-- The cue store and the id registry of two models are equal. -/
def SameData (a b : SubtitleModel) : Prop :=
  a.m_subtitleList = b.m_subtitleList ∧ a.m_allSubtitles = b.m_allSubtitles

instance (a b : SubtitleModel) : Decidable (SameData a b) := by
  unfold SameData; infer_instance

/-- Both maps of the model satisfy the representation invariant of `std::map`. -/
def WellFormed (s : SubtitleModel) : Prop :=
  StdMap.Sorted s.m_subtitleList ∧ StdMap.Sorted s.m_allSubtitles

instance (s : SubtitleModel) : Decidable (WellFormed s) := by
  unfold WellFormed; infer_instance

/-- The registry is a bijection onto the keys of the store: every registered id
maps to a key of the store, and every key of the store is the registered start
of exactly one id. -/
def Consistent (s : SubtitleModel) : Prop :=
  (∀ id st, s.m_allSubtitles.find id = some st → st ∈ s.m_subtitleList.keys) ∧
  (∀ k, k ∈ s.m_subtitleList.keys → ∃! id, s.m_allSubtitles.find id = some k)

/-- The times of one cue are valid: start and end have non-negative frame counts
and the frame count of start does not exceed that of end. -/
def ValidCue (fps : ℚ) (p : GenTime × (String × GenTime)) : Prop :=
  0 ≤ p.1.frames fps ∧ 0 ≤ p.2.2.frames fps ∧ p.1.frames fps ≤ p.2.2.frames fps

instance (fps : ℚ) (p : GenTime × (String × GenTime)) : Decidable (ValidCue fps p) := by
  unfold ValidCue; infer_instance

/-- Every cue of the store has valid times. -/
def TimeValid (fps : ℚ) (s : SubtitleModel) : Prop :=
  ∀ p ∈ s.m_subtitleList, ValidCue fps p

instance (fps : ℚ) (s : SubtitleModel) : Decidable (TimeValid fps s) := by
  unfold TimeValid; infer_instance

/-- A call of one of the mutating operations; `cut` carries the id the allocator
hands out if the cut gets to ask for one. -/
inductive Op where
  | add (id : ℤ) (start endPos : GenTime) (str : String)
  | remove (id : ℤ)
  | move (id : ℤ) (newPos : GenTime)
  | resize (id size : ℤ) (right : Bool)
  | cut (position newId : ℤ)

/-- The result and the model a call leaves; `none` when it throws. -/
def Op.call (fps : ℚ) (s : SubtitleModel) : Op → Option (Bool × SubtitleModel)
  | .add id start endPos str => some (addSubtitle fps s id start endPos str)
  | .remove id => some (removeSubtitle fps s id)
  | .move id newPos => some (moveSubtitle fps s id newPos true true)
  | .resize id size right => requestResize3 fps s id size right
  | .cut position newId => cutSubtitle1 fps s position newId

/-- The model after a call; a call that throws does so before it changes anything. -/
def Op.run (fps : ℚ) (s : SubtitleModel) (op : Op) : SubtitleModel :=
  match op.call fps s with
  | some r => r.2
  | none => s

/-- The model after a sequence of calls. -/
def runOps (fps : ℚ) (s : SubtitleModel) (ops : List Op) : SubtitleModel :=
  ops.foldl (Op.run fps) s

/-- The ids a sequence of calls brings in are not registered when they come:
the id of each `addSubtitle`, and the id minted for each cut. -/
def FreshIds (fps : ℚ) : SubtitleModel → List Op → Prop
  | _, [] => True
  | s, op :: ops =>
    (match op with
      | .add id _ _ _ => s.m_allSubtitles.find id = none
      | .cut _ newId => s.m_allSubtitles.find newId = none
      | _ => True) ∧ FreshIds fps (Op.run fps s op) ops

instance decidableFreshIds (fps : ℚ) :
    (s : SubtitleModel) → (ops : List Op) → Decidable (FreshIds fps s ops)
  | _, [] => isTrue trivial
  | s, op :: ops =>
    have := decidableFreshIds fps (Op.run fps s op) ops
    by unfold FreshIds; cases op <;> exact instDecidableAnd

/-- The arguments of a call are in range: a move goes to a position whose frame
count is not negative and moves a cue whose end is not before its start; the size
of a resize is not negative and, from the left, not above the frame count of the
cue's end. -/
def Op.InRange (fps : ℚ) (s : SubtitleModel) : Op → Prop
  | .move id newPos =>
    0 ≤ newPos.frames fps ∧
      match s.m_allSubtitles.find id with
      | none => True
      | some st =>
        match s.m_subtitleList.find st with
        | none => True
        | some e => st ≤ e.2
  | .resize id size right =>
    0 ≤ size ∧ (right = false →
      match s.m_allSubtitles.find id with
      | none => True
      | some st =>
        match s.m_subtitleList.find st with
        | none => True
        | some e => size ≤ e.2.frames fps)
  | _ => True

instance decidableOpInRange (fps : ℚ) (s : SubtitleModel) (op : Op) :
    Decidable (op.InRange fps s) := by
  cases op <;> unfold Op.InRange
  · exact instDecidableTrue
  · exact instDecidableTrue
  · refine @instDecidableAnd _ _ _ ?_
    split
    · exact instDecidableTrue
    · split
      · exact instDecidableTrue
      · infer_instance
  · refine @instDecidableAnd _ _ _ (@instDecidableForall _ _ _ ?_)
    split
    · exact instDecidableTrue
    · split
      · exact instDecidableTrue
      · infer_instance
  · exact instDecidableTrue

/-- Every call of the sequence is in range at the time it is made. -/
def InRange (fps : ℚ) : SubtitleModel → List Op → Prop
  | _, [] => True
  | s, op :: ops => op.InRange fps s ∧ InRange fps (Op.run fps s op) ops

instance decidableInRange (fps : ℚ) :
    (s : SubtitleModel) → (ops : List Op) → Decidable (InRange fps s ops)
  | _, [] => isTrue trivial
  | s, op :: ops =>
    have := decidableInRange fps (Op.run fps s op) ops
    by unfold InRange; exact instDecidableAnd

/-- A sequence of calls of every kind: an add, a cut at frame 25 that mints id 2,
a move, a resize from the left, a removal. -/
def exampleOps : List Op :=
  [.add 1 0 2 "Hello", .cut 25 2, .move 1 10, .resize 2 10 false, .remove 1]

/-- A sequence of calls that are all in range: two adds, a cut at frame 25 that
mints id 3, a resize from the right, a resize from the left, a move, a removal. -/
def exampleInRangeOps : List Op :=
  [.add 1 0 2 "Hello", .add 2 3 5 "World", .cut 25 3, .resize 1 10 true,
    .resize 2 25 false, .move 1 10, .remove 3]

/-- The model after `addSubtitle(1, 0 s, 2 s, "a")` and `moveSubtitle(1, -1 s)` on
the empty model, at 25 frames per second: the cue (-1 s, 1 s, "a"). -/
def negStart : SubtitleModel := runOps 25 empty [.add 1 0 2 "a", .move 1 (-1)]

/-- A model with one cue, (0 s, 2 s, "Hello"), registered under id 1. -/
def oneCue : SubtitleModel := ⟨[(0, ("Hello", 2))], [(1, 0)], []⟩

/-- A model with two cues, (0 s, 2 s, "Hello") under id 1 and (3 s, 5 s, "World")
under id 2. -/
def twoCues : SubtitleModel :=
  ⟨[(0, ("Hello", 2)), (3, ("World", 5))], [(1, 0), (2, 3)], []⟩

/-- `SubtitleModel::getSubtitlePlaytime`; `none` when an `at` throws. -/
def getSubtitlePlaytime (fps : ℚ) (s : SubtitleModel) (id : ℤ) : Option ℤ :=
  match s.m_allSubtitles.find id with
  | none => none
  | some startPos =>
    match s.m_subtitleList.find startPos with
    | none => none
    | some e => some ((e.2 - startPos).frames fps)

/-- The model after `addSubtitle(1, 0 s, 2.51 s, "a")` on the empty model at 25
frames per second: the end of the cue lies between two frames. -/
def subFrameCue : SubtitleModel := runOps 25 empty [.add 1 0 (251 / 100) "a"]

/-- The model after `addSubtitle(1, 0 s, 2 s, "a")` and `addSubtitle(2, 1 s, 3 s, "b")`
on the empty model at 25 frames per second: the second cue starts inside the first. -/
def overlapCues : SubtitleModel := runOps 25 empty [.add 1 0 2 "a", .add 2 1 3 "b"]

/-! ### Text: a `QString` as its list of characters

The parsers and the writer of the subtitle files work on lists of characters;
the text of a cue is the `String` of such a list. -/

/-- `QChar::isSpace`. -/
def isSpace (c : Char) : Bool :=
  c.toNat == 0x20 || (0x09 ≤ c.toNat && c.toNat ≤ 0x0d) || c.toNat == 0x85 ||
    c.toNat == 0xa0 || c.toNat == 0x1680 || (0x2000 ≤ c.toNat && c.toNat ≤ 0x200a) ||
    c.toNat == 0x2028 || c.toNat == 0x2029 || c.toNat == 0x202f || c.toNat == 0x205f ||
    c.toNat == 0x3000

/-- A character is put before the first piece of a split. -/
def consHead (c : Char) : List (List Char) → List (List Char)
  | [] => [[c]]
  | h :: t => (c :: h) :: t

/-- The pieces between the characters a predicate holds for, empty pieces kept. -/
def splitBy (p : Char → Bool) : List Char → List (List Char)
  | [] => [[]]
  | c :: cs => if p c then [] :: splitBy p cs else consHead c (splitBy p cs)

/-- `QString::split(sep)` for a character, empty parts kept. -/
def split (sep : Char) (l : List Char) : List (List Char) :=
  splitBy (fun c => c == sep) l

/-- The words, with one space between two of them. -/
def joinWords : List (List Char) → List Char
  | [] => []
  | [w] => w
  | w :: w2 :: t => w ++ ' ' :: joinWords (w2 :: t)

/-- `QString::simplified`: white space removed at both ends, every inner run of
white space replaced by one space. -/
def simplified (l : List Char) : List Char :=
  joinWords ((splitBy isSpace l).filter (fun w => !w.isEmpty))

/-- The first string starts the second. -/
def startsWith : List Char → List Char → Bool
  | [], _ => true
  | _ :: _, [] => false
  | p :: ps, c :: cs => p == c && startsWith ps cs

/-- `QString::contains(pat)`. -/
def contains (pat : List Char) : List Char → Bool
  | [] => startsWith pat []
  | c :: cs => startsWith pat (c :: cs) || contains pat cs

/-- The number a string of decimal digits stands for. -/
def digitsValue (l : List Char) : ℕ :=
  l.foldl (fun acc c => acc * 10 + (c.toNat - 48)) 0

/-- The number `atoi` reads from the characters of a string: white space, a sign,
digits up to the first other character. -/
def atoiValue (l : List Char) : ℤ :=
  match l.dropWhile (fun c => c.toNat == 0x20 || (0x09 ≤ c.toNat && c.toNat ≤ 0x0d)) with
  | '-' :: r => - (digitsValue (r.takeWhile Char.isDigit) : ℤ)
  | '+' :: r => (digitsValue (r.takeWhile Char.isDigit) : ℤ)
  | r => (digitsValue (r.takeWhile Char.isDigit) : ℤ)

/-- `atoi` of the C library on the characters of a string, an `int`; `none` when the
number read is outside the range of `int`, where the result of `atoi` is not
defined. -/
def atoi (l : List Char) : Option ℤ :=
  if -2 ^ 31 ≤ atoiValue l ∧ atoiValue l < 2 ^ 31 then some (atoiValue l) else none

/-- The decimal digits of a number, most significant first, put before `acc`. -/
def toDecimalAux : ℕ → ℕ → List Char → List Char
  | 0, _, acc => acc
  | fuel + 1, n, acc =>
    if n / 10 = 0 then Char.ofNat (48 + n % 10) :: acc
    else toDecimalAux fuel (n / 10) (Char.ofNat (48 + n % 10) :: acc)

/-- The decimal representation of a natural number. -/
def toDecimal (n : ℕ) : List Char := toDecimalAux (n + 1) n []

/-- `QString::arg(a, fieldWidth, 10, QChar('0'))` put in place of its marker: the
decimal representation of an `int`, filled with zeros on the left up to the width. -/
def arg (a : ℤ) (fieldWidth : ℕ) : List Char :=
  let d := if a < 0 then '-' :: toDecimal a.natAbs else toDecimal a.natAbs
  List.replicate (fieldWidth - d.length) '0' ++ d

/-! ### Double precision arithmetic

The arithmetic of `stringtoTime` and of `jsontoSubtitle` is done in `double`; a double
is the rational number it stands for, and every operation gives the double nearest
to its exact result (IEEE 754 binary64, round to nearest, ties to even, each
operation rounded on its own). Results beyond the largest double are not
modelled. -/

/-- The power of two with an integer exponent, as a rational. -/
def pow2 (k : ℤ) : ℚ :=
  if 0 ≤ k then (((2 ^ k.toNat : ℕ) : ℤ) : ℚ) else 1 / (((2 ^ (-k).toNat : ℕ) : ℤ) : ℚ)

/-- The position of the leading binary digit of a number, by halving. -/
def log2Aux : ℕ → ℕ → ℕ
  | 0, _ => 0
  | fuel + 1, n => if n < 2 then 0 else log2Aux fuel (n / 2) + 1

/-- The binary exponent of a positive rational: the `e` with `2^e ≤ x < 2^(e+1)`. -/
def ilog2 (x : ℚ) : ℤ :=
  let a : ℤ := log2Aux x.num.natAbs x.num.natAbs
  let b : ℤ := log2Aux x.den x.den
  if pow2 (a - b) ≤ x then a - b else a - b - 1

/-- The integer nearest to a rational, the even one of the two when it lies half way
between them. -/
def roundHalfEven (q : ℚ) : ℤ :=
  if q - ⌊q⌋ < 1 / 2 then ⌊q⌋
  else if 1 / 2 < q - ⌊q⌋ then ⌊q⌋ + 1
  else if ⌊q⌋ % 2 = 0 then ⌊q⌋ else ⌊q⌋ + 1

/-- The double nearest to a rational: 53 binary digits from the leading one, and no
digit below 2^(-1074). -/
def roundDouble (x : ℚ) : ℚ :=
  if x = 0 then 0
  else
    let k := max (ilog2 |x| - 52) (-1074)
    (roundHalfEven (x / pow2 k) : ℚ) * pow2 k

/-- `SubtitleModel::stringtoTime`, the sum `hours * 3600 + mins * 60 + seconds +
ms * 0.001` computed in `double` from the four `int` values of `atoi`; `none` when a
list is indexed out of range or a field is outside the range of `int`. -/
def stringtoTime (str : List Char) : Option GenTime :=
  let total := split ':' str
  match total[0]?, total[1]?, total[2]? with
  | some h, some m, some s2 =>
    let secs := if contains ['.'] s2 then split '.' s2 else split ',' s2
    match secs[0]?, secs[1]? with
    | some sc, some msStr =>
      match atoi h, atoi m, atoi sc, atoi msStr with
      | some hours, some mins, some seconds, some ms =>
        some (roundDouble (roundDouble (roundDouble (roundDouble ((hours : ℚ) * 3600)
          + roundDouble ((mins : ℚ) * 60)) + (seconds : ℚ))
          + roundDouble ((ms : ℚ) * roundDouble (1 / 1000))))
      | _, _, _, _ => none
    | _, _ => none
  | _, _, _ => none

/-- The integer part of a double: the fraction is dropped. -/
def truncate (q : ℚ) : ℤ := if 0 ≤ q then ⌊q⌋ else ⌈q⌉

/-- The conversion of a `double` to `int`: the integer part; `none` when the integer
part is outside the range of `int`, where the conversion is not defined. -/
def toInt (q : ℚ) : Option ℤ :=
  if -2 ^ 31 ≤ truncate q ∧ truncate q < 2 ^ 31 then some (truncate q) else none

/-- The value `int millisec = startPos * 1000` of `jsontoSubtitle`: `startPos` is the
time as a double (`toDouble` of the number `toJson` writes), the product is a double,
and it is converted to `int`. -/
def millis (t : ℚ) : Option ℤ := toInt (roundDouble (roundDouble t * 1000))

/-- The fields `hours`, `minutes`, `seconds`, `millisec` that `jsontoSubtitle`
computes for a time in seconds. -/
def timeFields (t : ℚ) : Option (ℤ × ℤ × ℤ × ℤ) :=
  match millis t with
  | none => none
  | some millisec0 =>
    let seconds0 := millisec0.tdiv 1000
    let millisec := millisec0.tmod 1000
    let minutes0 := seconds0.tdiv 60
    let seconds := seconds0.tmod 60
    let hours := minutes0.tdiv 60
    let minutes := minutes0.tmod 60
    some (hours, minutes, seconds, millisec)

/-- The strings `startTimeStringSRT` and `endTimeStringSRT` of `jsontoSubtitle`. -/
def timeStringSRT (t : ℚ) : Option (List Char) :=
  match timeFields t with
  | none => none
  | some f =>
    some (arg f.1 1 ++ [':'] ++ arg f.2.1 2 ++ [':'] ++ arg f.2.2.1 2 ++ [','] ++ arg f.2.2.2 3)

/-- The strings `startTimeString` and `endTimeString` of `jsontoSubtitle`, for the
ass format: `milli_2 = millisec / 10` on two digits. -/
def timeString (t : ℚ) : Option (List Char) :=
  match timeFields t with
  | none => none
  | some f =>
    some (arg f.1 1 ++ [':'] ++ arg f.2.1 2 ++ [':'] ++ arg f.2.2.1 2 ++ ['.'] ++
      arg (f.2.2.2.tdiv 10) 2)

/-- An entry of the array `toJson` builds: `startPos`, `dialogue`, `endPos`. -/
structure JsonEntry where
  startPos : ℚ
  dialogue : String
  endPos : ℚ
  deriving DecidableEq

/-- `SubtitleModel::toJson`: one entry for each cue, in start order. The array
stands for its JSON text. -/
def toJson (s : SubtitleModel) : List JsonEntry :=
  s.m_subtitleList.map (fun p => ⟨p.1, p.2.1, p.2.2⟩)

/-- The loop of `jsontoSubtitle` for a destination that does not end in `.ass`: the
text written for the entries after `line` blocks. -/
def srtBlocks : ℕ → List JsonEntry → Option (List Char)
  | _, [] => some []
  | line, e :: es =>
    (timeStringSRT e.startPos).bind fun startTimeStringSRT =>
    (timeStringSRT e.endPos).bind fun endTimeStringSRT =>
    (srtBlocks (line + 1) es).map fun rest =>
      toDecimal (line + 1) ++ ['\n'] ++ startTimeStringSRT ++ " --> ".toList ++
        endTimeStringSRT ++ ['\n'] ++ e.dialogue.toList ++ ['\n'] ++ ['\n'] ++ rest

/-- `SubtitleModel::jsontoSubtitle` for an `.srt` destination: the text of the file. -/
def jsontoSubtitle (data : List JsonEntry) : Option (List Char) := srtBlocks 0 data

/-- The last piece of a split is left out when it is empty. -/
def dropEmptyLast : List (List Char) → List (List Char)
  | [] => []
  | [l] => if l.isEmpty then [] else [l]
  | l :: l2 :: t => l :: dropEmptyLast (l2 :: t)

/-- The lines `QTextStream::readLineInto` reads up to the end of a text. -/
def readLines (content : List Char) : List (List Char) :=
  dropEmptyLast (split '\n' content)

/-- The variables of the loop of `importSubtitle` over the lines of an `.srt` file,
the id the allocator hands out next, and the model. -/
structure SrtState where
  turn : ℤ
  r : ℤ
  comment : List Char
  timeLine : List Char
  startPos : GenTime
  endPos : GenTime
  nextId : ℤ
  model : SubtitleModel

/-- One turn of the loop of `importSubtitle` over the lines of an `.srt` file;
`none` when `stringtoTime` indexes a list out of range. Modelled from the spec:
`TimelineModel::getNextId` is a counter. -/
def srtLine (fps : ℚ) (subtitleOffset : GenTime) (st : SrtState) (raw : List Char) :
    Option SrtState :=
  let line := simplified raw
  if !line.isEmpty then
    if st.turn = 0 then some { st with turn := st.turn + 1 }
    else if contains "-->".toList line then
      let timeLine := st.timeLine ++ line
      let srtTime := split ' ' timeLine
      if srtTime.length < 3 then some { st with timeLine := timeLine }
      else
        match stringtoTime (srtTime.getD 0 []) with
        | none => none
        | some startPos =>
          match stringtoTime (srtTime.getD 2 []) with
          | none => none
          | some endPos =>
            some { st with timeLine := timeLine, startPos := startPos, endPos := endPos,
                           turn := st.turn + 1 }
    else
      let r := st.r + 1
      let comment1 := if !st.comment.isEmpty then st.comment ++ [' '] else st.comment
      let comment2 := if r = 1 then comment1 ++ line else comment1 ++ ['\r'] ++ line
      some { st with r := r, comment := comment2, turn := st.turn + 1 }
  else
    let res := addSubtitle fps st.model st.nextId (st.startPos + subtitleOffset)
      (st.endPos + subtitleOffset) (String.mk st.comment)
    some { st with model := res.2, nextId := st.nextId + 1, comment := [], timeLine := [],
                   turn := 0, r := 0 }

/-- The loop of `importSubtitle` over the lines of an `.srt` file. -/
def srtLines (fps : ℚ) (subtitleOffset : GenTime) : SrtState → List (List Char) → Option SrtState
  | st, [] => some st
  | st, raw :: rest =>
    match srtLine fps subtitleOffset st raw with
    | none => none
    | some st' => srtLines fps subtitleOffset st' rest

/-- `SubtitleModel::importSubtitle(filePath, offset, externalImport)` for a path that
ends in `.srt`, on the text of the file; `none` when `stringtoTime` indexes a list
out of range. -/
def importSubtitle (fps : ℚ) (s : SubtitleModel) (nextId : ℤ) (content : List Char)
    (offset : ℤ) : Option SubtitleModel :=
  let subtitleOffset := GenTime.ofFrames offset fps
  match srtLines fps subtitleOffset ⟨0, 0, [], [], 0, 0, nextId, s⟩ (readLines content) with
  | none => none
  | some st => some st.model

/-- A model with one cue, (1 s, 2 s), whose text has two lines, registered under id 1. -/
def twoLineCue : SubtitleModel := ⟨[(1, ("a\nb", 2))], [(1, 1)], []⟩

/-- `SubtitleModel::getItemsInRange(startFrame, endFrame)`: the ids put in the set, in
the order of the loop over the store; the set returned is the set of the members
of this list. -/
def getItemsInRange (fps : ℚ) (s : SubtitleModel) (startFrame endFrame : ℤ) : List ℤ :=
  let startTime := GenTime.ofFrames startFrame fps
  let endTime := GenTime.ofFrames endFrame fps
  (s.m_subtitleList.filter (fun p =>
      !(decide (endFrame > -1) && decide (p.1 > endTime)) &&
        (decide (p.1 ≥ startTime) || decide (p.2.2 ≥ startTime)))).map
    (fun p => getIdForStartPos s p.1)

/-- `std::distance(m.begin(), m.find(k))`: the position of the key in the order of the
map, the size of the map when the key is missing. -/
def rowOf : StdMap GenTime (String × GenTime) → GenTime → ℕ
  | [], _ => 0
  | (k', _) :: t, k => if k = k' then 0 else rowOf t k + 1

/-- `SubtitleModel::getPreviousSub`; the iterator advanced by `row` stays inside the
map, so the default of `getD` is never taken. -/
def getPreviousSub (s : SubtitleModel) (id : ℤ) : ℤ :=
  let start := getStartPosForId s id
  let row : ℤ := rowOf s.m_subtitleList start
  if row > 0 then
    let res := s.m_subtitleList.keys.getD (row - 1).toNat 0
    getIdForStartPos s res
  else -1

/-- `SubtitleModel::getNextSub`; the iterator advanced by `row` stays inside the map,
so the default of `getD` is never taken. -/
def getNextSub (s : SubtitleModel) (id : ℤ) : ℤ :=
  let start := getStartPosForId s id
  let row : ℤ := rowOf s.m_subtitleList start
  if row < (s.m_subtitleList.size : ℤ) - 1 then
    let res := s.m_subtitleList.keys.getD (row + 1).toNat 0
    getIdForStartPos s res
  else -1

/-! ### The calls a snap listener has received -/

/-- The frames of the `addPoint` calls of a log. -/
def snapAdded : List SnapCall → List ℤ
  | [] => []
  | .addPoint f :: t => f :: snapAdded t
  | .removePoint _ :: t => snapAdded t

/-- The frames of the `removePoint` calls of a log. -/
def snapRemoved : List SnapCall → List ℤ
  | [] => []
  | .addPoint _ :: t => snapRemoved t
  | .removePoint f :: t => f :: snapRemoved t

/-- The start frame and the end frame of every cue of a store. -/
def boundaryFrames (fps : ℚ) : StdMap GenTime (String × GenTime) → List ℤ
  | [] => []
  | p :: t => p.1.frames fps :: p.2.2.frames fps :: boundaryFrames fps t

/-- The frames a listener holds are the boundaries of the cues: the frames added are,
as a multiset, the frames removed together with the start and end frames of the
cues of the store. -/
def SnapSynced (fps : ℚ) (s : SubtitleModel) : Prop :=
  (snapAdded s.snapLog : Multiset ℤ)
    = (snapRemoved s.snapLog : Multiset ℤ) + (boundaryFrames fps s.m_subtitleList : Multiset ℤ)

instance (fps : ℚ) (s : SubtitleModel) : Decidable (SnapSynced fps s) := by
  unfold SnapSynced; infer_instance

/-! ### The `.ass` format -/

/-- The pieces of `QString::split(sep)` for a string separator that is not empty;
`skip` counts the characters of a separator just found that are still to be passed. -/
def splitStrAux (sep : List Char) : ℕ → List Char → List (List Char)
  | _, [] => [[]]
  | skip + 1, _ :: cs => splitStrAux sep skip cs
  | 0, c :: cs =>
    if startsWith sep (c :: cs) then [] :: splitStrAux sep (sep.length - 1) cs
    else consHead c (splitStrAux sep 0 cs)

/-- `QString::split(sep)` for a string separator that is not empty, empty parts kept. -/
def splitStr (sep l : List Char) : List (List Char) := splitStrAux sep 0 l

/-- `QString::replace(" ", "")`. -/
def removeSpaces (l : List Char) : List Char := l.filter (fun c => c != ' ')

/-- The parts with the separator between them. -/
def joinWith (sep : Char) : List (List Char) → List Char
  | [] => []
  | [w] => w
  | w :: w2 :: t => w ++ sep :: joinWith sep (w2 :: t)

/-- `QString::section(sep, start)`: the fields from position `start` to the last. -/
def sectionFrom (sep : Char) (start : ℕ) (l : List Char) : List Char :=
  joinWith sep ((split sep l).drop start)

/-- The fields `scriptInfoSection`, `styleSection`, `eventSection` and `styleName`. -/
structure AssSections where
  scriptInfoSection : List Char
  styleSection : List Char
  eventSection : List Char
  styleName : List Char
  deriving DecidableEq

/-- The values the constructor of `SubtitleModel` gives the four fields, for a frame
display size of `width` by `height`. -/
def AssSections.fresh (width height : ℤ) : AssSections :=
  let fontSize := height.tdiv 15
  let fontMargin := height - 2 * fontSize
  { scriptInfoSection :=
      "[Script Info]\n; This is a Sub Station Alpha v4 script.\n;\nScriptType: v4.00\nCollisions: Normal\nPlayResX: ".toList
        ++ arg width 0 ++ "\nPlayResY: ".toList ++ arg height 0 ++ "\nTimer: 100.0000\n".toList
    styleSection :=
      "[V4 Styles]\nFormat: Name, Fontname, Fontsize, PrimaryColour, SecondaryColour, TertiaryColour, BackColour, Bold, Italic, BorderStyle, Outline, Shadow, Alignment, MarginL, MarginR, MarginV, AlphaLevel, Encoding\nStyle: Default,Consolas,".toList
        ++ arg fontSize 0 ++ ",16777215,65535,255,0,-1,0,1,2,2,6,40,40,".toList
        ++ arg fontMargin 0 ++ ",0,1\n".toList
    eventSection := "[Events]\n".toList
    styleName := "Default".toList }

/-- The loop of `jsontoSubtitle` for a destination that ends in `.ass`: the `Dialogue`
lines written for the entries. -/
def assDialogues (styleName : List Char) : List JsonEntry → Option (List Char)
  | [] => some []
  | e :: es =>
    (timeString e.startPos).bind fun startTimeString =>
    (timeString e.endPos).bind fun endTimeString =>
    (assDialogues styleName es).map fun rest =>
      "Dialogue: 0,".toList ++ startTimeString ++ [','] ++ endTimeString ++ [','] ++
        styleName ++ ",,0000,0000,0000,,".toList ++ e.dialogue.toList ++ ['\n'] ++ rest

/-- `SubtitleModel::jsontoSubtitle` for an `.ass` destination: the text of the file. -/
def jsontoSubtitleAss (sec : AssSections) (data : List JsonEntry) : Option (List Char) :=
  (assDialogues sec.styleName data).map fun dialogues =>
    sec.scriptInfoSection ++ ['\n'] ++ sec.styleSection ++ ['\n'] ++ sec.eventSection ++
      dialogues

/-- The variables of the loop of `importSubtitle` over the lines of an `.ass` file
(`sectionName` is the variable `section`), the four fields, the id the allocator
hands out next, and the model. The variables `startTime`, `endTime` and `text` are
written and never read. -/
structure AssState where
  turn : ℤ
  sectionName : List Char
  maxSplit : ℕ
  EventFormat : List Char
  sections : AssSections
  nextId : ℤ
  model : SubtitleModel

/-- The part of one turn of the `.ass` loop that handles a line of the section
`V4 Styles`. -/
def assStyleLine (sec : AssSections) (line : List Char) : Option AssSections :=
  match (splitStr ": ".toList line)[1]? with
  | none => none
  | some f =>
    match (split ',' (removeSpaces f))[0]? with
    | none => none
    | some name => some { sec with styleSection := sec.styleSection ++ line ++ ['\n'],
                                   styleName := name }

/-- The part of one turn of the `.ass` loop that handles a line of the section
`Events`. -/
def assEventLine (fps : ℚ) (subtitleOffset : GenTime) (st : AssState) (sec : AssSections)
    (line : List Char) : Option AssState :=
  if contains "Format:".toList line then
    let eventFormat := st.EventFormat ++ line
    match (splitStr ": ".toList eventFormat)[1]? with
    | none => none
    | some f =>
      let format := split ',' (removeSpaces f)
      match format[1]?, format[2]?, format[9]? with
      | some _, some _, some _ =>
        some { st with sections := { sec with eventSection := sec.eventSection ++ line ++ ['\n'] },
                       EventFormat := eventFormat, maxSplit := format.length,
                       turn := st.turn + 1 }
      | _, _, _ => none
  else
    match (splitStr ": ".toList line)[1]? with
    | none => none
    | some d =>
      let dialogue := split ',' d
      let remainingStr := ',' :: sectionFrom ',' st.maxSplit d
      match dialogue[1]?, dialogue[2]?, dialogue[9]? with
      | some start, some endStr, some txt =>
        match stringtoTime start with
        | none => none
        | some startPos =>
          match stringtoTime endStr with
          | none => none
          | some endPos =>
            let comment := txt ++ remainingStr
            let res := addSubtitle fps st.model st.nextId (startPos + subtitleOffset)
              (endPos + subtitleOffset) (String.mk comment)
            some { st with sections := sec, model := res.2, nextId := st.nextId + 1,
                           turn := st.turn + 1 }
      | _, _, _ => none

/-- One turn of the loop of `importSubtitle` over the lines of an `.ass` file; `none`
when a list is indexed out of range. Modelled from the spec:
`TimelineModel::getNextId` is a counter. -/
def assLine (fps : ℚ) (subtitleOffset : GenTime) (st : AssState) (raw : List Char) :
    Option AssState :=
  let line := simplified raw
  if !line.isEmpty then
    if st.turn = 0 ∧ contains "ScriptInfo".toList (removeSpaces line) = true then
      some { st with sectionName := "Script Info".toList,
                     sections := { st.sections with
                       scriptInfoSection := st.sections.scriptInfoSection ++ line ++ ['\n'] },
                     turn := st.turn + 1 }
    else if st.turn = 0 ∧ contains "Styles".toList line = true then
      some { st with sectionName := "V4 Styles".toList,
                     sections := { st.sections with
                       styleSection := st.sections.styleSection ++ line ++ ['\n'] },
                     turn := st.turn + 1 }
    else if st.turn = 0 ∧ contains "Events".toList line = true then
      some { st with sectionName := "Events".toList,
                     sections := { st.sections with
                       eventSection := st.sections.eventSection ++ line ++ ['\n'] },
                     turn := st.turn + 1 }
    else
      let sec1 :=
        if contains "Script Info".toList st.sectionName then
          { st.sections with
            scriptInfoSection := st.sections.scriptInfoSection ++ line ++ ['\n'] }
        else st.sections
      match (if contains "V4 Styles".toList st.sectionName then assStyleLine sec1 line
             else some sec1) with
      | none => none
      | some sec2 =>
        if contains "Events".toList st.sectionName then
          assEventLine fps subtitleOffset st sec2 line
        else some { st with sections := sec2, turn := st.turn + 1 }
  else some { st with turn := 0 }

/-- The loop of `importSubtitle` over the lines of an `.ass` file. -/
def assLines (fps : ℚ) (subtitleOffset : GenTime) : AssState → List (List Char) → Option AssState
  | st, [] => some st
  | st, raw :: rest =>
    match assLine fps subtitleOffset st raw with
    | none => none
    | some st' => assLines fps subtitleOffset st' rest

/-- `SubtitleModel::importSubtitle(filePath, offset, externalImport)` for a path that
ends in `.ass`, on the text of the file: the model and the four fields; `none` when
a list is indexed out of range. -/
def importSubtitleAss (fps : ℚ) (s : SubtitleModel) (sec : AssSections) (nextId : ℤ)
    (content : List Char) (offset : ℤ) : Option (SubtitleModel × AssSections) :=
  let subtitleOffset := GenTime.ofFrames offset fps
  let cleared : AssSections :=
    { sec with scriptInfoSection := [], styleSection := [], eventSection := [] }
  match assLines fps subtitleOffset ⟨0, [], 0, [], cleared, nextId, s⟩ (readLines content) with
  | none => none
  | some st => some (st.model, st.sections)

/-- The four fields after the import of an `.ass` file whose section `Events` has the
usual `Format:` line, for a frame display size of `width` by `height`. -/
def AssSections.withFormat (width height : ℤ) : AssSections :=
  { AssSections.fresh width height with
    eventSection :=
      "[Events]\nFormat: Layer, Start, End, Style, Name, MarginL, MarginR, MarginV, Effect, Text\n".toList }

/-- A model with one cue, (0 s, 2 s), whose text has a comma, registered under id 1. -/
def commaCue : SubtitleModel := ⟨[(0, ("a,b", 2))], [(1, 0)], []⟩
end SubtitleModel

/-! ## Lemmas on `StdMap` -/

namespace StdMap

variable {K V : Type} [LinearOrder K]

theorem find_assign_self (m : StdMap K V) (k : K) (v : V) :
    (m.assign k v).find k = some v := by
  induction m with
  | nil => simp [assign, find]
  | cons hd t ih =>
    obtain ⟨k', v'⟩ := hd
    unfold assign
    split_ifs with h1 h2
    · simp [find]
    · simp [find]
    · have : k ≠ k' := h2
      simp [find, this, ih]

theorem find_assign_ne (m : StdMap K V) {j k : K} (v : V) (h : j ≠ k) :
    (m.assign k v).find j = m.find j := by
  induction m with
  | nil => simp [assign, find, h]
  | cons hd t ih =>
    obtain ⟨k', v'⟩ := hd
    unfold assign
    split_ifs with h1 h2
    · simp [find, h]
    · subst h2; simp [find, h]
    · by_cases hj : j = k'
      · simp [find, hj]
      · simp [find, hj, ih]

theorem find_erase_self (m : StdMap K V) (k : K) : (m.erase k).find k = none := by
  induction m with
  | nil => simp [erase, find]
  | cons hd t ih =>
    obtain ⟨k', v'⟩ := hd
    by_cases h : k' = k
    · simpa [erase, List.filter_cons, h] using ih
    · have h' : k ≠ k' := fun e => h e.symm
      simpa [erase, List.filter_cons, h, find, h'] using ih

theorem find_erase_ne (m : StdMap K V) {j k : K} (h : j ≠ k) :
    (m.erase k).find j = m.find j := by
  induction m with
  | nil => simp [erase, find]
  | cons hd t ih =>
    obtain ⟨k', v'⟩ := hd
    by_cases h1 : k' = k
    · subst h1
      simpa [erase, List.filter_cons, find, h] using ih
    · by_cases h2 : j = k'
      · simp [erase, List.filter_cons, h1, find, h2]
      · simpa [erase, List.filter_cons, h1, find, h2] using ih

theorem count_pos_iff (m : StdMap K V) (k : K) : m.count k > 0 ↔ ∃ v, m.find k = some v := by
  unfold count
  cases h : m.find k <;> simp

theorem count_eq_zero_iff (m : StdMap K V) (k : K) : m.count k = 0 ↔ m.find k = none := by
  unfold count
  cases h : m.find k <;> simp

theorem find_eq_none_iff (m : StdMap K V) (k : K) : m.find k = none ↔ k ∉ m.keys := by
  induction m with
  | nil => simp [find, keys]
  | cons hd t ih =>
    obtain ⟨k', v'⟩ := hd
    by_cases h : k = k'
    · simp [find, keys, h]
    · simp only [find, h, if_false, keys, List.map_cons, List.mem_cons, false_or]
      simpa [keys] using ih

theorem find_some_mem (m : StdMap K V) {k : K} {v : V} (h : m.find k = some v) :
    (k, v) ∈ m := by
  induction m with
  | nil => simp [find] at h
  | cons hd t ih =>
    obtain ⟨k', v'⟩ := hd
    by_cases hk : k = k'
    · subst hk
      simp [find] at h
      simp [h]
    · simp [find, hk] at h
      exact List.mem_cons_of_mem _ (ih h)

theorem mem_keys_iff (m : StdMap K V) (k : K) : k ∈ m.keys ↔ ∃ v, m.find k = some v := by
  rw [← not_iff_not, ← find_eq_none_iff]
  cases h : m.find k <;> simp

theorem erase_of_find_none (m : StdMap K V) {k : K} (h : m.find k = none) :
    m.erase k = m := by
  rw [find_eq_none_iff] at h
  unfold erase
  rw [List.filter_eq_self]
  intro e he
  have : e.1 ∈ m.keys := List.mem_map_of_mem _ he
  simp only [ne_eq, decide_eq_true_eq]
  rintro rfl
  exact h this

theorem erase_assign_of_find_none (m : StdMap K V) {k : K} (v : V) (h : m.find k = none) :
    (m.assign k v).erase k = m := by
  induction m with
  | nil => simp [assign, erase]
  | cons hd t ih =>
    obtain ⟨k', v'⟩ := hd
    have hk : k ≠ k' := by
      intro e; simp [find, e] at h
    have ht : find t k = none := by simpa [find, hk] using h
    have hk' : k' ≠ k := fun e => hk e.symm
    unfold assign
    split_ifs with h1
    · have := erase_of_find_none ((k', v') :: t) h
      simpa [erase, List.filter_cons] using this
    · have := ih ht
      simp only [erase, List.filter_cons, ne_eq, hk', not_false_eq_true, decide_True, if_true]
      simpa [erase] using this

theorem assign_assign (m : StdMap K V) (k : K) (v v' : V) :
    (m.assign k v).assign k v' = m.assign k v' := by
  induction m with
  | nil => simp [assign]
  | cons hd t ih =>
    obtain ⟨k', w⟩ := hd
    by_cases h1 : k < k'
    · simp [assign, h1]
    · by_cases h2 : k = k'
      · simp [assign, h1, h2]
      · simp [assign, h1, h2, ih]

theorem sorted_cons {k : K} {v : V} {t : StdMap K V} :
    Sorted ((k, v) :: t) ↔ (∀ j ∈ t.keys, k < j) ∧ Sorted t := by
  simp [Sorted, keys, List.pairwise_cons]

theorem find_none_of_lt (t : StdMap K V) {k : K} (h : ∀ j ∈ t.keys, k < j) :
    t.find k = none := by
  rw [find_eq_none_iff]
  intro hk
  exact lt_irrefl _ (h k hk)

theorem assign_of_find (m : StdMap K V) {k : K} {v : V} (hs : Sorted m)
    (h : m.find k = some v) : m.assign k v = m := by
  induction m with
  | nil => simp [find] at h
  | cons hd t ih =>
    obtain ⟨k', w⟩ := hd
    rw [sorted_cons] at hs
    by_cases hk : k = k'
    · subst hk
      simp [find] at h
      simp [assign, h]
    · simp only [find, hk, if_false] at h
      have hmem : k ∈ keys t := (mem_keys_iff t k).2 ⟨v, h⟩
      have hlt : ¬ k < k' := not_lt.2 (le_of_lt (hs.1 k hmem))
      simp [assign, hlt, hk, ih hs.2 h]

theorem assign_erase_of_find (m : StdMap K V) {k : K} {v : V} (hs : Sorted m)
    (h : m.find k = some v) : (m.erase k).assign k v = m := by
  induction m with
  | nil => simp [find] at h
  | cons hd t ih =>
    obtain ⟨k', w⟩ := hd
    rw [sorted_cons] at hs
    by_cases hk : k = k'
    · subst hk
      simp [find] at h
      subst h
      have hn : find t k = none := find_none_of_lt t hs.1
      have he : erase t k = t := erase_of_find_none t hn
      have : erase ((k, w) :: t) k = t := by
        simpa [erase, List.filter_cons] using he
      rw [this]
      cases t with
      | nil => simp [assign]
      | cons hd2 t2 =>
        obtain ⟨k2, w2⟩ := hd2
        have : k < k2 := hs.1 k2 (by simp [keys])
        simp [assign, this]
    · simp only [find, hk, if_false] at h
      have hmem : k ∈ keys t := (mem_keys_iff t k).2 ⟨v, h⟩
      have hlt : ¬ k < k' := not_lt.2 (le_of_lt (hs.1 k hmem))
      have hk' : k' ≠ k := fun e => hk e.symm
      have : erase ((k', w) :: t) k = (k', w) :: erase t k := by
        simp [erase, List.filter_cons, hk']
      rw [this]
      simp [assign, hlt, hk, ih hs.2 h]

theorem mem_keys_assign (m : StdMap K V) (k j : K) (v : V) :
    j ∈ (m.assign k v).keys ↔ j = k ∨ j ∈ m.keys := by
  rw [mem_keys_iff, mem_keys_iff]
  by_cases h : j = k
  · subst h; simp [find_assign_self]
  · simp [find_assign_ne m v h, h]

theorem mem_keys_erase (m : StdMap K V) (k j : K) :
    j ∈ (m.erase k).keys ↔ j ≠ k ∧ j ∈ m.keys := by
  rw [mem_keys_iff, mem_keys_iff]
  by_cases h : j = k
  · subst h; simp [find_erase_self]
  · simp [find_erase_ne m h, h]

theorem sorted_erase (m : StdMap K V) (k : K) (hs : Sorted m) : Sorted (m.erase k) := by
  unfold Sorted erase at *
  exact (List.Pairwise.sublist ((List.filter_sublist m).map Prod.fst) hs)

theorem sorted_assign (m : StdMap K V) (k : K) (v : V) (hs : Sorted m) :
    Sorted (m.assign k v) := by
  induction m with
  | nil => simp [assign, Sorted]
  | cons hd t ih =>
    obtain ⟨k', w⟩ := hd
    have hs' := hs
    rw [sorted_cons] at hs
    unfold assign
    split_ifs with h1 h2
    · rw [sorted_cons]
      refine ⟨?_, hs'⟩
      intro j hj
      simp only [keys, List.map_cons, List.mem_cons] at hj
      rcases hj with rfl | hj
      · exact h1
      · exact lt_trans h1 (hs.1 j hj)
    · subst h2
      rw [sorted_cons]
      exact hs
    · rw [sorted_cons]
      refine ⟨?_, ih hs.2⟩
      intro j hj
      rw [mem_keys_assign] at hj
      rcases hj with rfl | hj
      · exact lt_of_le_of_ne (not_lt.1 h1) (fun e => h2 e.symm)
      · exact hs.1 j hj

theorem size_assign_of_find_none (m : StdMap K V) {k : K} (v : V) (h : m.find k = none) :
    (m.assign k v).size = m.size + 1 := by
  induction m with
  | nil => simp [assign, size]
  | cons hd t ih =>
    obtain ⟨k', w⟩ := hd
    have hk : k ≠ k' := by
      intro e; simp [find, e] at h
    have ht : find t k = none := by simpa [find, hk] using h
    unfold assign
    split_ifs with h1
    · simp [size]
    · have := ih ht
      simp only [size, List.length_cons] at this ⊢
      omega

theorem size_erase_of_find (m : StdMap K V) {k : K} {v : V} (hs : Sorted m)
    (h : m.find k = some v) : (m.erase k).size + 1 = m.size := by
  have h1 := size_assign_of_find_none (m.erase k) v (find_erase_self m k)
  rw [assign_erase_of_find m hs h] at h1
  exact h1.symm

theorem keys_assign_of_find (m : StdMap K V) {k : K} {v0 : V} (v : V) (hs : Sorted m)
    (h : m.find k = some v0) : (m.assign k v).keys = m.keys := by
  induction m with
  | nil => simp [find] at h
  | cons hd t ih =>
    obtain ⟨k', w⟩ := hd
    rw [sorted_cons] at hs
    by_cases hk : k = k'
    · subst hk
      simp [assign, keys]
    · simp only [find, hk, if_false] at h
      have hmem : k ∈ keys t := (mem_keys_iff t k).2 ⟨v0, h⟩
      have hlt : ¬ k < k' := not_lt.2 (le_of_lt (hs.1 k hmem))
      have := ih hs.2 h
      simp only [keys] at this
      simp [assign, hlt, hk, keys, this]

theorem size_assign_of_find (m : StdMap K V) {k : K} {v0 : V} (v : V) (hs : Sorted m)
    (h : m.find k = some v0) : (m.assign k v).size = m.size := by
  have := congrArg List.length (keys_assign_of_find m v hs h)
  simpa [keys, size] using this

theorem find_of_mem_sorted (m : StdMap K V) {k : K} {v : V} (hs : Sorted m)
    (h : (k, v) ∈ m) : m.find k = some v := by
  induction m with
  | nil => simp at h
  | cons hd t ih =>
    obtain ⟨k', w⟩ := hd
    rw [sorted_cons] at hs
    rcases List.mem_cons.1 h with h | h
    · cases h; simp [find]
    · have hmem : k ∈ keys t := List.mem_map_of_mem Prod.fst h
      have hne : k ≠ k' := ne_of_gt (hs.1 k hmem)
      simp [find, hne, ih hs.2 h]

theorem find?_key (m : StdMap K V) (k : K) :
    List.find? (fun e => decide (e.1 = k)) m = (m.find k).map (fun v => (k, v)) := by
  induction m with
  | nil => simp [find]
  | cons hd t ih =>
    obtain ⟨k', v'⟩ := hd
    by_cases h : k' = k
    · subst h; simp [find]
    · have h' : k ≠ k' := fun e => h e.symm
      simp [List.find?_cons, h, find, h', ih]

end StdMap

/-! ## addSubtitle -/

namespace SubtitleModel

open StdMap

/-- C1: `addSubtitle` returns false exactly when start or end has a negative frame
count, or the frame count of start exceeds that of end, or the store already has
a cue keyed by start; and whenever it returns false the whole model (cue store,
id registry, snap calls) is what it was, so the cue at an occupied start is not
overwritten and the number of cues does not change. -/
theorem C1_addSubtitle_false_iff (fps : ℚ) (s : SubtitleModel) (id : ℤ)
    (start endPos : GenTime) (str : String) :
    ((addSubtitle fps s id start endPos str).1 = false ↔
      (start.frames fps < 0 ∨ endPos.frames fps < 0 ∨
        start.frames fps > endPos.frames fps ∨ start ∈ s.m_subtitleList.keys)) ∧
    ((addSubtitle fps s id start endPos str).1 = false →
      (addSubtitle fps s id start endPos str).2 = s ∧
      (addSubtitle fps s id start endPos str).2.m_subtitleList.find start
        = s.m_subtitleList.find start ∧
      (addSubtitle fps s id start endPos str).2.m_subtitleList.size
        = s.m_subtitleList.size) := by
  unfold addSubtitle
  rw [mem_keys_iff, ← count_pos_iff]
  split_ifs with h1 h2 h3
  · simp only [true_iff, true_implies, and_self, and_true]
    rcases h1 with h | h
    · exact Or.inl h
    · exact Or.inr (Or.inl h)
  · simp only [true_iff, true_implies, and_self, and_true]
    exact Or.inr (Or.inr (Or.inl h2))
  · simp only [true_iff, true_implies, and_self, and_true]
    exact Or.inr (Or.inr (Or.inr h3))
  · simp only [Bool.true_eq_false, false_iff, false_implies, and_true]
    rintro (h | h | h | h)
    · exact h1 (Or.inl h)
    · exact h1 (Or.inr h)
    · exact h2 h
    · exact h3 h

/-- C2: for an id that is not registered, times with
`0 ≤ frames start ≤ frames end` and a start that is not a key of the store,
`addSubtitle` returns true; afterwards `getStartPosForId id = start`,
`getText id = text`, `getSubtitle start = (start, text, end)`, the store has one
more cue, and the cue found at any other key is what it was. -/
theorem C2_addSubtitle_success (fps : ℚ) (s : SubtitleModel) (id : ℤ)
    (start endPos : GenTime) (str : String)
    (hid : s.m_allSubtitles.find id = none)
    (h0 : 0 ≤ start.frames fps) (hle : start.frames fps ≤ endPos.frames fps)
    (hfree : start ∉ s.m_subtitleList.keys) :
    (addSubtitle fps s id start endPos str).1 = true ∧
    getStartPosForId (addSubtitle fps s id start endPos str).2 id = start ∧
    getText (addSubtitle fps s id start endPos str).2 id = some str ∧
    getSubtitle (addSubtitle fps s id start endPos str).2 start = ⟨start, str, endPos⟩ ∧
    (addSubtitle fps s id start endPos str).2.m_subtitleList.size
      = s.m_subtitleList.size + 1 ∧
    (∀ k, k ≠ start →
      (addSubtitle fps s id start endPos str).2.m_subtitleList.find k
        = s.m_subtitleList.find k) ∧
    (∀ k e, s.m_subtitleList.find k = some e →
      (addSubtitle fps s id start endPos str).2.m_subtitleList.find k = some e) := by
  have hnone : s.m_subtitleList.find start = none := (find_eq_none_iff _ _).2 hfree
  have hcount : ¬ s.m_subtitleList.count start > 0 := by
    rw [count_pos_iff, hnone]; simp
  have h1 : ¬ (start.frames fps < 0 ∨ endPos.frames fps < 0) := by
    rintro (h | h) <;> omega
  have h2 : ¬ start.frames fps > endPos.frames fps := by omega
  have hval : addSubtitle fps s id start endPos str =
      (true, ⟨s.m_subtitleList.assign start (str, endPos),
        s.m_allSubtitles.assign id start,
        s.snapLog ++ [SnapCall.addPoint (start.frames fps)]
          ++ [SnapCall.addPoint (endPos.frames fps)]⟩) := by
    unfold addSubtitle
    simp only [h1, h2, hcount, if_false]
    rfl
  rw [hval]
  refine ⟨rfl, ?_, ?_, ?_, ?_, ?_, ?_⟩
  · have hc : ¬ (s.m_allSubtitles.assign id start).count id = 0 := by
      rw [count_eq_zero_iff, find_assign_self]; simp
    simp [getStartPosForId, hc, find_assign_self]
  · simp [getText, find_assign_self]
  · simp [getSubtitle, find?_key, find_assign_self]
  · exact size_assign_of_find_none _ _ hnone
  · intro k hk
    exact find_assign_ne _ _ hk
  · intro k e hk
    have : k ≠ start := by
      rintro rfl
      rw [hnone] at hk
      cases hk
    simpa [find_assign_ne _ _ this] using hk

/-! ## removeSubtitle, moveSubtitle, requestResize -/

/-- The id `getIdForStartPos` finds for the start of a registered id is that id,
when no other id is registered at that start. -/
theorem getIdForStartPos_eq (s : SubtitleModel) {id : ℤ} {start : GenTime}
    (hs : Sorted s.m_allSubtitles)
    (hreg : s.m_allSubtitles.find id = some start)
    (hown : ∀ j, s.m_allSubtitles.find j = some start → j = id) :
    getIdForStartPos s start = id := by
  unfold getIdForStartPos
  cases h : List.find? (fun p => decide (p.2 = start)) s.m_allSubtitles with
  | none =>
    have hmem := find_some_mem _ hreg
    have := List.find?_eq_none.1 h _ hmem
    simp at this
  | some p =>
    have h2 : p.2 = start := by simpa using List.find?_some h
    have hmem : p ∈ s.m_allSubtitles := List.mem_of_find?_eq_some h
    have hf : s.m_allSubtitles.find p.1 = some p.2 := find_of_mem_sorted _ hs hmem
    rw [h2] at hf
    exact hown _ hf

/-- The model a successful `removeSubtitle` leaves. -/
theorem removeSubtitle_eq (fps : ℚ) (s : SubtitleModel) (id : ℤ) {start : GenTime}
    {e : String × GenTime} (hreg : s.m_allSubtitles.find id = some start)
    (hcue : s.m_subtitleList.find start = some e) :
    removeSubtitle fps s id = (true, ⟨s.m_subtitleList.erase start, s.m_allSubtitles.erase id,
      s.snapLog ++ [SnapCall.removePoint (start.frames fps)]
        ++ [SnapCall.removePoint (e.2.frames fps)]⟩) := by
  simp [removeSubtitle, hreg, hcue, deregisterSubtitle, removeSnapPoint]

/-- The model a successful `moveSubtitle` leaves. -/
theorem moveSubtitle_eq (fps : ℚ) (s : SubtitleModel) (subId : ℤ) (newPos : GenTime)
    (um uv : Bool) {oldPos : GenTime} {e : String × GenTime}
    (hreg : s.m_allSubtitles.find subId = some oldPos)
    (hcue : s.m_subtitleList.find oldPos = some e)
    (hfree : s.m_subtitleList.find newPos = none) :
    moveSubtitle fps s subId newPos um uv =
      (true, ⟨(s.m_subtitleList.erase oldPos).assign newPos (e.1, newPos + (e.2 - oldPos)),
        s.m_allSubtitles.assign (getIdForStartPos s oldPos) newPos,
        s.snapLog ++ [SnapCall.removePoint (oldPos.frames fps)]
          ++ [SnapCall.removePoint (e.2.frames fps)]
          ++ [SnapCall.addPoint (newPos.frames fps)]
          ++ [SnapCall.addPoint ((newPos + (e.2 - oldPos)).frames fps)]⟩) := by
  have hc : ¬ s.m_subtitleList.count newPos > 0 := by
    rw [count_pos_iff, hfree]; simp
  simp [moveSubtitle, hreg, hcue, hc, removeSnapPoint, addSnapPoint, getIdForStartPos]

/-- C5: `removeSubtitle` returns false and changes nothing when the id is not
registered or its registered start has no cue; when the id is registered with a
cue at start `st` it returns true, the store is the old store with key `st`
erased (no cue at `st`, every other cue unchanged, one cue fewer) and the id is
no longer registered. -/
theorem C5_removeSubtitle (fps : ℚ) (s : SubtitleModel) (id : ℤ)
    (hs : Sorted s.m_subtitleList) :
    (s.m_allSubtitles.find id = none → removeSubtitle fps s id = (false, s)) ∧
    (∀ st, s.m_allSubtitles.find id = some st → s.m_subtitleList.find st = none →
      removeSubtitle fps s id = (false, s)) ∧
    (∀ st e, s.m_allSubtitles.find id = some st → s.m_subtitleList.find st = some e →
      (removeSubtitle fps s id).1 = true ∧
      (removeSubtitle fps s id).2.m_subtitleList = s.m_subtitleList.erase st ∧
      (removeSubtitle fps s id).2.m_subtitleList.find st = none ∧
      (∀ k, k ≠ st →
        (removeSubtitle fps s id).2.m_subtitleList.find k = s.m_subtitleList.find k) ∧
      (removeSubtitle fps s id).2.m_subtitleList.size + 1 = s.m_subtitleList.size ∧
      (removeSubtitle fps s id).2.m_allSubtitles.find id = none) := by
  refine ⟨?_, ?_, ?_⟩
  · intro h
    simp [removeSubtitle, h]
  · intro st h1 h2
    simp [removeSubtitle, h1, h2]
  · intro st e h1 h2
    rw [removeSubtitle_eq fps s id h1 h2]
    refine ⟨rfl, rfl, find_erase_self _ _, ?_, size_erase_of_find _ hs h2, find_erase_self _ _⟩
    intro k hk
    exact find_erase_ne _ hk

/-- C6: `moveSubtitle` onto a position that is already a key of the store (the
cue's own start included) returns false and leaves the cue store, the id registry
and the snap calls unchanged; so does a move of an unknown id. -/
theorem C6_moveSubtitle_rejects (fps : ℚ) (s : SubtitleModel) (id : ℤ) (newPos : GenTime)
    (updateModel updateView : Bool) :
    (newPos ∈ s.m_subtitleList.keys →
      moveSubtitle fps s id newPos updateModel updateView = (false, s)) ∧
    (s.m_allSubtitles.find id = none →
      moveSubtitle fps s id newPos updateModel updateView = (false, s)) := by
  constructor
  · intro h
    rw [mem_keys_iff, ← count_pos_iff] at h
    cases h1 : s.m_allSubtitles.find id with
    | none => simp [moveSubtitle, h1]
    | some oldPos =>
      cases h2 : s.m_subtitleList.find oldPos with
      | none => simp [moveSubtitle, h1, h2]
      | some e => simp [moveSubtitle, h1, h2, h]
  · intro h
    simp [moveSubtitle, h]

/-- C7: for a registered id whose cue is `(oldStart, oldEnd, text)` and a position
that is not a key of the store, `moveSubtitle` returns true; afterwards the store
has no cue at `oldStart`, has the cue `(newPos, newPos + (oldEnd - oldStart), text)`,
the registry maps the id to `newPos`, the number of cues is unchanged and every
other cue is unchanged. -/
theorem C7_moveSubtitle_success (fps : ℚ) (s : SubtitleModel) (id : ℤ)
    (oldStart oldEnd newPos : GenTime) (text : String) (updateModel updateView : Bool)
    (hs : Sorted s.m_subtitleList) (hr : Sorted s.m_allSubtitles)
    (hreg : s.m_allSubtitles.find id = some oldStart)
    (hown : ∀ j, s.m_allSubtitles.find j = some oldStart → j = id)
    (hcue : s.m_subtitleList.find oldStart = some (text, oldEnd))
    (hfree : newPos ∉ s.m_subtitleList.keys) :
    (moveSubtitle fps s id newPos updateModel updateView).1 = true ∧
    (moveSubtitle fps s id newPos updateModel updateView).2.m_subtitleList.find oldStart
      = none ∧
    (moveSubtitle fps s id newPos updateModel updateView).2.m_subtitleList.find newPos
      = some (text, newPos + (oldEnd - oldStart)) ∧
    (moveSubtitle fps s id newPos updateModel updateView).2.m_allSubtitles.find id
      = some newPos ∧
    (moveSubtitle fps s id newPos updateModel updateView).2.m_subtitleList.size
      = s.m_subtitleList.size ∧
    (∀ k, k ≠ oldStart → k ≠ newPos →
      (moveSubtitle fps s id newPos updateModel updateView).2.m_subtitleList.find k
        = s.m_subtitleList.find k) := by
  have hnone : s.m_subtitleList.find newPos = none := (find_eq_none_iff _ _).2 hfree
  have hne : oldStart ≠ newPos := by
    rintro rfl
    rw [hnone] at hcue
    cases hcue
  rw [moveSubtitle_eq fps s id newPos updateModel updateView hreg hcue hnone,
    getIdForStartPos_eq s hr hreg hown]
  refine ⟨rfl, ?_, find_assign_self _ _ _, find_assign_self _ _ _, ?_, ?_⟩
  · show ((s.m_subtitleList.erase oldStart).assign newPos _).find oldStart = none
    rw [find_assign_ne _ _ hne, find_erase_self]
  · show ((s.m_subtitleList.erase oldStart).assign newPos _).size = _
    rw [size_assign_of_find_none, size_erase_of_find _ hs hcue]
    rw [find_erase_ne _ (Ne.symm hne), hnone]
  · intro k h1 h2
    show ((s.m_subtitleList.erase oldStart).assign newPos _).find k = _
    rw [find_assign_ne _ _ h2, find_erase_ne _ h1]

/-- The outcome of `requestResize`, branch `right`, on a registered cue. -/
theorem requestResize_right_eq (fps : ℚ) (s : SubtitleModel) (id size : ℤ)
    (undo redo : Fun) (logUndo : Bool) {start : GenTime} {e : String × GenTime}
    (hreg : s.m_allSubtitles.find id = some start)
    (hcue : s.m_subtitleList.find start = some e) :
    requestResize fps s id size true undo redo logUndo =
      some ⟨true,
        updateUndo (resizeRightReverse fps start e.2 (start + GenTime.ofFrames size fps)) undo,
        updateRedo (resizeRightOperation fps start e.2 (start + GenTime.ofFrames size fps)) redo,
        (resizeRightOperation fps start e.2 (start + GenTime.ofFrames size fps) s).2⟩ := by
  simp [requestResize, hreg, hcue]

/-- The store and the registry the closure `operation` of the branch `right` leaves. -/
theorem resizeRightOperation_data (fps : ℚ) (s : SubtitleModel) {start : GenTime}
    {e : String × GenTime} (endPos newEnd : GenTime)
    (hcue : s.m_subtitleList.find start = some e) :
    (resizeRightOperation fps start endPos newEnd s).2.m_subtitleList
      = s.m_subtitleList.assign start (e.1, newEnd) ∧
    (resizeRightOperation fps start endPos newEnd s).2.m_allSubtitles = s.m_allSubtitles := by
  refine ⟨?_, rfl⟩
  show setSecond s.m_subtitleList start newEnd = _
  simp [setSecond, hcue]

/-- The outcome of `requestResize`, branch `!right`, on a registered cue whose new
start is not a key of the store. -/
theorem requestResize_left_eq (fps : ℚ) (s : SubtitleModel) (id size : ℤ)
    (undo redo : Fun) (logUndo : Bool) {start : GenTime} {e : String × GenTime}
    (hreg : s.m_allSubtitles.find id = some start)
    (hcue : s.m_subtitleList.find start = some e)
    (hfree : s.m_subtitleList.find (e.2 - GenTime.ofFrames size fps) = none) :
    requestResize fps s id size false undo redo logUndo =
      some ⟨true,
        updateUndo (resizeLeftReverse fps id start (e.2 - GenTime.ofFrames size fps) e.2 e.1)
          undo,
        updateRedo (resizeLeftOperation fps id start (e.2 - GenTime.ofFrames size fps) e.2 e.1)
          redo,
        (resizeLeftOperation fps id start (e.2 - GenTime.ofFrames size fps) e.2 e.1 s).2⟩ := by
  have hc : ¬ s.m_subtitleList.count (e.2 - GenTime.ofFrames size fps) > 0 := by
    rw [count_pos_iff, hfree]; simp
  simp [requestResize, hreg, hcue, hc]

/-- The outcome of `requestResize`, branch `!right`, on a registered cue whose new
start is a key of the store. -/
theorem requestResize_left_occupied (fps : ℚ) (s : SubtitleModel) (id size : ℤ)
    (undo redo : Fun) (logUndo : Bool) {start : GenTime} {e e2 : String × GenTime}
    (hreg : s.m_allSubtitles.find id = some start)
    (hcue : s.m_subtitleList.find start = some e)
    (hocc : s.m_subtitleList.find (e.2 - GenTime.ofFrames size fps) = some e2) :
    requestResize fps s id size false undo redo logUndo = some ⟨false, undo, redo, s⟩ := by
  have hc : s.m_subtitleList.count (e.2 - GenTime.ofFrames size fps) > 0 := by
    rw [count_pos_iff, hocc]; simp
  simp [requestResize, hreg, hcue, hc]

/-- C8: on the model with the single cue (0 s, 2 s, "Hello") under id 1, at 25
frames per second, a resize from the left to 50 frames, the cue's own duration
(new start = current start), returns false and changes nothing. -/
theorem C8_resize_left_to_own_start_fails :
    Option.map (fun o => (o.res, o.model)) (requestResize 25 oneCue 1 50 false noop noop true)
      = some (false, oneCue) := by
  have hreg : oneCue.m_allSubtitles.find 1 = some 0 := by decide!
  have hcue : oneCue.m_subtitleList.find 0 = some ("Hello", 2) := by decide!
  have hocc : oneCue.m_subtitleList.find
      (("Hello", (2 : GenTime)).2 - GenTime.ofFrames 50 25) = some ("Hello", 2) := by decide!
  rw [requestResize_left_occupied 25 oneCue 1 50 noop noop true hreg hcue hocc]
  rfl

/-- C9: `requestResize` from the right on a registered cue `(start, end, text)`
returns true, and afterwards the cue is `(start, start + size frames, text)`: the
keys of the store (so the start key and the number of cues), the text, the id
registry and every other cue are unchanged. -/
theorem C9_resize_right (fps : ℚ) (s : SubtitleModel) (id size : ℤ) (undo redo : Fun)
    (logUndo : Bool) (start endPos : GenTime) (text : String)
    (hs : Sorted s.m_subtitleList)
    (hreg : s.m_allSubtitles.find id = some start)
    (hcue : s.m_subtitleList.find start = some (text, endPos)) :
    ∃ o, requestResize fps s id size true undo redo logUndo = some o ∧
      o.res = true ∧
      o.model.m_subtitleList.find start
        = some (text, start + GenTime.ofFrames size fps) ∧
      o.model.m_subtitleList.keys = s.m_subtitleList.keys ∧
      o.model.m_subtitleList.size = s.m_subtitleList.size ∧
      o.model.m_allSubtitles = s.m_allSubtitles ∧
      (∀ k, k ≠ start → o.model.m_subtitleList.find k = s.m_subtitleList.find k) := by
  have hd := (resizeRightOperation_data fps s endPos (start + GenTime.ofFrames size fps) hcue).1
  refine ⟨_, requestResize_right_eq fps s id size undo redo logUndo hreg hcue, rfl, ?_, ?_, ?_,
    rfl, ?_⟩
  · simp only [hd]
    exact find_assign_self _ _ _
  · simp only [hd]
    exact keys_assign_of_find _ _ hs hcue
  · simp only [hd]
    exact size_assign_of_find _ _ hs hcue
  · intro k hk
    simp only [hd]
    exact find_assign_ne _ _ hk

/-- Witness of C2: adding (3 s, 5 s, "World") under the unregistered id 2 to the
model with the single cue (0 s, 2 s, "Hello"). -/
theorem C2_addSubtitle_success_witness :
    oneCue.m_allSubtitles.find 2 = none ∧
    (0 : ℤ) ≤ GenTime.frames 3 25 ∧ GenTime.frames 3 25 ≤ GenTime.frames 5 25 ∧
    (3 : GenTime) ∉ oneCue.m_subtitleList.keys ∧
    (addSubtitle 25 oneCue 2 3 5 "World").1 = true ∧
    getText (addSubtitle 25 oneCue 2 3 5 "World").2 2 = some "World" ∧
    getSubtitle (addSubtitle 25 oneCue 2 3 5 "World").2 3 = ⟨3, "World", 5⟩ ∧
    (addSubtitle 25 oneCue 2 3 5 "World").2.m_subtitleList.size
      = oneCue.m_subtitleList.size + 1 :=
  have h1 : oneCue.m_allSubtitles.find 2 = none := by decide!
  have h2 : (0 : ℤ) ≤ GenTime.frames 3 25 := by decide!
  have h3 : GenTime.frames 3 25 ≤ GenTime.frames 5 25 := by decide!
  have h4 : (3 : GenTime) ∉ oneCue.m_subtitleList.keys := by decide!
  have h := C2_addSubtitle_success 25 oneCue 2 3 5 "World" h1 h2 h3 h4
  ⟨h1, h2, h3, h4, h.1, h.2.2.1, h.2.2.2.1, h.2.2.2.2.1⟩

/-- Witness of C5: removing id 1 from the model with two cues. -/
theorem C5_removeSubtitle_witness :
    Sorted twoCues.m_subtitleList ∧
    (removeSubtitle 25 twoCues 1).1 = true ∧
    (removeSubtitle 25 twoCues 1).2.m_subtitleList.find 0 = none ∧
    (removeSubtitle 25 twoCues 1).2.m_subtitleList.size + 1 = twoCues.m_subtitleList.size ∧
    (removeSubtitle 25 twoCues 1).2.m_allSubtitles.find 1 = none :=
  have hs : Sorted twoCues.m_subtitleList := by decide!
  have h := (C5_removeSubtitle 25 twoCues 1 hs).2.2 0 ("Hello", 2) (by decide!) (by decide!)
  ⟨hs, h.1, h.2.2.1, h.2.2.2.2.1, h.2.2.2.2.2⟩

/-- Witness of C7: moving the cue of id 1, (0 s, 2 s, "Hello"), to 10 s in the model
with two cues. -/
theorem C7_moveSubtitle_success_witness :
    Sorted twoCues.m_subtitleList ∧ Sorted twoCues.m_allSubtitles ∧
    (moveSubtitle 25 twoCues 1 10 true true).1 = true ∧
    (moveSubtitle 25 twoCues 1 10 true true).2.m_subtitleList.find 0 = none ∧
    (moveSubtitle 25 twoCues 1 10 true true).2.m_subtitleList.find 10
      = some ("Hello", 10 + (2 - 0)) ∧
    (moveSubtitle 25 twoCues 1 10 true true).2.m_allSubtitles.find 1 = some 10 :=
  have hs : Sorted twoCues.m_subtitleList := by decide!
  have hr : Sorted twoCues.m_allSubtitles := by decide!
  have hown : ∀ j, twoCues.m_allSubtitles.find j = some 0 → j = 1 := by
    intro j h
    by_cases h1 : j = 1
    · exact h1
    · by_cases h2 : j = 2 <;> simp [twoCues, StdMap.find, h1, h2] at h
  have h := C7_moveSubtitle_success 25 twoCues 1 0 2 10 "Hello" true true hs hr
    (by decide!) hown (by decide!) (by decide!)
  ⟨hs, hr, h.1, h.2.1, h.2.2.1, h.2.2.2.1⟩

/-- Witness of C9: resizing the cue of id 1 of the model with two cues from the
right to 25 frames, one second at 25 frames per second. -/
theorem C9_resize_right_witness :
    Sorted twoCues.m_subtitleList ∧
    ∃ o, requestResize 25 twoCues 1 25 true noop noop true = some o ∧ o.res = true ∧
      o.model.m_subtitleList.find 0 = some ("Hello", 0 + GenTime.ofFrames 25 25) ∧
      o.model.m_allSubtitles = twoCues.m_allSubtitles :=
  have hs : Sorted twoCues.m_subtitleList := by decide!
  have h := C9_resize_right 25 twoCues 1 25 noop noop true 0 2 "Hello" hs
    (by decide!) (by decide!)
  ⟨hs, h.choose, h.choose_spec.1, h.choose_spec.2.1, h.choose_spec.2.2.1,
    h.choose_spec.2.2.2.2.2.1⟩


/-! ## Undo and redo -/

/-- The result of `moveSubtitle` and the data it leaves depend on the store and
the registry only. -/
theorem moveSubtitle_congr (fps : ℚ) (a b : SubtitleModel) (id : ℤ) (p : GenTime)
    (um uv : Bool) (h : SameData a b) :
    (moveSubtitle fps a id p um uv).1 = (moveSubtitle fps b id p um uv).1 ∧
    SameData (moveSubtitle fps a id p um uv).2 (moveSubtitle fps b id p um uv).2 := by
  obtain ⟨sa, ra, la⟩ := a
  obtain ⟨sb, rb, lb⟩ := b
  obtain ⟨h1, h2⟩ := h
  simp only at h1 h2
  subst h1 h2
  cases hr : ra.find id with
  | none => simp [moveSubtitle, hr, SameData]
  | some oldPos =>
    cases hc : sa.find oldPos with
    | none => simp [moveSubtitle, hr, hc, SameData]
    | some e =>
      by_cases hn : sa.count p > 0
      · simp [moveSubtitle, hr, hc, hn, SameData]
      · simp [moveSubtitle, hr, hc, hn, SameData, removeSnapPoint, addSnapPoint,
          getIdForStartPos]

/-- In a consistent model no other id is registered at the start of a registered id. -/
theorem Consistent.own {s : SubtitleModel} (hc : Consistent s) {id : ℤ} {st : GenTime}
    (hreg : s.m_allSubtitles.find id = some st) :
    ∀ j, s.m_allSubtitles.find j = some st → j = id := by
  intro j hj
  obtain ⟨i, _, hi⟩ := hc.2 st (hc.1 id st hreg)
  rw [hi j hj, hi id hreg]

theorem getStartPosForId_of_find (s : SubtitleModel) {id : ℤ} {st : GenTime}
    (hreg : s.m_allSubtitles.find id = some st) : getStartPosForId s id = st := by
  have hc : ¬ s.m_allSubtitles.count id = 0 := by
    rw [count_eq_zero_iff, hreg]; simp
  simp [getStartPosForId, hc, hreg]

/-- Undoing a resize from the right restores the store and the registry. -/
theorem resizeRight_undo (fps : ℚ) (s : SubtitleModel) {start : GenTime}
    {e : String × GenTime} (newEnd : GenTime) (hs : Sorted s.m_subtitleList)
    (hcue : s.m_subtitleList.find start = some e) :
    SameData (resizeRightReverse fps start e.2 newEnd
      (resizeRightOperation fps start e.2 newEnd s).2).2 s := by
  refine ⟨?_, rfl⟩
  show setSecond (setSecond s.m_subtitleList start newEnd) start e.2 = s.m_subtitleList
  simp only [setSecond, hcue, Option.getD_some, find_assign_self, assign_assign]
  exact assign_of_find _ hs hcue

/-- Undoing a resize from the left restores the store and the registry. -/
theorem resizeLeft_undo (fps : ℚ) (s : SubtitleModel) (id : ℤ) {start : GenTime}
    {e : String × GenTime} (newStart : GenTime) (hw : WellFormed s)
    (hreg : s.m_allSubtitles.find id = some start)
    (hcue : s.m_subtitleList.find start = some e)
    (hfree : s.m_subtitleList.find newStart = none) :
    SameData (resizeLeftReverse fps id start newStart e.2 e.1
      (resizeLeftOperation fps id start newStart e.2 e.1 s).2).2 s := by
  have hne : newStart ≠ start := by
    rintro rfl
    rw [hfree] at hcue
    cases hcue
  constructor
  · show (((s.m_subtitleList.erase start).assign newStart (e.1, e.2)).erase newStart).assign
      start (e.1, e.2) = s.m_subtitleList
    rw [erase_assign_of_find_none]
    · exact assign_erase_of_find _ hw.1 hcue
    · rw [find_erase_ne _ hne, hfree]
  · show (s.m_allSubtitles.assign id newStart).assign id start = s.m_allSubtitles
    rw [assign_assign]
    exact assign_of_find _ hw.2 hreg

/-- Moving a cue back to its old start restores the store and the registry. -/
theorem moveSubtitle_undo (fps : ℚ) (s : SubtitleModel) (id : ℤ) (newPos : GenTime)
    (um uv um2 uv2 : Bool) {oldPos : GenTime} {e : String × GenTime}
    (hw : WellFormed s) (hc : Consistent s)
    (hreg : s.m_allSubtitles.find id = some oldPos)
    (hcue : s.m_subtitleList.find oldPos = some e)
    (hfree : s.m_subtitleList.find newPos = none) :
    (moveSubtitle fps (moveSubtitle fps s id newPos um uv).2 id oldPos um2 uv2).1 = true ∧
    SameData (moveSubtitle fps (moveSubtitle fps s id newPos um uv).2 id oldPos um2 uv2).2 s := by
  have hne : oldPos ≠ newPos := by
    rintro rfl
    rw [hfree] at hcue
    cases hcue
  have hid : getIdForStartPos s oldPos = id := getIdForStartPos_eq s hw.2 hreg (hc.own hreg)
  rw [moveSubtitle_eq fps s id newPos um uv hreg hcue hfree, hid]
  have hreg2 : (s.m_allSubtitles.assign id newPos).find id = some newPos :=
    find_assign_self _ _ _
  have hcue2 : ((s.m_subtitleList.erase oldPos).assign newPos
      (e.1, newPos + (e.2 - oldPos))).find newPos = some (e.1, newPos + (e.2 - oldPos)) :=
    find_assign_self _ _ _
  have hfree2 : ((s.m_subtitleList.erase oldPos).assign newPos
      (e.1, newPos + (e.2 - oldPos))).find oldPos = none := by
    rw [find_assign_ne _ _ hne, find_erase_self]
  have hown2 : ∀ j, (s.m_allSubtitles.assign id newPos).find j = some newPos → j = id := by
    intro j hj
    by_contra hji
    rw [find_assign_ne _ _ hji] at hj
    have := hc.1 j newPos hj
    rw [mem_keys_iff, hfree] at this
    obtain ⟨v, hv⟩ := this
    cases hv
  have hid2 : getIdForStartPos
      ⟨(s.m_subtitleList.erase oldPos).assign newPos (e.1, newPos + (e.2 - oldPos)),
        s.m_allSubtitles.assign id newPos,
        s.snapLog ++ [SnapCall.removePoint (oldPos.frames fps)]
          ++ [SnapCall.removePoint (e.2.frames fps)]
          ++ [SnapCall.addPoint (newPos.frames fps)]
          ++ [SnapCall.addPoint ((newPos + (e.2 - oldPos)).frames fps)]⟩ newPos = id :=
    getIdForStartPos_eq _ (sorted_assign _ _ _ hw.2) hreg2 hown2
  rw [moveSubtitle_eq fps _ id oldPos um2 uv2 hreg2 hcue2 hfree2, hid2]
  refine ⟨rfl, ?_, ?_⟩
  · show (((s.m_subtitleList.erase oldPos).assign newPos _).erase newPos).assign oldPos
      (e.1, oldPos + (newPos + (e.2 - oldPos) - newPos)) = s.m_subtitleList
    rw [erase_assign_of_find_none]
    · have : oldPos + (newPos + (e.2 - oldPos) - newPos) = e.2 := by ring
      rw [this]
      exact assign_erase_of_find _ hw.1 hcue
    · rw [find_erase_ne _ (Ne.symm hne), hfree]
  · show (s.m_allSubtitles.assign id newPos).assign id oldPos = s.m_allSubtitles
    rw [assign_assign]
    exact assign_of_find _ hw.2 hreg

/-- The closures of `requestResize` leave data that depends on the store and the
registry only. -/
theorem resizeRightOperation_congr (fps : ℚ) (st en ne : GenTime) (a b : SubtitleModel)
    (h : SameData a b) :
    SameData (resizeRightOperation fps st en ne a).2 (resizeRightOperation fps st en ne b).2 := by
  obtain ⟨h1, h2⟩ := h
  exact ⟨by show setSecond _ _ _ = setSecond _ _ _; rw [h1], h2⟩

theorem resizeLeftOperation_congr (fps : ℚ) (id : ℤ) (st nst en : GenTime) (t : String)
    (a b : SubtitleModel) (h : SameData a b) :
    SameData (resizeLeftOperation fps id st nst en t a).2
      (resizeLeftOperation fps id st nst en t b).2 := by
  obtain ⟨h1, h2⟩ := h
  constructor
  · show (StdMap.erase _ _).assign _ _ = (StdMap.erase _ _).assign _ _
    rw [h1]
  · show StdMap.assign _ _ _ = StdMap.assign _ _ _
    rw [h2]

/-- C10, amended: in a model whose maps are sorted and whose registry is a
bijection onto the store's keys, whenever `requestResize` (from the right or from
the left), `requestSubtitleMove`, or `setText` on a cue whose start has a
non-negative frame count, succeeds, running the undo closure right after restores
the cue store and the id registry of before the call, and running the redo closure
after that undo gives the store and registry the call had left. -/
theorem C10_undo_roundtrip (fps : ℚ) (s : SubtitleModel) (hw : WellFormed s)
    (hc : Consistent s) :
    (∀ id size right logUndo o,
      requestResize fps s id size right noop noop logUndo = some o → o.res = true →
        SameData (o.undo o.model).2 s ∧ SameData (o.redo (o.undo o.model).2).2 o.model) ∧
    (∀ id position, (requestSubtitleMove fps s id position).res = true →
        SameData ((requestSubtitleMove fps s id position).undo
          (requestSubtitleMove fps s id position).model).2 s ∧
        SameData ((requestSubtitleMove fps s id position).redo
          ((requestSubtitleMove fps s id position).undo
            (requestSubtitleMove fps s id position).model).2).2
          (requestSubtitleMove fps s id position).model) ∧
    (∀ id text o, setText fps s id text = some o → o.res = true →
      0 ≤ (getStartPosForId s id).frames fps →
        SameData (o.undo o.model).2 s ∧ SameData (o.redo (o.undo o.model).2).2 o.model) := by
  refine ⟨?_, ?_, ?_⟩
  · intro id size right logUndo o ho hres
    cases hreg : s.m_allSubtitles.find id with
    | none => simp [requestResize, hreg] at ho
    | some start =>
      cases hcue : s.m_subtitleList.find start with
      | none => simp [requestResize, hreg, hcue] at ho
      | some e =>
        cases right with
        | true =>
          rw [requestResize_right_eq fps s id size noop noop logUndo hreg hcue] at ho
          have hu := resizeRight_undo fps s (start + GenTime.ofFrames size fps) hw.1 hcue
          cases ho
          exact ⟨hu, resizeRightOperation_congr fps _ _ _ _ _ hu⟩
        | false =>
          cases hocc : s.m_subtitleList.find (e.2 - GenTime.ofFrames size fps) with
          | some e2 =>
            rw [requestResize_left_occupied fps s id size noop noop logUndo hreg hcue hocc] at ho
            cases ho
            cases hres
          | none =>
            rw [requestResize_left_eq fps s id size noop noop logUndo hreg hcue hocc] at ho
            have hu := resizeLeft_undo fps s id (e.2 - GenTime.ofFrames size fps) hw hreg hcue hocc
            cases ho
            exact ⟨hu, resizeLeftOperation_congr fps _ _ _ _ _ _ _ hu⟩
  · intro id position hres
    cases hreg : s.m_allSubtitles.find id with
    | none => simp [requestSubtitleMove, moveSubtitle, hreg] at hres
    | some oldPos =>
      cases hcue : s.m_subtitleList.find oldPos with
      | none => simp [requestSubtitleMove, moveSubtitle, hreg, hcue] at hres
      | some e =>
        cases hfree : s.m_subtitleList.find position with
        | some e2 =>
          have hn : s.m_subtitleList.count position > 0 := by
            rw [count_pos_iff, hfree]; simp
          simp [requestSubtitleMove, moveSubtitle, hreg, hcue, hn] at hres
        | none =>
          have hm := moveSubtitle_eq fps s id position true true hreg hcue hfree
          have hu := moveSubtitle_undo fps s id position true true true true hw hc hreg hcue hfree
          have hold := getStartPosForId_of_find s hreg
          have hval : requestSubtitleMove fps s id position =
              ⟨true, fun m => moveSubtitle fps m id oldPos true true,
                fun m => moveSubtitle fps m id position true true,
                (moveSubtitle fps s id position true true).2⟩ := by
            simp [requestSubtitleMove, hold, hm]
          rw [hval]
          exact ⟨hu.2, (moveSubtitle_congr fps _ _ id position true true hu.2).2⟩
  · intro id text o ho hres h0
    cases hreg : s.m_allSubtitles.find id with
    | none =>
      simp [setText, hreg] at ho
      rw [← ho] at hres
      cases hres
    | some start =>
      rw [getStartPosForId_of_find s hreg] at h0
      have h0' : ¬ start.frames fps < 0 := not_lt.2 h0
      cases hcue : s.m_subtitleList.find start with
      | none => simp [setText, hreg, hcue] at ho
      | some e =>
        simp only [setText, hreg, hcue, Option.some.injEq] at ho
        subst ho
        have hu : (editSubtitle fps (editSubtitle fps
            { s with m_subtitleList := setFirst s.m_subtitleList start text } start text)
            start e.1).m_subtitleList = s.m_subtitleList := by
          simp only [editSubtitle, h0', if_false, setFirst, hcue, Option.getD_some,
            find_assign_self, assign_assign]
          exact assign_of_find _ hw.1 hcue
        refine ⟨⟨hu, ?_⟩, ⟨?_, ?_⟩⟩
        · simp [editSubtitle, h0']
        · show (editSubtitle fps _ start text).m_subtitleList
            = (editSubtitle fps _ start text).m_subtitleList
          simp only [editSubtitle, h0', if_false] at hu ⊢
          simp only [hu]
          simp only [setFirst, hcue, Option.getD_some, find_assign_self, assign_assign]
        · simp [editSubtitle, h0']

/-! ## The registry and the store stay in bijection -/

/-- The invariant in the form the proofs use: sorted maps, and lookups of the
registry and of the store that correspond one to one. -/
theorem inv_iff (s : SubtitleModel) :
    (WellFormed s ∧ Consistent s) ↔
      (Sorted s.m_subtitleList ∧ Sorted s.m_allSubtitles ∧
        (∀ id st, s.m_allSubtitles.find id = some st → ∃ e, s.m_subtitleList.find st = some e) ∧
        (∀ k e, s.m_subtitleList.find k = some e → ∃ id, s.m_allSubtitles.find id = some k) ∧
        (∀ i j st, s.m_allSubtitles.find i = some st → s.m_allSubtitles.find j = some st →
          i = j)) := by
  constructor
  · rintro ⟨⟨h1, h2⟩, hc⟩
    refine ⟨h1, h2, ?_, ?_, ?_⟩
    · intro id st h
      exact (mem_keys_iff _ _).1 (hc.1 id st h)
    · intro k e h
      obtain ⟨id, hid, _⟩ := hc.2 k ((mem_keys_iff _ _).2 ⟨e, h⟩)
      exact ⟨id, hid⟩
    · intro i j st hi hj
      rw [hc.own hj i hi]
  · rintro ⟨h1, h2, hA, hB, hC⟩
    refine ⟨⟨h1, h2⟩, ?_, ?_⟩
    · intro id st h
      exact (mem_keys_iff _ _).2 (hA id st h)
    · intro k hk
      obtain ⟨e, he⟩ := (mem_keys_iff _ _).1 hk
      obtain ⟨id, hid⟩ := hB k e he
      exact ⟨id, hid, fun j hj => hC j id k hj hid⟩

/-- The invariant survives a new cue under a new id. -/
theorem inv_add (s : SubtitleModel) (id : ℤ) (k : GenTime) (v : String × GenTime)
    (l : List SnapCall) (h : WellFormed s ∧ Consistent s)
    (hid : s.m_allSubtitles.find id = none) (hk : s.m_subtitleList.find k = none) :
    WellFormed ⟨s.m_subtitleList.assign k v, s.m_allSubtitles.assign id k, l⟩ ∧
    Consistent ⟨s.m_subtitleList.assign k v, s.m_allSubtitles.assign id k, l⟩ := by
  rw [inv_iff] at h ⊢
  obtain ⟨h1, h2, hA, hB, hC⟩ := h
  refine ⟨sorted_assign _ _ _ h1, sorted_assign _ _ _ h2, ?_, ?_, ?_⟩
  · intro j st hj
    show ∃ e, (s.m_subtitleList.assign k v).find st = some e
    by_cases hst : st = k
    · subst hst
      exact ⟨v, find_assign_self _ _ _⟩
    · rw [find_assign_ne _ _ hst]
      have hji : j ≠ id := by
        rintro rfl
        have : (s.m_allSubtitles.assign j k).find j = some st := hj
        rw [find_assign_self] at this
        exact hst (Option.some.inj this).symm
      have : (s.m_allSubtitles.assign id k).find j = some st := hj
      rw [find_assign_ne _ _ hji] at this
      exact hA j st this
  · intro k' e he
    show ∃ j, (s.m_allSubtitles.assign id k).find j = some k'
    have he' : (s.m_subtitleList.assign k v).find k' = some e := he
    by_cases hk' : k' = k
    · subst hk'
      exact ⟨id, find_assign_self _ _ _⟩
    · rw [find_assign_ne _ _ hk'] at he'
      obtain ⟨j, hj⟩ := hB k' e he'
      have hji : j ≠ id := by
        rintro rfl
        rw [hid] at hj
        cases hj
      exact ⟨j, by rw [find_assign_ne _ _ hji]; exact hj⟩
  · intro i j st hi hj
    have hi' : (s.m_allSubtitles.assign id k).find i = some st := hi
    have hj' : (s.m_allSubtitles.assign id k).find j = some st := hj
    have key : ∀ x, x ≠ id → s.m_allSubtitles.find x = some st → st ≠ k := by
      intro x _ hx hst
      obtain ⟨e, he⟩ := hA x st hx
      rw [hst, hk] at he
      cases he
    by_cases hii : i = id <;> by_cases hjj : j = id
    · rw [hii, hjj]
    · subst hii
      rw [find_assign_self] at hi'
      rw [find_assign_ne _ _ hjj] at hj'
      exact absurd (Option.some.inj hi').symm (key j hjj hj')
    · subst hjj
      rw [find_assign_self] at hj'
      rw [find_assign_ne _ _ hii] at hi'
      exact absurd (Option.some.inj hj').symm (key i hii hi')
    · rw [find_assign_ne _ _ hii] at hi'
      rw [find_assign_ne _ _ hjj] at hj'
      exact hC i j st hi' hj'

/-- The invariant survives the removal of a registered cue. -/
theorem inv_remove (s : SubtitleModel) (id : ℤ) (k : GenTime) (l : List SnapCall)
    (h : WellFormed s ∧ Consistent s) (hid : s.m_allSubtitles.find id = some k) :
    WellFormed ⟨s.m_subtitleList.erase k, s.m_allSubtitles.erase id, l⟩ ∧
    Consistent ⟨s.m_subtitleList.erase k, s.m_allSubtitles.erase id, l⟩ := by
  rw [inv_iff] at h ⊢
  obtain ⟨h1, h2, hA, hB, hC⟩ := h
  refine ⟨sorted_erase _ _ h1, sorted_erase _ _ h2, ?_, ?_, ?_⟩
  · intro j st hj
    show ∃ e, (s.m_subtitleList.erase k).find st = some e
    have hj' : (s.m_allSubtitles.erase id).find j = some st := hj
    have hji : j ≠ id := by
      rintro rfl
      rw [find_erase_self] at hj'
      cases hj'
    rw [find_erase_ne _ hji] at hj'
    have hst : st ≠ k := by
      rintro rfl
      exact hji (hC j id st hj' hid)
    rw [find_erase_ne _ hst]
    exact hA j st hj'
  · intro k' e he
    show ∃ j, (s.m_allSubtitles.erase id).find j = some k'
    have he' : (s.m_subtitleList.erase k).find k' = some e := he
    have hk' : k' ≠ k := by
      rintro rfl
      rw [find_erase_self] at he'
      cases he'
    rw [find_erase_ne _ hk'] at he'
    obtain ⟨j, hj⟩ := hB k' e he'
    have hji : j ≠ id := by
      rintro rfl
      rw [hid] at hj
      exact hk' (Option.some.inj hj).symm
    exact ⟨j, by rw [find_erase_ne _ hji]; exact hj⟩
  · intro i j st hi hj
    have hi' : (s.m_allSubtitles.erase id).find i = some st := hi
    have hj' : (s.m_allSubtitles.erase id).find j = some st := hj
    have hii : i ≠ id := by
      rintro rfl
      rw [find_erase_self] at hi'
      cases hi'
    have hjj : j ≠ id := by
      rintro rfl
      rw [find_erase_self] at hj'
      cases hj'
    rw [find_erase_ne _ hii] at hi'
    rw [find_erase_ne _ hjj] at hj'
    exact hC i j st hi' hj'

/-- The invariant survives a new value at a key the store has. -/
theorem inv_setval (s : SubtitleModel) (k : GenTime) (v e : String × GenTime)
    (l : List SnapCall) (h : WellFormed s ∧ Consistent s)
    (hk : s.m_subtitleList.find k = some e) :
    WellFormed ⟨s.m_subtitleList.assign k v, s.m_allSubtitles, l⟩ ∧
    Consistent ⟨s.m_subtitleList.assign k v, s.m_allSubtitles, l⟩ := by
  rw [inv_iff] at h ⊢
  obtain ⟨h1, h2, hA, hB, hC⟩ := h
  refine ⟨sorted_assign _ _ _ h1, h2, ?_, ?_, hC⟩
  · intro j st hj
    show ∃ e, (s.m_subtitleList.assign k v).find st = some e
    by_cases hst : st = k
    · subst hst
      exact ⟨v, find_assign_self _ _ _⟩
    · rw [find_assign_ne _ _ hst]
      exact hA j st hj
  · intro k' e' he
    have he' : (s.m_subtitleList.assign k v).find k' = some e' := he
    by_cases hk' : k' = k
    · subst hk'
      exact hB k' e hk
    · rw [find_assign_ne _ _ hk'] at he'
      exact hB k' e' he'

/-- The invariant survives the move of a registered cue to a free key. -/
theorem inv_rekey (s : SubtitleModel) (id : ℤ) (old new : GenTime) (v : String × GenTime)
    (l : List SnapCall) (h : WellFormed s ∧ Consistent s)
    (hid : s.m_allSubtitles.find id = some old) (hnew : s.m_subtitleList.find new = none) :
    WellFormed ⟨(s.m_subtitleList.erase old).assign new v, s.m_allSubtitles.assign id new, l⟩ ∧
    Consistent ⟨(s.m_subtitleList.erase old).assign new v, s.m_allSubtitles.assign id new, l⟩ := by
  have hr := inv_remove s id old l h hid
  have h1 : (s.m_allSubtitles.erase id).find id = none := find_erase_self _ _
  have h2 : (s.m_subtitleList.erase old).find new = none := by
    by_cases hn : new = old
    · rw [hn]; exact find_erase_self _ _
    · rw [find_erase_ne _ hn]; exact hnew
  have ha := inv_add _ id new v l hr h1 h2
  have h3 : (s.m_allSubtitles.erase id).assign id new = s.m_allSubtitles.assign id new := by
    have e1 := assign_erase_of_find s.m_allSubtitles h.1.2 hid
    conv_rhs => rw [← e1]
    rw [assign_assign]
  simpa only [h3] using ha

/-! ## What one call leaves -/

theorem addSubtitle_cases (fps : ℚ) (s : SubtitleModel) (id : ℤ) (st en : GenTime)
    (str : String) :
    addSubtitle fps s id st en str = (false, s) ∨
    (s.m_subtitleList.find st = none ∧ ValidCue fps (st, (str, en)) ∧
      addSubtitle fps s id st en str =
        (true, ⟨s.m_subtitleList.assign st (str, en), s.m_allSubtitles.assign id st,
          s.snapLog ++ [SnapCall.addPoint (st.frames fps)]
            ++ [SnapCall.addPoint (en.frames fps)]⟩)) := by
  unfold addSubtitle
  split_ifs with h1 h2 h3
  · exact Or.inl rfl
  · exact Or.inl rfl
  · exact Or.inl rfl
  · refine Or.inr ⟨?_, ?_, rfl⟩
    · cases hf : s.m_subtitleList.find st with
      | none => rfl
      | some e => exact absurd ((count_pos_iff _ _).2 ⟨e, hf⟩) h3
    · simp only [not_or, not_lt] at h1
      simp only [gt_iff_lt, not_lt] at h2
      exact ⟨h1.1, h1.2, h2⟩

theorem removeSubtitle_cases (fps : ℚ) (s : SubtitleModel) (id : ℤ) :
    removeSubtitle fps s id = (false, s) ∨
    ∃ st e, s.m_allSubtitles.find id = some st ∧ s.m_subtitleList.find st = some e ∧
      removeSubtitle fps s id = (true, ⟨s.m_subtitleList.erase st, s.m_allSubtitles.erase id,
        s.snapLog ++ [SnapCall.removePoint (st.frames fps)]
          ++ [SnapCall.removePoint (e.2.frames fps)]⟩) := by
  cases hreg : s.m_allSubtitles.find id with
  | none => left; simp [removeSubtitle, hreg]
  | some st =>
    cases hcue : s.m_subtitleList.find st with
    | none => left; simp [removeSubtitle, hreg, hcue]
    | some e => exact Or.inr ⟨st, e, rfl, hcue, removeSubtitle_eq fps s id hreg hcue⟩

theorem moveSubtitle_cases (fps : ℚ) (s : SubtitleModel) (id : ℤ) (newPos : GenTime)
    (um uv : Bool) :
    moveSubtitle fps s id newPos um uv = (false, s) ∨
    ∃ old e, s.m_allSubtitles.find id = some old ∧ s.m_subtitleList.find old = some e ∧
      s.m_subtitleList.find newPos = none ∧
      moveSubtitle fps s id newPos um uv =
        (true, ⟨(s.m_subtitleList.erase old).assign newPos (e.1, newPos + (e.2 - old)),
          s.m_allSubtitles.assign (getIdForStartPos s old) newPos,
          s.snapLog ++ [SnapCall.removePoint (old.frames fps)]
            ++ [SnapCall.removePoint (e.2.frames fps)]
            ++ [SnapCall.addPoint (newPos.frames fps)]
            ++ [SnapCall.addPoint ((newPos + (e.2 - old)).frames fps)]⟩) := by
  cases hreg : s.m_allSubtitles.find id with
  | none => left; simp [moveSubtitle, hreg]
  | some old =>
    cases hcue : s.m_subtitleList.find old with
    | none => left; simp [moveSubtitle, hreg, hcue]
    | some e =>
      cases hfree : s.m_subtitleList.find newPos with
      | some e2 =>
        have hn : s.m_subtitleList.count newPos > 0 := by
          rw [count_pos_iff, hfree]; simp
        left; simp [moveSubtitle, hreg, hcue, hn]
      | none =>
        exact Or.inr ⟨old, e, rfl, hcue, rfl, moveSubtitle_eq fps s id newPos um uv hreg hcue hfree⟩

theorem requestResize3_cases (fps : ℚ) (s : SubtitleModel) (id size : ℤ) (right : Bool) :
    requestResize3 fps s id size right = none ∨
    requestResize3 fps s id size right = some (false, s) ∨
    (∃ st e, s.m_allSubtitles.find id = some st ∧ s.m_subtitleList.find st = some e ∧
      right = true ∧
      requestResize3 fps s id size right = some (true,
        (resizeRightOperation fps st e.2 (st + GenTime.ofFrames size fps) s).2)) ∨
    (∃ st e, s.m_allSubtitles.find id = some st ∧ s.m_subtitleList.find st = some e ∧
      right = false ∧ s.m_subtitleList.find (e.2 - GenTime.ofFrames size fps) = none ∧
      requestResize3 fps s id size right = some (true,
        (resizeLeftOperation fps id st (e.2 - GenTime.ofFrames size fps) e.2 e.1 s).2)) := by
  cases hreg : s.m_allSubtitles.find id with
  | none => left; simp [requestResize3, requestResize, hreg]
  | some st =>
    cases hcue : s.m_subtitleList.find st with
    | none => left; simp [requestResize3, requestResize, hreg, hcue]
    | some e =>
      cases right with
      | true =>
        right; right; left
        refine ⟨st, e, rfl, hcue, rfl, ?_⟩
        simp [requestResize3, requestResize_right_eq fps s id size noop noop true hreg hcue]
      | false =>
        cases hocc : s.m_subtitleList.find (e.2 - GenTime.ofFrames size fps) with
        | some e2 =>
          right; left
          simp [requestResize3,
            requestResize_left_occupied fps s id size noop noop true hreg hcue hocc, noop]
        | none =>
          right; right; right
          refine ⟨st, e, rfl, hcue, rfl, hocc, ?_⟩
          simp [requestResize3, requestResize_left_eq fps s id size noop noop true hreg hcue hocc]

/-- The cue the loop of `cutSubtitle` stops at. -/
theorem cutFind_cases (m : StdMap GenTime (String × GenTime)) (pos : GenTime) :
    cutFind m pos = -1 ∨
    ∃ c, c ∈ m ∧ c.1 ≤ pos ∧ pos < c.2.2 ∧ cutFind m pos = c.1 := by
  unfold cutFind
  cases h : List.find? (fun e => decide (e.1 ≤ pos ∧ e.2.2 > pos)) m with
  | none => exact Or.inl rfl
  | some c =>
    have h1 := List.find?_some h
    simp only [gt_iff_lt, decide_eq_true_eq] at h1
    exact Or.inr ⟨c, List.mem_of_find?_eq_some h, h1.1, h1.2, rfl⟩

theorem cutSubtitle1_cases (fps : ℚ) (s : SubtitleModel) (position newId : ℤ) :
    cutSubtitle1 fps s position newId = none ∨
    cutSubtitle1 fps s position newId = some (false, s) ∨
    ∃ c e st2 e2, c ∈ s.m_subtitleList ∧ c.1 ≤ GenTime.ofFrames position fps ∧
      GenTime.ofFrames position fps < c.2.2 ∧ 0 ≤ c.1 ∧
      s.m_subtitleList.find c.1 = some e ∧
      s.m_allSubtitles.find (getIdForStartPos s c.1) = some st2 ∧
      s.m_subtitleList.find st2 = some e2 ∧
      ((addSubtitle fps (resizeRightOperation fps st2 e2.2
            (st2 + GenTime.ofFrames (position - c.1.frames fps) fps) s).2
          newId (GenTime.ofFrames position fps) e.2 e.1).1 = true ∧
        cutSubtitle1 fps s position newId = some (true,
          (addSubtitle fps (resizeRightOperation fps st2 e2.2
            (st2 + GenTime.ofFrames (position - c.1.frames fps) fps) s).2
          newId (GenTime.ofFrames position fps) e.2 e.1).2) ∨
       (addSubtitle fps (resizeRightOperation fps st2 e2.2
            (st2 + GenTime.ofFrames (position - c.1.frames fps) fps) s).2
          newId (GenTime.ofFrames position fps) e.2 e.1).1 = false ∧
        cutSubtitle1 fps s position newId = some (false,
          (resizeRightReverse fps st2 e2.2
            (st2 + GenTime.ofFrames (position - c.1.frames fps) fps)
            (resizeRightOperation fps st2 e2.2
              (st2 + GenTime.ofFrames (position - c.1.frames fps) fps) s).2).2)) := by
  rcases cutFind_cases s.m_subtitleList (GenTime.ofFrames position fps) with hf | ⟨c, hc, h1, h2, hf⟩
  · right; left
    have : ¬ ((-1 : GenTime) ≥ 0) := by norm_num
    simp [cutSubtitle1, cutSubtitle, hf, this, noop]
  · by_cases h0 : c.1 ≥ 0
    · cases hcue : s.m_subtitleList.find c.1 with
      | none => left; simp [cutSubtitle1, cutSubtitle, hf, h0, hcue]
      | some e =>
        cases hreg : s.m_allSubtitles.find (getIdForStartPos s c.1) with
        | none =>
          left
          simp [cutSubtitle1, cutSubtitle, hf, h0, hcue, requestResize, hreg]
        | some st2 =>
          cases hcue2 : s.m_subtitleList.find st2 with
          | none =>
            left
            simp [cutSubtitle1, cutSubtitle, hf, h0, hcue, requestResize, hreg, hcue2]
          | some e2 =>
            right; right
            refine ⟨c, e, st2, e2, hc, h1, h2, h0, hcue, hreg, hcue2, ?_⟩
            have hr := requestResize_right_eq fps s (getIdForStartPos s c.1)
              (position - c.1.frames fps) noop noop false hreg hcue2
            cases hadd : (addSubtitle fps (resizeRightOperation fps st2 e2.2
              (st2 + GenTime.ofFrames (position - c.1.frames fps) fps) s).2
              newId (GenTime.ofFrames position fps) e.2 e.1).1 with
            | true =>
              left
              refine ⟨rfl, ?_⟩
              simp [cutSubtitle1, cutSubtitle, hf, h0, hcue, hr, hadd]
            | false =>
              right
              refine ⟨rfl, ?_⟩
              have hs : (addSubtitle fps (resizeRightOperation fps st2 e2.2
                  (st2 + GenTime.ofFrames (position - c.1.frames fps) fps) s).2
                  newId (GenTime.ofFrames position fps) e.2 e.1).2
                  = (resizeRightOperation fps st2 e2.2
                    (st2 + GenTime.ofFrames (position - c.1.frames fps) fps) s).2 := by
                rcases addSubtitle_cases fps (resizeRightOperation fps st2 e2.2
                  (st2 + GenTime.ofFrames (position - c.1.frames fps) fps) s).2
                  newId (GenTime.ofFrames position fps) e.2 e.1 with h | ⟨_, _, h⟩
                · rw [h]
                · rw [h] at hadd
                  cases hadd
              simp [cutSubtitle1, cutSubtitle, hf, h0, hcue, hr, hadd, updateUndo, noop, hs]
    · right; left
      simp [cutSubtitle1, cutSubtitle, hf, h0, noop]

/-! ## C4: the invariant along a sequence of calls -/

theorem inv_of_sameData {a b : SubtitleModel} (ha : WellFormed a ∧ Consistent a)
    (h : SameData a b) : WellFormed b ∧ Consistent b := by
  obtain ⟨sa, ra, la⟩ := a
  obtain ⟨sb, rb, lb⟩ := b
  obtain ⟨h1, h2⟩ := h
  simp only at h1 h2
  subst h1 h2
  exact ha

/-- The model a resize from the right leaves keeps the invariant. -/
theorem inv_resizeRight (fps : ℚ) (s : SubtitleModel) {st : GenTime} {e : String × GenTime}
    (endPos newEnd : GenTime) (h : WellFormed s ∧ Consistent s)
    (hcue : s.m_subtitleList.find st = some e) :
    WellFormed (resizeRightOperation fps st endPos newEnd s).2 ∧
    Consistent (resizeRightOperation fps st endPos newEnd s).2 := by
  have hd := resizeRightOperation_data fps s endPos newEnd hcue
  exact inv_of_sameData (inv_setval s st (e.1, newEnd) e [] h hcue) ⟨hd.1.symm, hd.2.symm⟩

/-- One call keeps the invariant, when the id it brings in is not registered. -/
theorem inv_run (fps : ℚ) (s : SubtitleModel) (op : Op) (h : WellFormed s ∧ Consistent s)
    (hf : match op with
      | .add id _ _ _ => s.m_allSubtitles.find id = none
      | .cut _ newId => s.m_allSubtitles.find newId = none
      | _ => True) :
    WellFormed (Op.run fps s op) ∧ Consistent (Op.run fps s op) := by
  cases op with
  | add id st en str =>
    simp only [Op.run, Op.call]
    rcases addSubtitle_cases fps s id st en str with hr | ⟨hnone, _, hr⟩
    · rw [hr]; exact h
    · rw [hr]; exact inv_add s id st (str, en) _ h hf hnone
  | remove id =>
    simp only [Op.run, Op.call]
    rcases removeSubtitle_cases fps s id with hr | ⟨st, e, hreg, hcue, hr⟩
    · rw [hr]; exact h
    · rw [hr]; exact inv_remove s id st _ h hreg
  | move id newPos =>
    simp only [Op.run, Op.call]
    rcases moveSubtitle_cases fps s id newPos true true with hr | ⟨old, e, hreg, hcue, hfree, hr⟩
    · rw [hr]; exact h
    · rw [hr, getIdForStartPos_eq s h.1.2 hreg (h.2.own hreg)]
      exact inv_rekey s id old newPos _ _ h hreg hfree
  | resize id size right =>
    simp only [Op.run, Op.call]
    rcases requestResize3_cases fps s id size right with hr | hr | ⟨st, e, hreg, hcue, _, hr⟩ |
      ⟨st, e, hreg, hcue, _, hfree, hr⟩
    · rw [hr]; exact h
    · rw [hr]; exact h
    · rw [hr]; exact inv_resizeRight fps s _ _ h hcue
    · rw [hr]
      exact inv_of_sameData
        (inv_rekey s id st (e.2 - GenTime.ofFrames size fps) (e.1, e.2) [] h hreg hfree)
        ⟨rfl, rfl⟩
  | cut position newId =>
    simp only [Op.run, Op.call]
    rcases cutSubtitle1_cases fps s position newId with hr | hr |
      ⟨c, e, st2, e2, _, _, _, _, hcue, hreg, hcue2, ⟨hadd, hr⟩ | ⟨hadd, hr⟩⟩
    · rw [hr]; exact h
    · rw [hr]; exact h
    · rw [hr]
      have hmid := inv_resizeRight fps s e2.2
        (st2 + GenTime.ofFrames (position - c.1.frames fps) fps) h hcue2
      rcases addSubtitle_cases fps (resizeRightOperation fps st2 e2.2
        (st2 + GenTime.ofFrames (position - c.1.frames fps) fps) s).2
        newId (GenTime.ofFrames position fps) e.2 e.1 with ha | ⟨hnone, _, ha⟩
      · rw [ha]; exact hmid
      · rw [ha]
        exact inv_add _ newId _ _ _ hmid hf hnone
    · rw [hr]
      have hu := resizeRight_undo fps s
        (st2 + GenTime.ofFrames (position - c.1.frames fps) fps) h.1.1 hcue2
      exact inv_of_sameData h ⟨hu.1.symm, hu.2.symm⟩

theorem inv_runOps (fps : ℚ) (ops : List Op) :
    ∀ s : SubtitleModel, WellFormed s ∧ Consistent s → FreshIds fps s ops →
      WellFormed (runOps fps s ops) ∧ Consistent (runOps fps s ops) := by
  induction ops with
  | nil => intro s h _; exact h
  | cons op ops ih =>
    intro s h hf
    obtain ⟨hf1, hf2⟩ := hf
    exact ih (Op.run fps s op) (inv_run fps s op h hf1) hf2

theorem inv_empty : WellFormed empty ∧ Consistent empty := by
  refine ⟨⟨by simp [empty, Sorted], by simp [empty, Sorted]⟩, ?_, ?_⟩
  · intro id st h
    simp [empty, find] at h
  · intro k hk
    simp [empty, keys] at hk

/-- C4: starting from the empty store and registry, after every sequence of
`addSubtitle`, `removeSubtitle`, `moveSubtitle`, `requestResize` and `cutSubtitle`
calls in which each id brought in (by an add, or minted for a cut) is not registered
at that time, the registry is a bijection onto the store's keys: every registered
id maps to a key of the store, and every key of the store is the registered start
of exactly one id. -/
theorem C4_registry_bijection (fps : ℚ) (ops : List Op) (hfresh : FreshIds fps empty ops) :
    (∀ id st, (runOps fps empty ops).m_allSubtitles.find id = some st →
      st ∈ (runOps fps empty ops).m_subtitleList.keys) ∧
    (∀ k, k ∈ (runOps fps empty ops).m_subtitleList.keys →
      ∃! id, (runOps fps empty ops).m_allSubtitles.find id = some k) :=
  (inv_runOps fps ops empty inv_empty hfresh).2

/-- Witness of C4: a sequence with a call of every kind. -/
theorem C4_registry_bijection_witness :
    FreshIds 25 empty exampleOps ∧ Consistent (runOps 25 empty exampleOps) :=
  ⟨by decide!, C4_registry_bijection 25 exampleOps (by decide!)⟩

/-- C10, as stated, fails for `setText`: on the cue (-1 s, 1 s, "a") of id 1, reached
by an add and a move, `setText(1, "b")` succeeds and its undo closure leaves the
text "b" in the store. -/
theorem C10_setText_undo_counterexample :
    negStart.m_subtitleList = [(-1, ("a", 1))] ∧ negStart.m_allSubtitles = [(1, -1)] ∧
    Option.map (fun o => (o.res, (o.undo o.model).2.m_subtitleList))
      (setText 25 negStart 1 "b") = some (true, [(-1, ("b", 1))]) ∧
    Option.map (fun o => decide (SameData (o.undo o.model).2 negStart))
      (setText 25 negStart 1 "b") = some false := by
  decide!

/-- Witness of C10: moving the cue of id 1 of the model with two cues to 10 s and
undoing the move. -/
theorem C10_undo_roundtrip_witness :
    WellFormed twoCues ∧ Consistent twoCues ∧
    SameData ((requestSubtitleMove 25 twoCues 1 10).undo
      (requestSubtitleMove 25 twoCues 1 10).model).2 twoCues :=
  have hw : WellFormed twoCues := by decide!
  have hc : Consistent twoCues :=
    (inv_of_sameData (inv_runOps 25 [.add 1 0 2 "Hello", .add 2 3 5 "World"] empty inv_empty
      (by decide!)) (by decide!)).2
  ⟨hw, hc, ((C10_undo_roundtrip 25 twoCues hw hc).2.1 1 10 (by decide!)).1⟩


/-! ## C3: the times of the cues along a sequence of calls -/

theorem frames_add_ofFrames (fps : ℚ) (hfps : fps ≠ 0) (t : GenTime) (n : ℤ) :
    (t + GenTime.ofFrames n fps).frames fps = t.frames fps + n := by
  unfold GenTime.frames GenTime.ofFrames
  have : (t + (n : ℚ) / fps) * fps + 1 / 2 = (t * fps + 1 / 2) + (n : ℚ) := by
    field_simp
    ring
  rw [this, Int.floor_add_int]

theorem frames_sub_ofFrames (fps : ℚ) (hfps : fps ≠ 0) (t : GenTime) (n : ℤ) :
    (t - GenTime.ofFrames n fps).frames fps = t.frames fps - n := by
  unfold GenTime.frames GenTime.ofFrames
  have : (t - (n : ℚ) / fps) * fps + 1 / 2 = (t * fps + 1 / 2) - (n : ℚ) := by
    field_simp
    ring
  rw [this, Int.floor_sub_int]

theorem frames_ofFrames (fps : ℚ) (hfps : fps ≠ 0) (n : ℤ) :
    (GenTime.ofFrames n fps).frames fps = n := by
  have h := frames_add_ofFrames fps hfps 0 n
  have h0 : GenTime.frames 0 fps = 0 := by
    unfold GenTime.frames
    rw [Int.floor_eq_iff]
    constructor <;> norm_num
  rw [h0] at h
  simpa using h

theorem frames_mono (fps : ℚ) (hfps : 0 < fps) {a b : GenTime} (h : a ≤ b) :
    a.frames fps ≤ b.frames fps := by
  unfold GenTime.frames
  apply Int.floor_mono
  have := mul_le_mul_of_nonneg_right h (le_of_lt hfps)
  linarith

theorem mem_assign {K V : Type} [LinearOrder K] (m : StdMap K V) (k : K) (v : V)
    (p : K × V) (h : p ∈ m.assign k v) : p = (k, v) ∨ p ∈ m := by
  induction m with
  | nil => simpa [StdMap.assign] using h
  | cons hd t ih =>
    obtain ⟨k', v'⟩ := hd
    unfold StdMap.assign at h
    split_ifs at h with h1 h2
    · rcases List.mem_cons.1 h with h | h
      · exact Or.inl h
      · exact Or.inr h
    · rcases List.mem_cons.1 h with h | h
      · exact Or.inl h
      · exact Or.inr (List.mem_cons_of_mem _ h)
    · rcases List.mem_cons.1 h with h | h
      · exact Or.inr (by rw [h]; exact List.mem_cons_self _ _)
      · rcases ih h with h | h
        · exact Or.inl h
        · exact Or.inr (List.mem_cons_of_mem _ h)

theorem valid_assign (fps : ℚ) (m : StdMap GenTime (String × GenTime)) (k : GenTime)
    (v : String × GenTime) (hm : ∀ p ∈ m, ValidCue fps p) (hv : ValidCue fps (k, v)) :
    ∀ p ∈ m.assign k v, ValidCue fps p := by
  intro p hp
  rcases mem_assign m k v p hp with h | h
  · rw [h]; exact hv
  · exact hm p h

theorem valid_erase (fps : ℚ) (m : StdMap GenTime (String × GenTime)) (k : GenTime)
    (hm : ∀ p ∈ m, ValidCue fps p) : ∀ p ∈ m.erase k, ValidCue fps p := by
  intro p hp
  exact hm p (List.mem_of_mem_filter hp)

/-- A resize from the right by a size that is not negative keeps the times valid. -/
theorem timeValid_resizeRight (fps : ℚ) (hfps : 0 < fps) (s : SubtitleModel) {st : GenTime}
    {e : String × GenTime} (endPos : GenTime) (size : ℤ) (h : TimeValid fps s)
    (hcue : s.m_subtitleList.find st = some e) (hsize : 0 ≤ size) :
    TimeValid fps (resizeRightOperation fps st endPos (st + GenTime.ofFrames size fps) s).2 := by
  have hd := (resizeRightOperation_data fps s endPos (st + GenTime.ofFrames size fps) hcue).1
  unfold TimeValid
  rw [hd]
  apply valid_assign fps _ _ _ h
  have hv := h _ (find_some_mem _ hcue)
  have hf := frames_add_ofFrames fps (ne_of_gt hfps) st size
  unfold ValidCue at hv ⊢
  simp only at hv ⊢
  omega

/-- One call that is in range keeps the times valid. -/
theorem timeValid_run (fps : ℚ) (hfps : 0 < fps) (s : SubtitleModel) (op : Op)
    (h : TimeValid fps s) (hr : op.InRange fps s) : TimeValid fps (Op.run fps s op) := by
  cases op with
  | add id st en str =>
    simp only [Op.run, Op.call]
    rcases addSubtitle_cases fps s id st en str with ha | ⟨_, hv, ha⟩
    · rw [ha]; exact h
    · rw [ha]; exact valid_assign fps _ _ _ h hv
  | remove id =>
    simp only [Op.run, Op.call]
    rcases removeSubtitle_cases fps s id with ha | ⟨st, e, _, _, ha⟩
    · rw [ha]; exact h
    · rw [ha]; exact valid_erase fps _ _ h
  | move id newPos =>
    simp only [Op.run, Op.call]
    simp only [Op.InRange] at hr
    rcases moveSubtitle_cases fps s id newPos true true with ha | ⟨old, e, hreg, hcue, _, ha⟩
    · rw [ha]; exact h
    · rw [ha]
      have hle := hr.2
      simp only [hreg, hcue] at hle
      show ∀ p ∈ (s.m_subtitleList.erase old).assign _ _, ValidCue fps p
      apply valid_assign fps _ _ _ (valid_erase fps _ _ h)
      have hm : newPos.frames fps ≤ (newPos + (e.2 - old)).frames fps :=
        frames_mono fps hfps (by linarith)
      have hv := h _ (find_some_mem _ hcue)
      unfold ValidCue at hv ⊢
      simp only at hv ⊢
      omega
  | resize id size right =>
    simp only [Op.run, Op.call]
    simp only [Op.InRange] at hr
    rcases requestResize3_cases fps s id size right with ha | ha | ⟨st, e, hreg, hcue, _, ha⟩ |
      ⟨st, e, hreg, hcue, hright, hfree, ha⟩
    · rw [ha]; exact h
    · rw [ha]; exact h
    · rw [ha]; exact timeValid_resizeRight fps hfps s _ size h hcue hr.1
    · rw [ha]
      have hle := hr.2 hright
      simp only [hreg, hcue] at hle
      have hv := h _ (find_some_mem _ hcue)
      have hf := frames_sub_ofFrames fps (ne_of_gt hfps) e.2 size
      show ∀ p ∈ (s.m_subtitleList.erase st).assign _ _, ValidCue fps p
      apply valid_assign fps _ _ _ (valid_erase fps _ _ h)
      unfold ValidCue at hv ⊢
      simp only at hv ⊢
      omega
  | cut position newId =>
    simp only [Op.run, Op.call]
    rcases cutSubtitle1_cases fps s position newId with ha | ha |
      ⟨c, e, st2, e2, hc, hle, _, _, hcue, hreg, hcue2, ⟨hadd, ha⟩ | ⟨hadd, ha⟩⟩
    · rw [ha]; exact h
    · rw [ha]; exact h
    all_goals
      have hdur : 0 ≤ position - c.1.frames fps := by
        have := frames_mono fps hfps hle
        rw [frames_ofFrames fps (ne_of_gt hfps)] at this
        omega
      have hmid := timeValid_resizeRight fps hfps s e2.2 _ h hcue2 hdur
    · rw [ha]
      rcases addSubtitle_cases fps (resizeRightOperation fps st2 e2.2
        (st2 + GenTime.ofFrames (position - c.1.frames fps) fps) s).2
        newId (GenTime.ofFrames position fps) e.2 e.1 with hb | ⟨_, hv, hb⟩
      · rw [hb]; exact hmid
      · rw [hb]; exact valid_assign fps _ _ _ hmid hv
    · rw [ha]
      show ∀ p ∈ setSecond _ st2 e2.2, ValidCue fps p
      unfold setSecond
      apply valid_assign fps _ _ _ hmid
      have hv : ValidCue fps (st2, e2) := h _ (find_some_mem _ hcue2)
      exact hv

theorem timeValid_runOps (fps : ℚ) (hfps : 0 < fps) (ops : List Op) :
    ∀ s : SubtitleModel, TimeValid fps s → InRange fps s ops →
      TimeValid fps (runOps fps s ops) := by
  induction ops with
  | nil => intro s h _; exact h
  | cons op ops ih =>
    intro s h hr
    exact ih (Op.run fps s op) (timeValid_run fps hfps s op h hr.1) hr.2

/-- C3, as stated, fails: at 25 frames per second, on the cue (0 s, 2 s, "a") of
id 1, `requestResize(1, -100, true)` returns true and leaves the cue (0 s, -4 s),
whose end has a negative frame count, below that of its start; and
`moveSubtitle(1, -1 s)` returns true and leaves a cue that starts at frame -25. -/
theorem C3_unchecked_resize_and_move_counterexample :
    Option.map Prod.fst (Op.call 25 (runOps 25 empty [.add 1 0 2 "a"]) (.resize 1 (-100) true))
      = some true ∧
    (runOps 25 empty [.add 1 0 2 "a", .resize 1 (-100) true]).m_subtitleList
      = [(0, ("a", -4))] ∧
    ¬ TimeValid 25 (runOps 25 empty [.add 1 0 2 "a", .resize 1 (-100) true]) ∧
    Option.map Prod.fst (Op.call 25 (runOps 25 empty [.add 1 0 2 "a"]) (.move 1 (-1)))
      = some true ∧
    (runOps 25 empty [.add 1 0 2 "a", .move 1 (-1)]).m_subtitleList = [(-1, ("a", 1))] ∧
    ¬ TimeValid 25 (runOps 25 empty [.add 1 0 2 "a", .move 1 (-1)]) := by
  decide!

/-- C3, amended: at a positive frame rate, starting from the empty store, after
every sequence of `addSubtitle`, `removeSubtitle`, `cutSubtitle`, `moveSubtitle` and
`requestResize` calls in which each move goes to a position whose frame count is
not negative and moves a cue whose end is not before its start, and each resize
has a size that is not negative and, from the left, not above the frame count of
the cue's end, every cue has non-negative start and end frame counts and a start
frame count that does not exceed its end frame count; and `addSubtitle` rejects
times that are not so (returns false, model unchanged). -/
theorem C3_time_validity_amended (fps : ℚ) (hfps : 0 < fps) :
    (∀ ops, InRange fps empty ops → TimeValid fps (runOps fps empty ops)) ∧
    (∀ s id st en str, ¬ ValidCue fps (st, (str, en)) →
      addSubtitle fps s id st en str = (false, s)) := by
  constructor
  · intro ops hr
    exact timeValid_runOps fps hfps ops empty (by simp [TimeValid, empty]) hr
  · intro s id st en str hv
    rcases addSubtitle_cases fps s id st en str with ha | ⟨_, hv2, _⟩
    · exact ha
    · exact absurd hv2 hv

/-- Witness of C3, amended: a sequence of calls in range, at 25 frames per second. -/
theorem C3_time_validity_amended_witness :
    (0 : ℚ) < 25 ∧ InRange 25 empty exampleInRangeOps ∧
    TimeValid 25 (runOps 25 empty exampleInRangeOps) :=
  ⟨by norm_num, by decide!,
    (C3_time_validity_amended 25 (by norm_num)).1 exampleInRangeOps (by decide!)⟩


/-! ## C11: growing and shrinking a cue from the right -/

/-- C11, as stated, fails: at 25 frames per second the cue (0 s, 2.51 s) of id 1
has a playtime of 63 frames; resizing it from the right to 63 + 10 frames and then
to 63 frames leaves its end at 2.52 s. -/
theorem C11_resize_back_counterexample :
    subFrameCue.m_subtitleList = [(0, ("a", 251 / 100))] ∧
    getSubtitlePlaytime 25 subFrameCue 1 = some 63 ∧
    (runOps 25 subFrameCue [.resize 1 (63 + 10) true, .resize 1 63 true]).m_subtitleList
      = [(0, ("a", 63 / 25))] := by
  decide!

/-- C11, amended: for a registered cue `(start, end, text)` with playtime `d` and
every `k`, `requestResize(id, d + k, true)` followed by `requestResize(id, d, true)`
both return true and leave the cue's end at `start + d` frames; this is the original
end whenever `end - start` is a whole number of frames. -/
theorem C11_resize_back_amended (fps : ℚ) (s : SubtitleModel) (id k : ℤ)
    (start endPos : GenTime) (text : String)
    (hreg : s.m_allSubtitles.find id = some start)
    (hcue : s.m_subtitleList.find start = some (text, endPos)) :
    getSubtitlePlaytime fps s id = some ((endPos - start).frames fps) ∧
    ∃ m1 m2,
      requestResize3 fps s id ((endPos - start).frames fps + k) true = some (true, m1) ∧
      requestResize3 fps m1 id ((endPos - start).frames fps) true = some (true, m2) ∧
      m2.m_subtitleList.find start
        = some (text, start + GenTime.ofFrames ((endPos - start).frames fps) fps) ∧
      (∀ n : ℤ, fps ≠ 0 → endPos - start = GenTime.ofFrames n fps →
        m2.m_subtitleList.find start = some (text, endPos)) := by
  refine ⟨by simp [getSubtitlePlaytime, hreg, hcue], ?_⟩
  have h1 : requestResize3 fps s id ((endPos - start).frames fps + k) true = some (true,
      (resizeRightOperation fps start endPos
        (start + GenTime.ofFrames ((endPos - start).frames fps + k) fps) s).2) := by
    simp [requestResize3, requestResize_right_eq fps s id _ noop noop true hreg hcue]
  have hd1 := resizeRightOperation_data fps s endPos
    (start + GenTime.ofFrames ((endPos - start).frames fps + k) fps) hcue
  have hreg1 : (resizeRightOperation fps start endPos
      (start + GenTime.ofFrames ((endPos - start).frames fps + k) fps) s).2.m_allSubtitles.find id
      = some start := by rw [hd1.2]; exact hreg
  have hcue1 : (resizeRightOperation fps start endPos
      (start + GenTime.ofFrames ((endPos - start).frames fps + k) fps) s).2.m_subtitleList.find
      start = some (text, start + GenTime.ofFrames ((endPos - start).frames fps + k) fps) := by
    rw [hd1.1]; exact find_assign_self _ _ _
  have h2 := requestResize_right_eq fps _ id ((endPos - start).frames fps) noop noop true
    hreg1 hcue1
  have hd2 := resizeRightOperation_data fps _
    (start + GenTime.ofFrames ((endPos - start).frames fps + k) fps)
    (start + GenTime.ofFrames ((endPos - start).frames fps) fps) hcue1
  have hfin : (resizeRightOperation fps start
      (start + GenTime.ofFrames ((endPos - start).frames fps + k) fps)
      (start + GenTime.ofFrames ((endPos - start).frames fps) fps)
      (resizeRightOperation fps start endPos
        (start + GenTime.ofFrames ((endPos - start).frames fps + k) fps) s).2).2.m_subtitleList.find
      start = some (text, start + GenTime.ofFrames ((endPos - start).frames fps) fps) := by
    rw [hd2.1]; exact find_assign_self _ _ _
  refine ⟨_, _, h1, ?_, hfin, ?_⟩
  · simp [requestResize3, h2]
  · intro n hfps hn
    rw [hfin, hn, frames_ofFrames fps hfps, ← hn]
    congr 2
    ring

/-- Witness of C11, amended: the cue (0 s, 2 s, "Hello") of id 1 at 25 frames per
second, grown by 10 frames and shrunk back to its playtime of 50 frames. -/
theorem C11_resize_back_amended_witness :
    oneCue.m_allSubtitles.find 1 = some 0 ∧
    oneCue.m_subtitleList.find 0 = some ("Hello", 2) ∧
    ∃ m1 m2, requestResize3 25 oneCue 1 (GenTime.frames (2 - 0) 25 + 10) true = some (true, m1) ∧
      requestResize3 25 m1 1 (GenTime.frames (2 - 0) 25) true = some (true, m2) ∧
      m2.m_subtitleList.find 0 = some ("Hello", 2) :=
  have hreg : oneCue.m_allSubtitles.find 1 = some 0 := by decide!
  have hcue : oneCue.m_subtitleList.find 0 = some ("Hello", 2) := by decide!
  have h := (C11_resize_back_amended 25 oneCue 1 10 0 2 "Hello" hreg hcue).2
  ⟨hreg, hcue, h.choose, h.choose_spec.choose, h.choose_spec.choose_spec.1,
    h.choose_spec.choose_spec.2.1,
    h.choose_spec.choose_spec.2.2.2 50 (by norm_num) (by norm_num [GenTime.ofFrames])⟩

/-! ## Cutting a cue -/

/-- The model a successful `addSubtitle` leaves. -/
theorem addSubtitle_eq (fps : ℚ) (s : SubtitleModel) (id : ℤ) (st en : GenTime) (str : String)
    (hv : ValidCue fps (st, (str, en))) (hfree : s.m_subtitleList.find st = none) :
    addSubtitle fps s id st en str =
      (true, ⟨s.m_subtitleList.assign st (str, en), s.m_allSubtitles.assign id st,
        s.snapLog ++ [SnapCall.addPoint (st.frames fps)]
          ++ [SnapCall.addPoint (en.frames fps)]⟩) := by
  rcases addSubtitle_cases fps s id st en str with h | ⟨_, _, h⟩
  · exfalso
    obtain ⟨h1, h2, h3⟩ := hv
    simp only at h1 h2 h3
    have hc : ¬ s.m_subtitleList.count st > 0 := by
      rw [count_pos_iff, hfree]; simp
    have ha : ¬ (st.frames fps < 0 ∨ en.frames fps < 0) := by
      rintro (h | h) <;> omega
    have hb : ¬ st.frames fps > en.frames fps := by omega
    simp [addSubtitle, ha, hb, hc] at h
  · exact h

/-- In a sorted map, the first entry a predicate holds for is the entry of a key
when the predicate holds there and for no entry of a smaller key. -/
theorem find?_first {K V : Type} [LinearOrder K] (m : StdMap K V) (P : K × V → Bool)
    {k : K} {v : V} (hs : Sorted m) (hf : m.find k = some v) (hP : P (k, v) = true)
    (hfirst : ∀ c ∈ m, c.1 < k → P c = false) : List.find? P m = some (k, v) := by
  induction m with
  | nil => simp [StdMap.find] at hf
  | cons hd t ih =>
    obtain ⟨k', w⟩ := hd
    rw [sorted_cons] at hs
    by_cases hk : k = k'
    · subst hk
      simp [StdMap.find] at hf
      subst hf
      simp [List.find?_cons, hP]
    · simp only [StdMap.find, hk, if_false] at hf
      have hmem : k ∈ StdMap.keys t := (mem_keys_iff t k).2 ⟨v, hf⟩
      have hlt : k' < k := hs.1 k hmem
      have hn : P (k', w) = false := hfirst (k', w) (List.mem_cons_self _ _) hlt
      rw [List.find?_cons, hn]
      exact ih hs.2 hf (fun c hc hck => hfirst c (List.mem_cons_of_mem _ hc) hck)

/-- The loop of `cutSubtitle` stops at the first cue, in start order, that
contains the position. -/
theorem cutFind_eq (m : StdMap GenTime (String × GenTime)) (pos : GenTime) {st : GenTime}
    {e : String × GenTime} (hs : Sorted m) (hf : m.find st = some e)
    (h1 : st ≤ pos) (h2 : pos < e.2)
    (hfirst : ∀ c ∈ m, c.1 < st → ¬ (c.1 ≤ pos ∧ pos < c.2.2)) :
    cutFind m pos = st := by
  unfold cutFind
  rw [find?_first m _ hs hf (by simp [h1, h2])]
  intro c hc hlt
  simpa using hfirst c hc hlt

/-- The loop of `cutSubtitle` finds nothing when no cue contains the position. -/
theorem cutFind_none (m : StdMap GenTime (String × GenTime)) (pos : GenTime)
    (h : ∀ c ∈ m, ¬ (c.1 ≤ pos ∧ pos < c.2.2)) : cutFind m pos = -1 := by
  unfold cutFind
  have : List.find? (fun e => decide (e.1 ≤ pos ∧ e.2.2 > pos)) m = none := by
    rw [List.find?_eq_none]
    intro c hc
    simpa using h c hc
  rw [this]

/-- The outcome of `cutSubtitle` when its loop stops at the cue of a registered id. -/
theorem cutSubtitle_eq (fps : ℚ) (s : SubtitleModel) (position : ℤ) (undo redo : Fun)
    (newId id : ℤ) {st : GenTime} {e : String × GenTime}
    (hw : WellFormed s) (hc : Consistent s)
    (hfind : cutFind s.m_subtitleList (GenTime.ofFrames position fps) = st) (h0 : 0 ≤ st)
    (hreg : s.m_allSubtitles.find id = some st)
    (hcue : s.m_subtitleList.find st = some e) :
    cutSubtitle fps s position undo redo newId =
      if (addSubtitle fps (resizeRightOperation fps st e.2
          (st + GenTime.ofFrames (position - st.frames fps) fps) s).2
          newId (GenTime.ofFrames position fps) e.2 e.1).1 then
        some ⟨true,
          updateUndo (fun m => (true, (removeSubtitle fps m newId).2))
            (updateUndo (resizeRightReverse fps st e.2
              (st + GenTime.ofFrames (position - st.frames fps) fps)) undo),
          updateRedo (fun m => addSubtitle fps m newId (GenTime.ofFrames position fps) e.2 e.1)
            (updateRedo (resizeRightOperation fps st e.2
              (st + GenTime.ofFrames (position - st.frames fps) fps)) redo),
          (addSubtitle fps (resizeRightOperation fps st e.2
            (st + GenTime.ofFrames (position - st.frames fps) fps) s).2
            newId (GenTime.ofFrames position fps) e.2 e.1).2⟩
      else
        some ⟨false,
          updateUndo (resizeRightReverse fps st e.2
            (st + GenTime.ofFrames (position - st.frames fps) fps)) undo,
          updateRedo (resizeRightOperation fps st e.2
            (st + GenTime.ofFrames (position - st.frames fps) fps)) redo,
          (updateUndo (resizeRightReverse fps st e.2
            (st + GenTime.ofFrames (position - st.frames fps) fps)) undo
            (addSubtitle fps (resizeRightOperation fps st e.2
              (st + GenTime.ofFrames (position - st.frames fps) fps) s).2
              newId (GenTime.ofFrames position fps) e.2 e.1).2).2⟩ := by
  have hid : getIdForStartPos s st = id := getIdForStartPos_eq s hw.2 hreg (hc.own hreg)
  have hr := requestResize_right_eq fps s id (position - st.frames fps) undo redo false hreg hcue
  have h0' : st ≥ 0 := h0
  simp only [cutSubtitle, hfind, h0', if_true, hcue, hid, hr]

/-- Two sorted maps with the same lookups are equal. -/
theorem sorted_ext {K V : Type} [LinearOrder K] :
    ∀ (a b : StdMap K V), Sorted a → Sorted b → (∀ k, a.find k = b.find k) → a = b := by
  intro a
  induction a with
  | nil =>
    intro b _ _ h
    cases b with
    | nil => rfl
    | cons hd t =>
      have := h hd.1
      simp [StdMap.find] at this
  | cons hd ta ih =>
    intro b ha hb h
    obtain ⟨k, v⟩ := hd
    cases b with
    | nil =>
      have := h k
      simp [StdMap.find] at this
    | cons hd2 tb =>
      obtain ⟨k', v'⟩ := hd2
      rw [sorted_cons] at ha hb
      have hk : k = k' := by
        by_contra hne
        rcases lt_or_gt_of_ne hne with hlt | hgt
        · have h1 := h k
          have hn : StdMap.find tb k = none :=
            find_none_of_lt tb (fun j hj => lt_trans hlt (hb.1 j hj))
          simp [StdMap.find, hne, hn] at h1
        · have h1 := h k'
          have hn : StdMap.find ta k' = none :=
            find_none_of_lt ta (fun j hj => lt_trans hgt (ha.1 j hj))
          have hne' : k' ≠ k := fun e => hne e.symm
          simp [StdMap.find, hne', hn] at h1
      subst hk
      have hv : v = v' := by
        have h1 := h k
        simpa [StdMap.find] using h1
      subst hv
      have ht : ta = tb := by
        apply ih tb ha.2 hb.2
        intro j
        by_cases hj : j = k
        · subst hj
          rw [find_none_of_lt ta ha.1, find_none_of_lt tb hb.1]
        · have h1 := h j
          simpa [StdMap.find, hj] using h1
      rw [ht]

theorem frames_zero (fps : ℚ) : GenTime.frames 0 fps = 0 := by
  unfold GenTime.frames
  rw [Int.floor_eq_iff]
  constructor <;> norm_num

theorem ofFrames_sub (fps : ℚ) (a b : ℤ) :
    GenTime.ofFrames (a - b) fps = GenTime.ofFrames a fps - GenTime.ofFrames b fps := by
  unfold GenTime.ofFrames
  push_cast
  ring

/-- The second piece of a cut has valid times. -/
theorem validCue_piece (fps : ℚ) (hfps : 0 < fps) {st pos en : GenTime} (text : String)
    (h0 : 0 ≤ st) (h1 : st ≤ pos) (h2 : pos < en) : ValidCue fps (pos, (text, en)) := by
  have ha : GenTime.frames 0 fps ≤ pos.frames fps := frames_mono fps hfps (le_trans h0 h1)
  have hb : pos.frames fps ≤ en.frames fps := frames_mono fps hfps (le_of_lt h2)
  rw [frames_zero] at ha
  unfold ValidCue
  simp only
  omega

/-- The result of `addSubtitle` and the data it leaves depend on the store and
the registry only. -/
theorem addSubtitle_congr (fps : ℚ) (a b : SubtitleModel) (id : ℤ) (st en : GenTime)
    (str : String) (h : SameData a b) :
    (addSubtitle fps a id st en str).1 = (addSubtitle fps b id st en str).1 ∧
    SameData (addSubtitle fps a id st en str).2 (addSubtitle fps b id st en str).2 := by
  obtain ⟨sa, ra, la⟩ := a
  obtain ⟨sb, rb, lb⟩ := b
  obtain ⟨h1, h2⟩ := h
  simp only at h1 h2
  subst h1 h2
  unfold addSubtitle
  split_ifs <;> simp [SameData, registerSubtitle, addSnapPoint]

/-- The result of `removeSubtitle` and the data it leaves depend on the store and
the registry only. -/
theorem removeSubtitle_congr (fps : ℚ) (a b : SubtitleModel) (id : ℤ) (h : SameData a b) :
    (removeSubtitle fps a id).1 = (removeSubtitle fps b id).1 ∧
    SameData (removeSubtitle fps a id).2 (removeSubtitle fps b id).2 := by
  obtain ⟨sa, ra, la⟩ := a
  obtain ⟨sb, rb, lb⟩ := b
  obtain ⟨h1, h2⟩ := h
  simp only at h1 h2
  subst h1 h2
  cases hr : ra.find id with
  | none => simp [removeSubtitle, hr, SameData]
  | some st =>
    cases hc : sa.find st with
    | none => simp [removeSubtitle, hr, hc, SameData]
    | some e => simp [removeSubtitle, hr, hc, SameData, deregisterSubtitle, removeSnapPoint]

/-- The second piece of a cut is added when no cue starts at the position: the
result and the data of the add on the model the shrink leaves. -/
theorem cut_add_data (fps : ℚ) (hfps : 0 < fps) (s : SubtitleModel) (newId : ℤ)
    {st pos : GenTime} {e : String × GenTime} (newEnd : GenTime)
    (h0 : 0 ≤ st) (h1 : st ≤ pos) (h2 : pos < e.2)
    (hcue : s.m_subtitleList.find st = some e)
    (hfree : s.m_subtitleList.find pos = none) :
    (addSubtitle fps (resizeRightOperation fps st e.2 newEnd s).2 newId pos e.2 e.1).1 = true ∧
    (addSubtitle fps (resizeRightOperation fps st e.2 newEnd s).2 newId pos e.2
      e.1).2.m_subtitleList = (s.m_subtitleList.assign st (e.1, newEnd)).assign pos (e.1, e.2) ∧
    (addSubtitle fps (resizeRightOperation fps st e.2 newEnd s).2 newId pos e.2
      e.1).2.m_allSubtitles = s.m_allSubtitles.assign newId pos := by
  have hne : pos ≠ st := by
    rintro rfl
    rw [hfree] at hcue
    cases hcue
  have hd := resizeRightOperation_data fps s e.2 newEnd hcue
  have hfree2 : (resizeRightOperation fps st e.2 newEnd s).2.m_subtitleList.find pos = none := by
    rw [hd.1, find_assign_ne _ _ hne]; exact hfree
  rw [addSubtitle_eq fps _ newId pos e.2 e.1 (validCue_piece fps hfps e.1 h0 h1 h2) hfree2]
  exact ⟨rfl, by rw [hd.1], by rw [hd.2]⟩

/-- The second piece of a cut is not added when a cue starts at the position. -/
theorem cut_add_occupied (fps : ℚ) (s : SubtitleModel) (newId : ℤ)
    {st pos : GenTime} {e e2 : String × GenTime} (newEnd : GenTime)
    (hcue : s.m_subtitleList.find st = some e)
    (hocc : s.m_subtitleList.find pos = some e2) :
    (addSubtitle fps (resizeRightOperation fps st e.2 newEnd s).2 newId pos e.2 e.1).1
      = false := by
  have hd := resizeRightOperation_data fps s e.2 newEnd hcue
  rcases addSubtitle_cases fps (resizeRightOperation fps st e.2 newEnd s).2 newId pos e.2 e.1
    with h | ⟨hnone, _, _⟩
  · rw [h]
  · exfalso
    rw [hd.1] at hnone
    by_cases hne : pos = st
    · subst hne
      rw [find_assign_self] at hnone
      cases hnone
    · rw [find_assign_ne _ _ hne, hocc] at hnone
      cases hnone

/-- C12, as stated, fails. At 25 frames per second: with the cues (0 s, 2 s, "a") and
(1 s, 3 s, "b"), a cut at frame 25 finds the first cue, cannot add the second piece
at the occupied start 1 s, and returns false with the store as it was; and with the
single cue (0.01 s, 2 s, "a"), whose start lies between two frames, a cut at frame
25 leaves the first piece (0.01 s, 1.01 s), not (0.01 s, 1 s). -/
theorem C12_cut_counterexample :
    overlapCues.m_subtitleList = [(0, ("a", 2)), (1, ("b", 3))] ∧
    Option.map (fun r => (r.1, r.2.m_subtitleList)) (cutSubtitle1 25 overlapCues 25 3)
      = some (false, [(0, ("a", 2)), (1, ("b", 3))]) ∧
    Option.map (fun r => (r.1, r.2.m_subtitleList))
      (cutSubtitle1 25 (runOps 25 empty [.add 1 (1 / 100) 2 "a"]) 25 2)
      = some (true, [(1 / 100, ("a", 101 / 100)), (1, ("a", 2))]) := by
  decide!

/-- C12, amended: at a positive frame rate, in a model with sorted maps and a
registry in bijection with the store, let the cue `(st, en, text)` of id `id` be the
first in start order that contains the position, with `st < pos < en`, a start
`st` that is not negative and lies on a frame, no cue starting at the position and
`newId` not registered. Then `cutSubtitle(position)` returns true, and afterwards
the store has the cue `(st, pos, text)` under `id` and the cue `(pos, en, text)`
under `newId`, every other cue is unchanged, there is one cue more, and the two
durations sum to `en - st`. -/
theorem C12_cut_amended (fps : ℚ) (hfps : 0 < fps) (s : SubtitleModel)
    (hw : WellFormed s) (hc : Consistent s) (id newId position : ℤ)
    (st en : GenTime) (text : String)
    (hreg : s.m_allSubtitles.find id = some st)
    (hcue : s.m_subtitleList.find st = some (text, en))
    (h1 : st < GenTime.ofFrames position fps) (h2 : GenTime.ofFrames position fps < en)
    (hfirst : ∀ c ∈ s.m_subtitleList, c.1 < st →
      ¬ (c.1 ≤ GenTime.ofFrames position fps ∧ GenTime.ofFrames position fps < c.2.2))
    (h0 : 0 ≤ st) (halign : GenTime.ofFrames (st.frames fps) fps = st)
    (hfree : GenTime.ofFrames position fps ∉ s.m_subtitleList.keys)
    (hnew : s.m_allSubtitles.find newId = none) :
    ∃ m, cutSubtitle1 fps s position newId = some (true, m) ∧
      m.m_subtitleList.find st = some (text, GenTime.ofFrames position fps) ∧
      m.m_subtitleList.find (GenTime.ofFrames position fps) = some (text, en) ∧
      m.m_allSubtitles.find id = some st ∧
      m.m_allSubtitles.find newId = some (GenTime.ofFrames position fps) ∧
      (∀ k, k ≠ st → k ≠ GenTime.ofFrames position fps →
        m.m_subtitleList.find k = s.m_subtitleList.find k) ∧
      m.m_subtitleList.size = s.m_subtitleList.size + 1 ∧
      (GenTime.ofFrames position fps - st) + (en - GenTime.ofFrames position fps) = en - st := by
  have hnone : s.m_subtitleList.find (GenTime.ofFrames position fps) = none :=
    (find_eq_none_iff _ _).2 hfree
  have hfind := cutFind_eq s.m_subtitleList (GenTime.ofFrames position fps) hw.1 hcue
    (le_of_lt h1) h2 hfirst
  have hnewEnd : st + GenTime.ofFrames (position - st.frames fps) fps
      = GenTime.ofFrames position fps := by
    rw [ofFrames_sub, halign]; ring
  have hadd := cut_add_data fps hfps s newId
    (st + GenTime.ofFrames (position - st.frames fps) fps) h0 (le_of_lt h1) h2 hcue hnone
  have hcut := cutSubtitle_eq fps s position noop noop newId id hw hc hfind h0 hreg hcue
  rw [if_pos hadd.1] at hcut
  have hne : GenTime.ofFrames position fps ≠ st := ne_of_gt h1
  have hidne : id ≠ newId := by
    rintro rfl
    rw [hnew] at hreg
    cases hreg
  simp only at hadd hcut
  have hcut1 : cutSubtitle1 fps s position newId = some (true,
      (addSubtitle fps (resizeRightOperation fps st en
        (st + GenTime.ofFrames (position - st.frames fps) fps) s).2
        newId (GenTime.ofFrames position fps) en text).2) := by
    simp only [cutSubtitle1, hcut]
  refine ⟨_, hcut1, ?_, ?_, ?_, ?_, ?_, ?_, by ring⟩
  · rw [hadd.2.1, find_assign_ne _ _ (Ne.symm hne), find_assign_self, hnewEnd]
  · rw [hadd.2.1, find_assign_self]
  · rw [hadd.2.2, find_assign_ne _ _ hidne]; exact hreg
  · rw [hadd.2.2, find_assign_self]
  · intro k hk1 hk2
    rw [hadd.2.1, find_assign_ne _ _ hk2, find_assign_ne _ _ hk1]
  · rw [hadd.2.1, size_assign_of_find_none, size_assign_of_find _ _ hw.1 hcue]
    rw [find_assign_ne _ _ hne]; exact hnone

/-- The model with the single cue (0 s, 2 s, "Hello") has sorted maps and a registry
in bijection with its store. -/
theorem inv_oneCue : WellFormed oneCue ∧ Consistent oneCue :=
  inv_of_sameData (inv_runOps 25 [.add 1 0 2 "Hello"] empty inv_empty (by decide!))
    (by decide!)

/-- Witness of C12, amended: the example of the specification, a cut at frame 25
(1 s at 25 frames per second) of the cue (0 s, 2 s, "Hello"). -/
theorem C12_cut_amended_witness :
    (0 : ℚ) < 25 ∧ WellFormed oneCue ∧ Consistent oneCue ∧
    (∃ m, cutSubtitle1 25 oneCue 25 2 = some (true, m) ∧
      m.m_subtitleList.find 0 = some ("Hello", GenTime.ofFrames 25 25) ∧
      m.m_subtitleList.find (GenTime.ofFrames 25 25) = some ("Hello", 2) ∧
      m.m_allSubtitles.find 1 = some 0 ∧
      m.m_allSubtitles.find 2 = some (GenTime.ofFrames 25 25)) ∧
    Option.map (fun r => r.2.m_subtitleList) (cutSubtitle1 25 oneCue 25 2)
      = some [(0, ("Hello", 1)), (1, ("Hello", 2))] :=
  have h := C12_cut_amended 25 (by norm_num) oneCue inv_oneCue.1 inv_oneCue.2 1 2 25 0 2 "Hello"
    (by decide!) (by decide!) (by decide!) (by decide!) (by decide!) (by decide!) (by decide!)
    (by decide!) (by decide!)
  ⟨by norm_num, inv_oneCue.1, inv_oneCue.2,
    ⟨h.choose, h.choose_spec.1, h.choose_spec.2.1, h.choose_spec.2.2.1, h.choose_spec.2.2.2.1,
      h.choose_spec.2.2.2.2.1⟩, by decide!⟩

/-- C13, as stated, fails: at 25 frames per second, on the single cue
(0 s, 2 s, "Hello"), which satisfies `start <= position < end` for the position 0,
`cutSubtitle(0)` returns false and leaves the model as it was. -/
theorem C13_cut_at_start_counterexample :
    (∃ c ∈ oneCue.m_subtitleList, c.1 ≤ GenTime.ofFrames 0 25 ∧ GenTime.ofFrames 0 25 < c.2.2) ∧
    Option.map (fun r => (r.1, decide (SameData r.2 oneCue))) (cutSubtitle1 25 oneCue 0 2)
      = some (false, true) := by
  decide!

/-- C13, amended: at a positive frame rate, in a model with sorted maps and a
registry in bijection with the store, `cutSubtitle(position)` returns false when no
cue satisfies `start <= position < end`, when a cue starts exactly at the position
(the start of the cue that contains it included), and when the first cue that
contains the position has a negative start; it returns true when the first cue, in
start order, that satisfies `start <= position < end` has a start that is not
negative and no cue starts at the position. -/
theorem C13_cut_result_amended (fps : ℚ) (hfps : 0 < fps) (s : SubtitleModel)
    (hw : WellFormed s) (hc : Consistent s) (position newId : ℤ) :
    ((∀ c ∈ s.m_subtitleList,
        ¬ (c.1 ≤ GenTime.ofFrames position fps ∧ GenTime.ofFrames position fps < c.2.2)) →
      cutSubtitle1 fps s position newId = some (false, s)) ∧
    (GenTime.ofFrames position fps ∈ s.m_subtitleList.keys →
      ∃ m, cutSubtitle1 fps s position newId = some (false, m)) ∧
    (∀ st e, s.m_subtitleList.find st = some e →
      st ≤ GenTime.ofFrames position fps → GenTime.ofFrames position fps < e.2 →
      (∀ c ∈ s.m_subtitleList, c.1 < st →
        ¬ (c.1 ≤ GenTime.ofFrames position fps ∧ GenTime.ofFrames position fps < c.2.2)) →
      (st < 0 → cutSubtitle1 fps s position newId = some (false, s)) ∧
      (0 ≤ st → GenTime.ofFrames position fps ∉ s.m_subtitleList.keys →
        ∃ m, cutSubtitle1 fps s position newId = some (true, m))) := by
  refine ⟨?_, ?_, ?_⟩
  · intro h
    have hf := cutFind_none _ _ h
    have : ¬ ((-1 : GenTime) ≥ 0) := by norm_num
    simp [cutSubtitle1, cutSubtitle, hf, this, noop]
  · intro hkey
    obtain ⟨e2, hocc⟩ := (mem_keys_iff _ _).1 hkey
    rcases cutFind_cases s.m_subtitleList (GenTime.ofFrames position fps) with
      hf | ⟨c, hcm, _, _, hf⟩
    · have : ¬ ((-1 : GenTime) ≥ 0) := by norm_num
      exact ⟨s, by simp [cutSubtitle1, cutSubtitle, hf, this, noop]⟩
    · by_cases h0 : 0 ≤ c.1
      · have hcue : s.m_subtitleList.find c.1 = some c.2 := find_of_mem_sorted _ hw.1 hcm
        obtain ⟨id, hid, _⟩ := hc.2 c.1 ((mem_keys_iff _ _).2 ⟨c.2, hcue⟩)
        have hcut := cutSubtitle_eq fps s position noop noop newId id hw hc hf h0 hid hcue
        have hadd := cut_add_occupied fps s newId
          (c.1 + GenTime.ofFrames (position - c.1.frames fps) fps) hcue hocc
        rw [hadd] at hcut
        exact ⟨_, by simp only [cutSubtitle1, hcut]; rfl⟩
      · have : ¬ (c.1 ≥ 0) := h0
        exact ⟨s, by simp [cutSubtitle1, cutSubtitle, hf, this, noop]⟩
  · intro st e hcue h1 h2 hfirst
    have hf := cutFind_eq s.m_subtitleList (GenTime.ofFrames position fps) hw.1 hcue h1 h2 hfirst
    constructor
    · intro hneg
      have : ¬ (st ≥ 0) := not_le.2 hneg
      simp [cutSubtitle1, cutSubtitle, hf, this, noop]
    · intro h0 hfree
      have hnone : s.m_subtitleList.find (GenTime.ofFrames position fps) = none :=
        (find_eq_none_iff _ _).2 hfree
      obtain ⟨id, hid, _⟩ := hc.2 st ((mem_keys_iff _ _).2 ⟨e, hcue⟩)
      have hcut := cutSubtitle_eq fps s position noop noop newId id hw hc hf h0 hid hcue
      have hadd := cut_add_data fps hfps s newId
        (st + GenTime.ofFrames (position - st.frames fps) fps) h0 h1 h2 hcue hnone
      rw [if_pos hadd.1] at hcut
      exact ⟨_, by simp only [cutSubtitle1, hcut]; rfl⟩

/-- Witness of C13, amended: the cue (0 s, 2 s, "Hello") at 25 frames per second; a
cut at frame 0, the start of the cue, fails, and a cut at frame 25 succeeds. -/
theorem C13_cut_result_amended_witness :
    (0 : ℚ) < 25 ∧ WellFormed oneCue ∧ Consistent oneCue ∧
    (∃ m, cutSubtitle1 25 oneCue 0 2 = some (false, m)) ∧
    (∃ m, cutSubtitle1 25 oneCue 25 2 = some (true, m)) :=
  have h := C13_cut_result_amended 25 (by norm_num) oneCue inv_oneCue.1 inv_oneCue.2
  ⟨by norm_num, inv_oneCue.1, inv_oneCue.2, (h 0 2).2.1 (by decide!),
    ((h 25 2).2.2 0 ("Hello", 2) (by decide!) (by decide!) (by decide!) (by decide!)).2
      (by decide!) (by decide!)⟩

/-- C14: in a model with a sorted store, whenever `cutSubtitle(position, undo, redo)`,
called with the no-op closures, returns false, the cue store and the id registry
are what they were before the call. -/
theorem C14_cut_atomic (fps : ℚ) (s : SubtitleModel) (hs : Sorted s.m_subtitleList)
    (position newId : ℤ) (o : Outcome)
    (ho : cutSubtitle fps s position noop noop newId = some o) (hres : o.res = false) :
    SameData o.model s := by
  have h1 : cutSubtitle1 fps s position newId = some (o.res, o.model) := by
    simp [cutSubtitle1, ho]
  rcases cutSubtitle1_cases fps s position newId with hr | hr |
    ⟨c, e, st2, e2, _, _, _, _, _, _, hcue2, ⟨_, hr⟩ | ⟨_, hr⟩⟩
  · rw [hr] at h1; cases h1
  · rw [hr] at h1
    have := (Prod.mk.inj (Option.some.inj h1)).2
    rw [← this]
    exact ⟨rfl, rfl⟩
  · rw [hr] at h1
    have := (Prod.mk.inj (Option.some.inj h1)).1
    rw [hres] at this
    cases this
  · rw [hr] at h1
    have := (Prod.mk.inj (Option.some.inj h1)).2
    rw [← this]
    exact resizeRight_undo fps s _ hs hcue2

/-- Witness of C14: the cut at frame 25 of the cues (0 s, 2 s, "a") and (1 s, 3 s, "b"),
whose second piece cannot be added at the occupied start 1 s. -/
theorem C14_cut_atomic_witness :
    Sorted overlapCues.m_subtitleList ∧
    ∃ o, cutSubtitle 25 overlapCues 25 noop noop 3 = some o ∧ o.res = false ∧
      SameData o.model overlapCues := by
  have hs : Sorted overlapCues.m_subtitleList := by decide!
  have h1 : (cutSubtitle 25 overlapCues 25 noop noop 3).isSome = true := by decide!
  obtain ⟨o, ho⟩ := Option.isSome_iff_exists.1 h1
  have h2 : Option.map (fun o => o.res) (cutSubtitle 25 overlapCues 25 noop noop 3)
      = some false := by decide!
  rw [ho] at h2
  have hres : o.res = false := Option.some.inj h2
  exact ⟨hs, o, ho, hres, C14_cut_atomic 25 overlapCues hs 25 3 o ho hres⟩

/-- The store of before a cut, from the store of after it: the end of the first
piece set back, then the second piece erased. -/
theorem cut_undo_store (m : StdMap GenTime (String × GenTime)) (hs : Sorted m)
    {st pos : GenTime} {e : String × GenTime} (newEnd : GenTime)
    (hcue : m.find st = some e) (hfree : m.find pos = none) :
    ((((m.assign st (e.1, newEnd)).assign pos (e.1, e.2)).assign st (e.1, e.2)).erase pos) = m := by
  have hne : pos ≠ st := by
    rintro rfl
    rw [hfree] at hcue
    cases hcue
  apply sorted_ext _ _ (sorted_erase _ _ (sorted_assign _ _ _ (sorted_assign _ _ _
    (sorted_assign _ _ _ hs)))) hs
  intro k
  by_cases hk : k = pos
  · subst hk
    rw [find_erase_self, hfree]
  · rw [find_erase_ne _ hk]
    by_cases hk2 : k = st
    · subst hk2
      rw [find_assign_self, hcue]
    · rw [find_assign_ne _ _ hk2, find_assign_ne _ _ hk, find_assign_ne _ _ hk2]

/-- The same, with the two steps in the other order. -/
theorem cut_undo_store_swapped (m : StdMap GenTime (String × GenTime)) (hs : Sorted m)
    {st pos : GenTime} {e : String × GenTime} (newEnd : GenTime)
    (hcue : m.find st = some e) (hfree : m.find pos = none) :
    ((((m.assign st (e.1, newEnd)).assign pos (e.1, e.2)).erase pos).assign st (e.1, e.2)) = m := by
  have hne : pos ≠ st := by
    rintro rfl
    rw [hfree] at hcue
    cases hcue
  apply sorted_ext _ _ (sorted_assign _ _ _ (sorted_erase _ _ (sorted_assign _ _ _
    (sorted_assign _ _ _ hs)))) hs
  intro k
  by_cases hk2 : k = st
  · subst hk2
    rw [find_assign_self, hcue]
  · rw [find_assign_ne _ _ hk2]
    by_cases hk : k = pos
    · subst hk
      rw [find_erase_self, hfree]
    · rw [find_erase_ne _ hk, find_assign_ne _ _ hk, find_assign_ne _ _ hk2]

/-- C15: in a model with sorted maps and a registry in bijection with the store,
after a `cutSubtitle(position, undo, redo)` that was started from the no-op
closures, minted an id that was not registered, and returned true, the returned
undo (the resize's reverse, then the deletion of the new cue) restores the cue
store and the id registry of before the cut; the returned redo, run after that
undo (the resize's forward, then the new cue added again), gives the store and
registry the cut had left, the second piece registered under the same id. The
store and registry are restored as well when the deletion is run before the
resize's reverse. -/
theorem C15_cut_undo_redo (fps : ℚ) (s : SubtitleModel) (hw : WellFormed s)
    (hc : Consistent s) (position newId : ℤ) (hnew : s.m_allSubtitles.find newId = none)
    (o : Outcome) (ho : cutSubtitle fps s position noop noop newId = some o)
    (hres : o.res = true) :
    SameData (o.undo o.model).2 s ∧
    SameData (o.redo (o.undo o.model).2).2 o.model ∧
    o.model.m_allSubtitles.find newId = some (GenTime.ofFrames position fps) ∧
    (o.redo (o.undo o.model).2).2.m_allSubtitles.find newId
      = some (GenTime.ofFrames position fps) ∧
    (∀ st e, cutFind s.m_subtitleList (GenTime.ofFrames position fps) = st →
      s.m_subtitleList.find st = some e →
      SameData (resizeRightReverse fps st e.2
        (st + GenTime.ofFrames (position - st.frames fps) fps)
        (removeSubtitle fps o.model newId).2).2 s) := by
  rcases cutFind_cases s.m_subtitleList (GenTime.ofFrames position fps) with
    hf | ⟨c, hcm, _, _, hf⟩
  · exfalso
    have : ¬ ((-1 : GenTime) ≥ 0) := by norm_num
    simp only [cutSubtitle, hf, this, if_false, Option.some.injEq] at ho
    rw [← ho] at hres
    cases hres
  · by_cases h0 : 0 ≤ c.1
    · have hcue : s.m_subtitleList.find c.1 = some c.2 := find_of_mem_sorted _ hw.1 hcm
      obtain ⟨id, hid, _⟩ := hc.2 c.1 ((mem_keys_iff _ _).2 ⟨c.2, hcue⟩)
      have hcut := cutSubtitle_eq fps s position noop noop newId id hw hc hf h0 hid hcue
      rw [ho] at hcut
      rcases addSubtitle_cases fps (resizeRightOperation fps c.1 c.2.2
        (c.1 + GenTime.ofFrames (position - c.1.frames fps) fps) s).2 newId
        (GenTime.ofFrames position fps) c.2.2 c.2.1 with hadd | ⟨hfree2, _, hadd⟩
      · exfalso
        rw [hadd] at hcut
        simp only [Bool.false_eq_true, if_false, Option.some.injEq] at hcut
        rw [hcut] at hres
        cases hres
      · have hd := resizeRightOperation_data fps s c.2.2
          (c.1 + GenTime.ofFrames (position - c.1.frames fps) fps) hcue
        rw [hd.1] at hfree2
        have hne : GenTime.ofFrames position fps ≠ c.1 := by
          intro h
          rw [h, find_assign_self] at hfree2
          cases hfree2
        rw [find_assign_ne _ _ hne] at hfree2
        rw [hadd] at hcut
        simp only [if_true, Option.some.injEq] at hcut
        rw [hd.1, hd.2] at hcut
        subst hcut
        -- the model after the resize's reverse
        have hfst : (((s.m_subtitleList.assign c.1 (c.2.1,
            c.1 + GenTime.ofFrames (position - c.1.frames fps) fps)).assign
            (GenTime.ofFrames position fps) (c.2.1, c.2.2)).find c.1).getD ("", 0)
            = (c.2.1, c.1 + GenTime.ofFrames (position - c.1.frames fps) fps) := by
          rw [find_assign_ne _ _ (Ne.symm hne), find_assign_self]; rfl
        have hundo : SameData (removeSubtitle fps
            (resizeRightReverse fps c.1 c.2.2
              (c.1 + GenTime.ofFrames (position - c.1.frames fps) fps)
              ⟨(s.m_subtitleList.assign c.1 (c.2.1,
                  c.1 + GenTime.ofFrames (position - c.1.frames fps) fps)).assign
                  (GenTime.ofFrames position fps) (c.2.1, c.2.2),
                s.m_allSubtitles.assign newId (GenTime.ofFrames position fps),
                (resizeRightOperation fps c.1 c.2.2
                  (c.1 + GenTime.ofFrames (position - c.1.frames fps) fps) s).2.snapLog
                  ++ [SnapCall.addPoint ((GenTime.ofFrames position fps).frames fps)]
                  ++ [SnapCall.addPoint (c.2.2.frames fps)]⟩).2 newId).2 s := by
          have hreg2 : (s.m_allSubtitles.assign newId (GenTime.ofFrames position fps)).find newId
              = some (GenTime.ofFrames position fps) := find_assign_self _ _ _
          have hcue3 : (setSecond ((s.m_subtitleList.assign c.1 (c.2.1,
              c.1 + GenTime.ofFrames (position - c.1.frames fps) fps)).assign
              (GenTime.ofFrames position fps) (c.2.1, c.2.2)) c.1 c.2.2).find
              (GenTime.ofFrames position fps) = some (c.2.1, c.2.2) := by
            unfold setSecond
            rw [find_assign_ne _ _ hne, find_assign_self]
          rw [removeSubtitle_eq fps _ newId hreg2 hcue3]
          constructor
          · show (setSecond _ c.1 c.2.2).erase _ = _
            unfold setSecond
            rw [hfst]
            exact cut_undo_store _ hw.1 _ hcue hfree2
          · show (s.m_allSubtitles.assign newId _).erase newId = _
            exact erase_assign_of_find_none _ _ hnew
        refine ⟨hundo, ?_, find_assign_self _ _ _, ?_, ?_⟩
        · have h1 := resizeRightOperation_congr fps c.1 c.2.2
            (c.1 + GenTime.ofFrames (position - c.1.frames fps) fps) _ _ hundo
          have h2 := (addSubtitle_congr fps _ _ newId (GenTime.ofFrames position fps) c.2.2 c.2.1
            h1).2
          rw [hadd] at h2
          rw [hd.1, hd.2] at h2
          exact ⟨h2.1, h2.2⟩
        · have h1 := resizeRightOperation_congr fps c.1 c.2.2
            (c.1 + GenTime.ofFrames (position - c.1.frames fps) fps) _ _ hundo
          have h2 := (addSubtitle_congr fps _ _ newId (GenTime.ofFrames position fps) c.2.2 c.2.1
            h1).2
          rw [hadd] at h2
          refine (congrArg (fun r => StdMap.find r newId) h2.2).trans ?_
          exact find_assign_self _ _ _
        · intro st e hst he
          rw [hf] at hst
          subst hst
          rw [hcue] at he
          cases he
          have hreg2 : (s.m_allSubtitles.assign newId (GenTime.ofFrames position fps)).find newId
              = some (GenTime.ofFrames position fps) := find_assign_self _ _ _
          have hcue3 : ((s.m_subtitleList.assign c.1 (c.2.1,
              c.1 + GenTime.ofFrames (position - c.1.frames fps) fps)).assign
              (GenTime.ofFrames position fps) (c.2.1, c.2.2)).find
              (GenTime.ofFrames position fps) = some (c.2.1, c.2.2) := find_assign_self _ _ _
          rw [removeSubtitle_eq fps _ newId hreg2 hcue3]
          constructor
          · show setSecond (StdMap.erase _ _) c.1 c.2.2 = _
            unfold setSecond
            rw [find_erase_ne _ (Ne.symm hne), find_assign_ne _ _ (Ne.symm hne),
              find_assign_self]
            exact cut_undo_store_swapped _ hw.1 _ hcue hfree2
          · show (s.m_allSubtitles.assign newId _).erase newId = _
            exact erase_assign_of_find_none _ _ hnew
    · exfalso
      have : ¬ (c.1 ≥ 0) := h0
      simp only [cutSubtitle, hf, this, if_false, Option.some.injEq] at ho
      rw [← ho] at hres
      cases hres

/-- Witness of C15: the cut at frame 25 of the cue (0 s, 2 s, "Hello") at 25 frames
per second, minting id 2. -/
theorem C15_cut_undo_redo_witness :
    WellFormed oneCue ∧ Consistent oneCue ∧ oneCue.m_allSubtitles.find 2 = none ∧
    ∃ o, cutSubtitle 25 oneCue 25 noop noop 2 = some o ∧ o.res = true ∧
      SameData (o.undo o.model).2 oneCue ∧
      SameData (o.redo (o.undo o.model).2).2 o.model := by
  have hnew : oneCue.m_allSubtitles.find 2 = none := by decide!
  have h1 : (cutSubtitle 25 oneCue 25 noop noop 2).isSome = true := by decide!
  obtain ⟨o, ho⟩ := Option.isSome_iff_exists.1 h1
  have h2 : Option.map (fun o => o.res) (cutSubtitle 25 oneCue 25 noop noop 2)
      = some true := by decide!
  rw [ho] at h2
  have hres : o.res = true := Option.some.inj h2
  have h := C15_cut_undo_redo 25 oneCue inv_oneCue.1 inv_oneCue.2 25 2 hnew o ho hres
  exact ⟨inv_oneCue.1, inv_oneCue.2, hnew, o, ho, hres, h.1, h.2.1⟩


/-! ## Double precision arithmetic -/

theorem pow2_eq (k : ℤ) : pow2 k = (2 : ℚ) ^ k := by
  unfold pow2
  split_ifs with h
  · obtain ⟨n, rfl⟩ := Int.eq_ofNat_of_zero_le h
    simp
  · have h' : 0 ≤ -k := by omega
    obtain ⟨n, hn⟩ := Int.eq_ofNat_of_zero_le h'
    have hk : k = -(n : ℤ) := by omega
    rw [hn, hk]
    simp

theorem pow2_pos (k : ℤ) : 0 < pow2 k := by
  rw [pow2_eq]
  positivity

theorem log2Aux_spec : ∀ (fuel n : ℕ), n ≤ fuel → n ≠ 0 →
    2 ^ log2Aux fuel n ≤ n ∧ n < 2 ^ (log2Aux fuel n + 1) := by
  intro fuel
  induction fuel with
  | zero => intro n h h0; omega
  | succ fuel ih =>
    intro n h h0
    unfold log2Aux
    split_ifs with h2
    · have : n = 1 := by omega
      subst this
      simp
    · obtain ⟨h3, h4⟩ := ih (n / 2) (by omega) (by omega)
      generalize log2Aux fuel (n / 2) = l at h3 h4
      have e1 : 2 ^ (l + 1) = 2 ^ l * 2 := pow_succ 2 l
      have e2 : 2 ^ (l + 1 + 1) = 2 ^ l * 2 * 2 := by rw [pow_succ, pow_succ]
      rw [e1] at h4
      rw [e1, e2]
      generalize 2 ^ l = p at h3 h4
      constructor <;> omega

/-- The binary exponent of a positive rational. -/
theorem ilog2_spec (x : ℚ) (hx : 0 < x) :
    (2 : ℚ) ^ ilog2 x ≤ x ∧ x < (2 : ℚ) ^ (ilog2 x + 1) := by
  have hnum : 0 < x.num := Rat.num_pos.2 hx
  have hn0 : x.num.natAbs ≠ 0 := by omega
  have hd0 : x.den ≠ 0 := x.den_nz
  obtain ⟨ha1, ha2⟩ := log2Aux_spec x.num.natAbs x.num.natAbs le_rfl hn0
  obtain ⟨hb1, hb2⟩ := log2Aux_spec x.den x.den le_rfl hd0
  have hxe : x = (x.num.natAbs : ℚ) / (x.den : ℚ) := by
    have h1 : ((x.num.natAbs : ℕ) : ℤ) = x.num := Int.natAbs_of_nonneg (le_of_lt hnum)
    have h2 : ((x.num.natAbs : ℕ) : ℚ) = (x.num : ℚ) := by
      rw [← Int.cast_natCast, h1]
    rw [h2]
    exact (Rat.num_div_den x).symm
  have hdpos : (0 : ℚ) < (x.den : ℚ) := by exact_mod_cast Nat.pos_of_ne_zero hd0
  have qa1 : (2 : ℚ) ^ (log2Aux x.num.natAbs x.num.natAbs) ≤ (x.num.natAbs : ℚ) := by
    exact_mod_cast ha1
  have qa2 : (x.num.natAbs : ℚ) < (2 : ℚ) ^ (log2Aux x.num.natAbs x.num.natAbs + 1) := by
    exact_mod_cast ha2
  have qb1 : (2 : ℚ) ^ (log2Aux x.den x.den) ≤ (x.den : ℚ) := by exact_mod_cast hb1
  have qb2 : (x.den : ℚ) < (2 : ℚ) ^ (log2Aux x.den x.den + 1) := by exact_mod_cast hb2
  unfold ilog2
  simp only
  generalize log2Aux x.num.natAbs x.num.natAbs = a at qa1 qa2 ⊢
  generalize log2Aux x.den x.den = b at qb1 qb2 ⊢
  have e1 : (2 : ℚ) ^ ((a : ℤ) - (b : ℤ) + 1) = (2 : ℚ) ^ (a + 1) / (2 : ℚ) ^ b := by
    rw [show ((a : ℤ) - (b : ℤ) + 1) = ((a + 1 : ℕ) : ℤ) - ((b : ℕ) : ℤ) by push_cast; ring,
      zpow_sub₀ (by norm_num : (2 : ℚ) ≠ 0), zpow_natCast, zpow_natCast]
  have e2 : (2 : ℚ) ^ ((a : ℤ) - (b : ℤ) - 1) = (2 : ℚ) ^ a / (2 : ℚ) ^ (b + 1) := by
    rw [show ((a : ℤ) - (b : ℤ) - 1) = ((a : ℕ) : ℤ) - ((b + 1 : ℕ) : ℤ) by push_cast; ring,
      zpow_sub₀ (by norm_num : (2 : ℚ) ≠ 0), zpow_natCast, zpow_natCast]
  have hbpos : (0 : ℚ) < (2 : ℚ) ^ b := by positivity
  have hb1pos : (0 : ℚ) < (2 : ℚ) ^ (b + 1) := by positivity
  split_ifs with h
  · rw [pow2_eq] at h
    refine ⟨h, ?_⟩
    rw [e1, hxe, div_lt_div_iff₀ hdpos hbpos]
    calc (x.num.natAbs : ℚ) * 2 ^ b ≤ (x.num.natAbs : ℚ) * (x.den : ℚ) :=
          mul_le_mul_of_nonneg_left qb1 (by positivity)
      _ < 2 ^ (a + 1) * (x.den : ℚ) := mul_lt_mul_of_pos_right qa2 hdpos
  · rw [pow2_eq, not_le] at h
    rw [show ((a : ℤ) - (b : ℤ) - 1 + 1) = (a : ℤ) - (b : ℤ) by ring]
    refine ⟨?_, h⟩
    rw [e2, hxe, div_le_div_iff₀ hb1pos hdpos]
    calc (2 : ℚ) ^ a * (x.den : ℚ) ≤ (x.num.natAbs : ℚ) * (x.den : ℚ) :=
          mul_le_mul_of_nonneg_right qa1 (le_of_lt hdpos)
      _ ≤ (x.num.natAbs : ℚ) * 2 ^ (b + 1) :=
          mul_le_mul_of_nonneg_left (le_of_lt qb2) (by positivity)

theorem roundHalfEven_intCast (z : ℤ) : roundHalfEven (z : ℚ) = z := by
  unfold roundHalfEven
  simp

/-- The nearest integer is at most one half away. -/
theorem roundHalfEven_err (q : ℚ) : |((roundHalfEven q : ℤ) : ℚ) - q| ≤ 1 / 2 := by
  have h1 : (⌊q⌋ : ℚ) ≤ q := Int.floor_le q
  have h2 : q < (⌊q⌋ : ℚ) + 1 := Int.lt_floor_add_one q
  unfold roundHalfEven
  split_ifs with a b c
  · rw [abs_le]; constructor <;> linarith
  · push_cast; rw [abs_le]; constructor <;> linarith
  · rw [abs_le]; constructor <;> linarith
  · push_cast; rw [abs_le]; constructor <;> linarith

theorem roundHalfEven_nonneg (q : ℚ) (hq : 0 ≤ q) : 0 ≤ roundHalfEven q := by
  have h1 : 0 ≤ ⌊q⌋ := Int.floor_nonneg.2 hq
  unfold roundHalfEven
  split_ifs <;> omega

/-- The double nearest to a rational that is not negative is not negative. -/
theorem roundDouble_nonneg (x : ℚ) (hx : 0 ≤ x) : 0 ≤ roundDouble x := by
  unfold roundDouble
  split_ifs with h
  · exact le_rfl
  · simp only
    have hp := pow2_pos (max (ilog2 |x| - 52) (-1074))
    have hr := roundHalfEven_nonneg (x / pow2 (max (ilog2 |x| - 52) (-1074)))
      (div_nonneg hx (le_of_lt hp))
    have : (0 : ℚ) ≤ ((roundHalfEven (x / pow2 (max (ilog2 |x| - 52) (-1074))) : ℤ) : ℚ) := by
      exact_mod_cast hr
    exact mul_nonneg this (le_of_lt hp)

/-- An integer below 2^53 in absolute value is a double. -/
theorem roundDouble_int (z : ℤ) (hz : |z| < 2 ^ 53) : roundDouble (z : ℚ) = z := by
  unfold roundDouble
  split_ifs with h0
  · exact h0.symm
  · simp only
    have hz0 : z ≠ 0 := by
      intro e
      exact h0 (by rw [e]; simp)
    have habs : (0 : ℚ) < |(z : ℚ)| := abs_pos.2 h0
    obtain ⟨h1, h2⟩ := ilog2_spec |(z : ℚ)| habs
    have hone : (1 : ℚ) ≤ |(z : ℚ)| := by
      have : (1 : ℤ) ≤ |z| := Int.one_le_abs hz0
      exact_mod_cast this
    have hlt' : |(z : ℚ)| < (2 : ℚ) ^ (53 : ℕ) := by exact_mod_cast hz
    have hlt : |(z : ℚ)| < (2 : ℚ) ^ (53 : ℤ) := by
      rw [show (53 : ℤ) = ((53 : ℕ) : ℤ) by norm_num, zpow_natCast]
      exact hlt'
    have he1 : ilog2 |(z : ℚ)| < 53 := by
      have := lt_of_le_of_lt h1 hlt
      exact (zpow_lt_zpow_iff_right₀ (by norm_num : (1 : ℚ) < 2)).1 this
    have he0 : 0 < ilog2 |(z : ℚ)| + 1 := by
      have : (2 : ℚ) ^ (0 : ℤ) < (2 : ℚ) ^ (ilog2 |(z : ℚ)| + 1) := by
        rw [zpow_zero]
        exact lt_of_le_of_lt hone h2
      exact (zpow_lt_zpow_iff_right₀ (by norm_num : (1 : ℚ) < 2)).1 this
    generalize ilog2 |(z : ℚ)| = e at he1 he0
    have hk : max (e - 52) (-1074) = e - 52 := max_eq_left (by omega)
    rw [hk, pow2_eq]
    obtain ⟨j, hj⟩ := Int.eq_ofNat_of_zero_le (show 0 ≤ 52 - e by omega)
    have hk2 : e - 52 = -(j : ℤ) := by omega
    rw [hk2, zpow_neg, zpow_natCast, div_inv_eq_mul]
    have : (z : ℚ) * (2 : ℚ) ^ j = ((z * 2 ^ j : ℤ) : ℚ) := by push_cast; ring
    rw [this, roundHalfEven_intCast]
    push_cast
    field_simp

/-- The error of the double nearest to a rational, for a bound of the rational that is
in the range of the normal doubles. -/
theorem roundDouble_err (x B : ℚ) (hx : |x| ≤ B) (hB : 1 / 2 ^ 1022 ≤ B) :
    |roundDouble x - x| ≤ B / 2 ^ 53 := by
  have hBpos : 0 < B := lt_of_lt_of_le (by positivity) hB
  unfold roundDouble
  split_ifs with h0
  · rw [h0]
    simp only [sub_self, abs_zero]
    positivity
  · simp only
    have habs : (0 : ℚ) < |x| := abs_pos.2 h0
    obtain ⟨h1, h2⟩ := ilog2_spec |x| habs
    generalize ilog2 |x| = e at h1 h2
    have hp := pow2_pos (max (e - 52) (-1074))
    have hr := roundHalfEven_err (x / pow2 (max (e - 52) (-1074)))
    have hstep : |((roundHalfEven (x / pow2 (max (e - 52) (-1074))) : ℤ) : ℚ)
        * pow2 (max (e - 52) (-1074)) - x| ≤ pow2 (max (e - 52) (-1074)) / 2 := by
      have e1 : ((roundHalfEven (x / pow2 (max (e - 52) (-1074))) : ℤ) : ℚ)
          * pow2 (max (e - 52) (-1074)) - x
          = (((roundHalfEven (x / pow2 (max (e - 52) (-1074))) : ℤ) : ℚ)
              - x / pow2 (max (e - 52) (-1074))) * pow2 (max (e - 52) (-1074)) := by
        field_simp
      rw [e1, abs_mul, abs_of_pos hp]
      calc _ ≤ 1 / 2 * pow2 (max (e - 52) (-1074)) :=
            mul_le_mul_of_nonneg_right hr (le_of_lt hp)
        _ = pow2 (max (e - 52) (-1074)) / 2 := by ring
    refine le_trans hstep ?_
    rw [pow2_eq]
    rcases le_total (e - 52) (-1074) with hle | hle
    · rw [max_eq_right hle]
      have : (2 : ℚ) ^ (-1074 : ℤ) / 2 = 1 / 2 ^ 1022 / 2 ^ 53 := by
        rw [zpow_neg, show ((1074 : ℤ)) = ((1074 : ℕ) : ℤ) by norm_num, zpow_natCast,
          show (2 : ℚ) ^ 1074 = 2 ^ 1022 * 2 ^ 52 by rw [← pow_add],
          show (2 : ℚ) ^ 53 = 2 ^ 52 * 2 by rw [← pow_succ]]
        field_simp
        rw [mul_assoc]
      rw [this]
      exact div_le_div_of_nonneg_right hB (by positivity)
    · rw [max_eq_left hle]
      have : (2 : ℚ) ^ (e - 52) / 2 = (2 : ℚ) ^ e / 2 ^ 53 := by
        rw [zpow_sub₀ (by norm_num : (2 : ℚ) ≠ 0), show ((52 : ℤ)) = ((52 : ℕ) : ℤ) by norm_num,
          zpow_natCast, div_div, ← pow_succ]
      rw [this]
      exact div_le_div_of_nonneg_right (le_trans h1 hx) (by positivity)

/-! ## Reading and writing subtitle files -/

theorem consHead_ne_nil (c : Char) (ps : List (List Char)) : consHead c ps ≠ [] := by
  cases ps <;> simp [consHead]

theorem splitBy_ne_nil (p : Char → Bool) (l : List Char) : splitBy p l ≠ [] := by
  cases l with
  | nil => simp [splitBy]
  | cons c cs =>
    unfold splitBy
    split_ifs
    · simp
    · exact consHead_ne_nil _ _

/-- A piece without separator, then a separator: the piece comes first in the split. -/
theorem splitBy_append (p : Char → Bool) (a : List Char) (x : Char) (r : List Char)
    (ha : ∀ c ∈ a, p c = false) (hx : p x = true) :
    splitBy p (a ++ x :: r) = a :: splitBy p r := by
  induction a with
  | nil => simp [splitBy, hx]
  | cons c cs ih =>
    have hc : p c = false := ha c (List.mem_cons_self _ _)
    have ih' := ih (fun d hd => ha d (List.mem_cons_of_mem _ hd))
    rw [List.cons_append, splitBy, if_neg (by simp [hc]), ih', consHead]

/-- A string without separator is the only piece of its split. -/
theorem splitBy_single (p : Char → Bool) (a : List Char) (ha : ∀ c ∈ a, p c = false) :
    splitBy p a = [a] := by
  induction a with
  | nil => simp [splitBy]
  | cons c cs ih =>
    have hc : p c = false := ha c (List.mem_cons_self _ _)
    have ih' := ih (fun d hd => ha d (List.mem_cons_of_mem _ hd))
    rw [splitBy, if_neg (by simp [hc]), ih', consHead]

/-- A string without the character does not contain the string of that character. -/
theorem contains_single_false (x : Char) (l : List Char) (h : x ∉ l) :
    contains [x] l = false := by
  induction l with
  | nil => simp [contains, startsWith]
  | cons c cs ih =>
    have hc : x ≠ c := fun e => h (by rw [e]; exact List.mem_cons_self _ _)
    have ih' := ih (fun hm => h (List.mem_cons_of_mem _ hm))
    simp [contains, startsWith, hc, ih']

/-- Every character of the string is a decimal digit. -/
theorem digit_not_mem {l : List Char} (hl : ∀ c ∈ l, c.isDigit = true) {x : Char}
    (hx : x.isDigit = false) : x ∉ l := by
  intro hm
  rw [hl x hm] at hx
  cases hx

theorem digitChar_spec (d : ℕ) (hd : d < 10) :
    (Char.ofNat (48 + d)).isDigit = true ∧ (Char.ofNat (48 + d)).toNat - 48 = d := by
  interval_cases d <;> decide

theorem foldl_digits (l : List Char) (a : ℕ) :
    l.foldl (fun acc c => acc * 10 + (c.toNat - 48)) a
      = a * 10 ^ l.length + l.foldl (fun acc c => acc * 10 + (c.toNat - 48)) 0 := by
  induction l generalizing a with
  | nil => simp
  | cons c cs ih =>
    simp only [List.foldl_cons, List.length_cons]
    rw [ih (a * 10 + (c.toNat - 48)), ih (0 * 10 + (c.toNat - 48))]
    ring

theorem digitsValue_cons (c : Char) (l : List Char) :
    digitsValue (c :: l) = (c.toNat - 48) * 10 ^ l.length + digitsValue l := by
  unfold digitsValue
  rw [List.foldl_cons, foldl_digits]
  ring

theorem digitsValue_append (a b : List Char) :
    digitsValue (a ++ b) = digitsValue a * 10 ^ b.length + digitsValue b := by
  unfold digitsValue
  rw [List.foldl_append, foldl_digits]

theorem digitsValue_zeros (k : ℕ) : digitsValue (List.replicate k '0') = 0 := by
  induction k with
  | zero => rfl
  | succ k ih =>
    rw [List.replicate_succ, digitsValue_cons, ih]
    have : '0'.toNat - 48 = 0 := by decide
    simp [this]

/-- The digits `toDecimalAux` writes: their value, and that they are digits. -/
theorem toDecimalAux_spec : ∀ (fuel n : ℕ) (acc : List Char), n < fuel →
    (∀ c ∈ acc, c.isDigit = true) →
    digitsValue (toDecimalAux fuel n acc) = n * 10 ^ acc.length + digitsValue acc ∧
    (∀ c ∈ toDecimalAux fuel n acc, c.isDigit = true) ∧
    toDecimalAux fuel n acc ≠ [] := by
  intro fuel
  induction fuel with
  | zero => intro n acc h; omega
  | succ fuel ih =>
    intro n acc hn hacc
    have hd := digitChar_spec (n % 10) (Nat.mod_lt _ (by norm_num))
    have hacc' : ∀ c ∈ Char.ofNat (48 + n % 10) :: acc, c.isDigit = true := by
      intro c hc
      rcases List.mem_cons.1 hc with h | h
      · rw [h]; exact hd.1
      · exact hacc c h
    unfold toDecimalAux
    split_ifs with h0
    · refine ⟨?_, hacc', by simp⟩
      rw [digitsValue_cons, hd.2]
      have : n = n % 10 := by omega
      rw [← this]
    · have hlt : n / 10 < fuel := by omega
      obtain ⟨h1, h2, h3⟩ := ih (n / 10) _ hlt hacc'
      refine ⟨?_, h2, h3⟩
      rw [h1, digitsValue_cons, hd.2, List.length_cons, pow_succ]
      have e : n * 10 ^ acc.length = (10 * (n / 10) + n % 10) * 10 ^ acc.length := by
        rw [Nat.div_add_mod]
      rw [e]
      ring

theorem toDecimal_spec (n : ℕ) :
    digitsValue (toDecimal n) = n ∧ (∀ c ∈ toDecimal n, c.isDigit = true) ∧
    toDecimal n ≠ [] := by
  have h := toDecimalAux_spec (n + 1) n [] (by omega) (by simp)
  refine ⟨?_, h.2.1, h.2.2⟩
  have := h.1
  simpa [toDecimal, digitsValue] using this

theorem toDecimalAux_length : ∀ (fuel n : ℕ) (acc : List Char) (k : ℕ), n < fuel →
    n < 10 ^ (k + 1) → (toDecimalAux fuel n acc).length ≤ acc.length + k + 1 := by
  intro fuel
  induction fuel with
  | zero => intro n acc k h; omega
  | succ fuel ih =>
    intro n acc k hn hk
    unfold toDecimalAux
    split_ifs with h0
    · simp only [List.length_cons]; omega
    · cases k with
      | zero =>
        exfalso
        simp only [zero_add, pow_one] at hk
        exact h0 (Nat.div_eq_of_lt hk)
      | succ k =>
        have hlt : n / 10 < fuel := by omega
        have hk' : n / 10 < 10 ^ (k + 1) := by
          rw [Nat.div_lt_iff_lt_mul (by norm_num)]
          rw [pow_succ] at hk
          exact hk
        have := ih (n / 10) (Char.ofNat (48 + n % 10) :: acc) k hlt hk'
        simp only [List.length_cons] at this
        omega

/-- A number below `10 ^ w` is written by `arg` on exactly `w` characters. -/
theorem arg_length (n w : ℕ) (hw : n < 10 ^ (w + 1)) : (arg (n : ℤ) (w + 1)).length = w + 1 := by
  have h := toDecimalAux_length (n + 1) n [] w (by omega) hw
  have hneg : ¬ ((n : ℤ) < 0) := by omega
  simp only [arg, hneg, if_false, Int.natAbs_ofNat, List.length_append, List.length_replicate]
  simp only [List.length_nil, zero_add] at h
  have : (toDecimal n).length ≤ w + 1 := h
  omega

/-- The string `arg` writes for a number that is not negative: digits of that value. -/
theorem arg_spec (n w : ℕ) :
    digitsValue (arg (n : ℤ) w) = n ∧ (∀ c ∈ arg (n : ℤ) w, c.isDigit = true) ∧
    arg (n : ℤ) w ≠ [] := by
  have h := toDecimal_spec n
  have hneg : ¬ ((n : ℤ) < 0) := by omega
  simp only [arg, hneg, if_false, Int.natAbs_ofNat]
  refine ⟨?_, ?_, ?_⟩
  · rw [digitsValue_append, digitsValue_zeros, h.1]
    ring
  · intro c hc
    rcases List.mem_append.1 hc with hc | hc
    · rw [(List.mem_replicate.1 hc).2]; decide
    · exact h.2.1 c hc
  · intro he
    exact h.2.2 (List.append_eq_nil.1 he).2

/-- The number `atoi` reads from a string of digits is the value of the digits. -/
theorem atoiValue_digits (l : List Char) (hl : ∀ c ∈ l, c.isDigit = true) :
    atoiValue l = (digitsValue l : ℤ) := by
  have htake : l.takeWhile Char.isDigit = l := by
    rw [List.takeWhile_eq_self_iff]
    exact hl
  cases l with
  | nil => simp [atoiValue, digitsValue]
  | cons c cs =>
    have hc : c.isDigit = true := hl c (List.mem_cons_self _ _)
    have hsp : (c.toNat == 0x20 || (0x09 ≤ c.toNat && c.toNat ≤ 0x0d)) = false := by
      simp only [Char.isDigit, Bool.and_eq_true, decide_eq_true_eq] at hc
      have h1 : 48 ≤ c.toNat := by
        have := hc.1
        simpa [Char.toNat, UInt32.le_def, Fin.le_def] using this
      have h2 : ¬ c.toNat = 32 := by omega
      have h3 : ¬ c.toNat ≤ 13 := by omega
      simp [h2, h3]
    have hm : c ≠ '-' := by
      rintro rfl
      exact absurd hc (by decide)
    have hp : c ≠ '+' := by
      rintro rfl
      exact absurd hc (by decide)
    unfold atoiValue
    rw [List.dropWhile_cons_of_neg (by simp [hsp])]
    split
    · rename_i r heq
      exact absurd (List.cons.inj heq).1 hm
    · rename_i r heq
      exact absurd (List.cons.inj heq).1 hp
    · rw [htake]

/-- `atoi` of a string of digits whose value is an `int` is that value. -/
theorem atoi_digits (l : List Char) (hl : ∀ c ∈ l, c.isDigit = true)
    (hb : digitsValue l < 2147483648) : atoi l = some (digitsValue l : ℤ) := by
  unfold atoi
  rw [atoiValue_digits l hl, if_pos]
  constructor
  · have : (0 : ℤ) ≤ (digitsValue l : ℤ) := Int.natCast_nonneg _
    have h2 : (-2 : ℤ) ^ 31 ≤ 0 := by norm_num
    norm_num
    omega
  · have : (2 : ℤ) ^ 31 = 2147483648 := by norm_num
    omega

/-- `stringtoTime` on three fields of digits and a fraction of digits after a comma,
each the digits of an `int`. -/
theorem stringtoTime_comma (h m s ms : List Char)
    (hh : ∀ c ∈ h, c.isDigit = true) (hm : ∀ c ∈ m, c.isDigit = true)
    (hs : ∀ c ∈ s, c.isDigit = true) (hms : ∀ c ∈ ms, c.isDigit = true)
    (bh : digitsValue h < 2147483648) (bm : digitsValue m < 2147483648)
    (bs : digitsValue s < 2147483648) (bms : digitsValue ms < 2147483648) :
    stringtoTime (h ++ [':'] ++ m ++ [':'] ++ s ++ [','] ++ ms)
      = some (roundDouble (roundDouble (roundDouble (roundDouble ((digitsValue h : ℚ) * 3600)
          + roundDouble ((digitsValue m : ℚ) * 60)) + (digitsValue s : ℚ))
          + roundDouble ((digitsValue ms : ℚ) * roundDouble (1 / 1000)))) := by
  have hcolon : ∀ l : List Char, (∀ c ∈ l, c.isDigit = true) →
      ∀ c ∈ l, (c == ':') = false := by
    intro l hl c hc
    have : c ≠ ':' := fun e => digit_not_mem hl (by decide : ':'.isDigit = false) (e ▸ hc)
    simpa using this
  have hcomma : ∀ l : List Char, (∀ c ∈ l, c.isDigit = true) →
      ∀ c ∈ l, (c == ',') = false := by
    intro l hl c hc
    have : c ≠ ',' := fun e => digit_not_mem hl (by decide : ','.isDigit = false) (e ▸ hc)
    simpa using this
  have hlast : ∀ c ∈ s ++ ',' :: ms, (c == ':') = false := by
    intro c hc
    rcases List.mem_append.1 hc with hc | hc
    · exact hcolon s hs c hc
    · rcases List.mem_cons.1 hc with hc | hc
      · rw [hc]; decide
      · exact hcolon ms hms c hc
  have hdot : '.' ∉ s ++ ',' :: ms := by
    intro hc
    rcases List.mem_append.1 hc with hc | hc
    · exact digit_not_mem hs (by decide) hc
    · rcases List.mem_cons.1 hc with hc | hc
      · exact absurd hc (by decide)
      · exact digit_not_mem hms (by decide) hc
  have e1 : h ++ [':'] ++ m ++ [':'] ++ s ++ [','] ++ ms
      = h ++ ':' :: (m ++ ':' :: (s ++ ',' :: ms)) := by simp
  have htotal : split ':' (h ++ ':' :: (m ++ ':' :: (s ++ ',' :: ms)))
      = [h, m, s ++ ',' :: ms] := by
    unfold split
    rw [splitBy_append _ h ':' _ (hcolon h hh) (by decide),
      splitBy_append _ m ':' _ (hcolon m hm) (by decide), splitBy_single _ _ hlast]
  have hsecs : split ',' (s ++ ',' :: ms) = [s, ms] := by
    unfold split
    rw [splitBy_append _ s ',' _ (hcomma s hs) (by decide), splitBy_single _ _ (hcomma ms hms)]
  have hcf := contains_single_false '.' _ hdot
  rw [e1]
  unfold stringtoTime
  rw [htotal]
  simp [hcf, hsecs, atoi_digits h hh bh, atoi_digits m hm bm, atoi_digits s hs bs,
    atoi_digits ms hms bms]

/-- The milliseconds `jsontoSubtitle` computes for a time that is not negative, when
the integer part of the double product is below 2^31: this integer part, which is
not negative. -/
theorem millis_nonneg (t : ℚ) (h0 : 0 ≤ t)
    (hr : ⌊roundDouble (roundDouble t * 1000)⌋ < 2 ^ 31) :
    millis t = some ⌊roundDouble (roundDouble t * 1000)⌋ ∧
    0 ≤ ⌊roundDouble (roundDouble t * 1000)⌋ := by
  have hy0 := roundDouble_nonneg (roundDouble t * 1000)
    (mul_nonneg (roundDouble_nonneg t h0) (by norm_num))
  have hf0 : 0 ≤ ⌊roundDouble (roundDouble t * 1000)⌋ := Int.floor_nonneg.2 hy0
  refine ⟨?_, hf0⟩
  unfold millis toInt truncate
  rw [if_pos hy0, if_pos]
  refine ⟨?_, hr⟩
  have : (-2 : ℤ) ^ 31 ≤ 0 := by norm_num
  norm_num
  omega

/-- The fields `jsontoSubtitle` computes from milliseconds that are not negative. -/
theorem timeFields_nonneg (t : ℚ) (a : ℕ) (h : millis t = some (a : ℤ)) :
    timeFields t
      = some (((a / 1000 / 60 / 60 : ℕ) : ℤ), ((a / 1000 / 60 % 60 : ℕ) : ℤ),
          ((a / 1000 % 60 : ℕ) : ℤ), ((a % 1000 : ℕ) : ℤ)) := by
  unfold timeFields
  rw [h]
  simp only
  have t1 : (a : ℤ).tdiv 1000 = ((a / 1000 : ℕ) : ℤ) := by
    rw [Int.tdiv_eq_ediv (Int.natCast_nonneg a) (by norm_num)]
    norm_cast
  have t2 : (a : ℤ).tmod 1000 = ((a % 1000 : ℕ) : ℤ) := by
    rw [Int.tmod_eq_emod (Int.natCast_nonneg a) (by norm_num)]
    norm_cast
  have t3 : ((a / 1000 : ℕ) : ℤ).tdiv 60 = ((a / 1000 / 60 : ℕ) : ℤ) := by
    rw [Int.tdiv_eq_ediv (Int.natCast_nonneg _) (by norm_num)]
    norm_cast
  have t4 : ((a / 1000 : ℕ) : ℤ).tmod 60 = ((a / 1000 % 60 : ℕ) : ℤ) := by
    rw [Int.tmod_eq_emod (Int.natCast_nonneg _) (by norm_num)]
    norm_cast
  have t5 : ((a / 1000 / 60 : ℕ) : ℤ).tdiv 60 = ((a / 1000 / 60 / 60 : ℕ) : ℤ) := by
    rw [Int.tdiv_eq_ediv (Int.natCast_nonneg _) (by norm_num)]
    norm_cast
  have t6 : ((a / 1000 / 60 : ℕ) : ℤ).tmod 60 = ((a / 1000 / 60 % 60 : ℕ) : ℤ) := by
    rw [Int.tmod_eq_emod (Int.natCast_nonneg _) (by norm_num)]
    norm_cast
  rw [t1, t2, t3, t4, t5, t6]

/-- A natural number below 2^53 is a double. -/
theorem roundDouble_nat (k : ℕ) (hk : k < 9007199254740992) : roundDouble (k : ℚ) = (k : ℚ) := by
  have h := roundDouble_int ((k : ℕ) : ℤ) (by
    rw [abs_of_nonneg (Int.natCast_nonneg k)]
    have : (2 : ℤ) ^ 53 = 9007199254740992 := by norm_num
    omega)
  push_cast at h
  exact h

/-- The time string written for a whole number of seconds below 2^21 is read back as
that number of seconds, and its milliseconds are within the range of `int`. -/
theorem srtTime_whole_seconds (n : ℕ) (hn : n < 2097152) :
    (timeStringSRT (n : ℚ)).bind stringtoTime = some (n : ℚ) ∧
    millis (n : ℚ) = some ((n : ℤ) * 1000) := by
  have r1 : roundDouble ((n : ℚ)) = (n : ℚ) := roundDouble_nat n (by omega)
  have r2 : roundDouble ((n : ℚ) * 1000) = (n : ℚ) * 1000 := by
    have := roundDouble_nat (n * 1000) (by omega)
    push_cast at this
    exact this
  have hfl : ⌊roundDouble (roundDouble (n : ℚ) * 1000)⌋ = ((n * 1000 : ℕ) : ℤ) := by
    rw [r1, r2]
    have : (n : ℚ) * 1000 = (((n * 1000 : ℕ) : ℤ) : ℚ) := by push_cast; ring
    rw [this, Int.floor_intCast]
  have hm : millis (n : ℚ) = some ((n * 1000 : ℕ) : ℤ) := by
    have h := (millis_nonneg (n : ℚ) (by positivity) (by
      rw [hfl]
      have : (2 : ℤ) ^ 31 = 2147483648 := by norm_num
      omega)).1
    rw [hfl] at h
    exact h
  have hf := timeFields_nonneg (n : ℚ) (n * 1000) hm
  rw [Nat.mul_div_cancel n (by norm_num : 0 < 1000), Nat.mul_mod_left] at hf
  refine ⟨?_, by rw [hm]; push_cast; rfl⟩
  unfold timeStringSRT
  rw [hf]
  simp only [Option.bind_some, Option.some_bind]
  rw [stringtoTime_comma _ _ _ _ (arg_spec _ 1).2.1 (arg_spec _ 2).2.1 (arg_spec _ 2).2.1
      (arg_spec _ 3).2.1 (by rw [(arg_spec _ 1).1]; omega) (by rw [(arg_spec _ 2).1]; omega)
      (by rw [(arg_spec _ 2).1]; omega) (by rw [(arg_spec _ 3).1]; omega),
    (arg_spec _ 1).1, (arg_spec _ 2).1, (arg_spec _ 2).1, (arg_spec _ 3).1]
  have hH : n / 60 / 60 * 3600 ≤ n := by omega
  have hM : n / 60 % 60 * 60 ≤ 3540 := by omega
  have e1 : roundDouble (((n / 60 / 60 : ℕ) : ℚ) * 3600) = ((n / 60 / 60 : ℕ) : ℚ) * 3600 := by
    have := roundDouble_nat (n / 60 / 60 * 3600) (by omega)
    push_cast at this
    exact this
  have e2 : roundDouble (((n / 60 % 60 : ℕ) : ℚ) * 60) = ((n / 60 % 60 : ℕ) : ℚ) * 60 := by
    have := roundDouble_nat (n / 60 % 60 * 60) (by omega)
    push_cast at this
    exact this
  have e3 : roundDouble (((n / 60 / 60 : ℕ) : ℚ) * 3600 + ((n / 60 % 60 : ℕ) : ℚ) * 60)
      = ((n / 60 / 60 : ℕ) : ℚ) * 3600 + ((n / 60 % 60 : ℕ) : ℚ) * 60 := by
    have := roundDouble_nat (n / 60 / 60 * 3600 + n / 60 % 60 * 60) (by omega)
    push_cast at this
    exact this
  have hsum : n / 60 / 60 * 3600 + n / 60 % 60 * 60 + n % 60 = n := by omega
  have hsumq : ((n / 60 / 60 : ℕ) : ℚ) * 3600 + ((n / 60 % 60 : ℕ) : ℚ) * 60
      + ((n % 60 : ℕ) : ℚ) = (n : ℚ) := by
    exact_mod_cast hsum
  have e5 : roundDouble (((0 : ℕ) : ℚ) * roundDouble (1 / 1000)) = 0 := by
    simp [roundDouble]
  rw [e1, e2, e3, hsumq, r1, e5, add_zero, r1]

/-- A line without line break, then a line break: the line is read first. -/
theorem readLines_cons (a r : List Char) (ha : ∀ c ∈ a, (c == '\n') = false) :
    readLines (a ++ '\n' :: r) = a :: readLines r := by
  unfold readLines split
  rw [splitBy_append _ a '\n' r ha (by decide)]
  cases hs : splitBy (fun c => c == '\n') r with
  | nil => exact absurd hs (splitBy_ne_nil _ r)
  | cons h t => rfl

/-- A cue with a start that is not negative and not after its end has valid times. -/
theorem validCue_of_le (fps : ℚ) (hfps : 0 < fps) {st en : GenTime} (text : String)
    (h0 : 0 ≤ st) (h1 : st ≤ en) : ValidCue fps (st, (text, en)) := by
  have ha : GenTime.frames 0 fps ≤ st.frames fps := frames_mono fps hfps h0
  have hb : st.frames fps ≤ en.frames fps := frames_mono fps hfps h1
  rw [frames_zero] at ha
  unfold ValidCue
  simp only
  omega

/-- C16 (the code diverges): at 25 frames per second, `importSubtitle` with offset 0
into an empty store reads no cue from the text of one well-formed block that ends
with the end of its text line, `1`, `00:00:01,000 --> 00:00:02,500`, `Hi there`:
`addSubtitle` is only called on an empty line. From the same text followed by an
empty line it reads the cue (1 s, 2.5 s, "Hi there"). -/
theorem C16_last_block_dropped :
    Option.map (fun m => m.m_subtitleList)
      (importSubtitle 25 empty 1 "1\n00:00:01,000 --> 00:00:02,500\nHi there\n".toList 0)
      = some [] ∧
    Option.map (fun m => m.m_subtitleList)
      (importSubtitle 25 empty 1 "1\n00:00:01,000 --> 00:00:02,500\nHi there\n\n".toList 0)
      = some [(1, ("Hi there", 5 / 2))] := by
  decide!

/-- C17 (counterexample): `stringtoTime` reads `00:00:00,009` as the double
9 · 0.001 = 0.009000000000000001, which is neither 9/1000 nor the double nearest to
9/1000; it reads `00:00:00,580` as a double below 29/50, whose frame at 25 frames
per second is 14, not the frame 15 of 0.58 s. -/
theorem C17_double_sum_counterexample :
    stringtoTime "00:00:00,009".toList
      = some (1297036692682703 / 144115188075855872) ∧
    (1297036692682703 / 144115188075855872 : ℚ) ≠ 9 / 1000 ∧
    (1297036692682703 / 144115188075855872 : ℚ) ≠ roundDouble (9 / 1000) ∧
    stringtoTime "00:00:00,580".toList = some (5224175567749775 / 9007199254740992) ∧
    (5224175567749775 / 9007199254740992 : ℚ) < 29 / 50 ∧
    GenTime.frames (5224175567749775 / 9007199254740992) 25 = 14 ∧
    GenTime.frames (29 / 50) 25 = 15 := by
  decide!

/-- C17, amended: for every SRT-style time string `HH:MM:SS,mmm`, written with the
decimal fields `h`, `m`, `s` on two digits and the millisecond field `ms` on three
digits, `stringtoTime` returns the double `N + ms · 0.001`, with
`N = h * 3600 + m * 60 + s`, each operation rounded to the nearest double; the value
is not rounded to a frame, it is within 2^(-33) s of `N + ms / 1000`, and it is `N`
when `ms` is 0. -/
theorem C17_stringtoTime_srt_amended (h m s ms : ℕ) (hh : h < 100) (hm : m < 100)
    (hs : s < 100) (hms : ms < 1000) :
    (arg h 2).length = 2 ∧ (arg m 2).length = 2 ∧ (arg s 2).length = 2 ∧
    (arg ms 3).length = 3 ∧
    ∃ v, stringtoTime (arg h 2 ++ [':'] ++ arg m 2 ++ [':'] ++ arg s 2 ++ [','] ++ arg ms 3)
        = some v ∧
      v = roundDouble (((h * 3600 + m * 60 + s : ℕ) : ℚ)
            + roundDouble ((ms : ℚ) * roundDouble (1 / 1000))) ∧
      |v - ((h : ℚ) * 3600 + (m : ℚ) * 60 + (s : ℚ) + (ms : ℚ) / 1000)| ≤ 1 / 2 ^ 33 ∧
      (ms = 0 → v = (h : ℚ) * 3600 + (m : ℚ) * 60 + (s : ℚ)) := by
  refine ⟨arg_length h 1 (by norm_num; omega), arg_length m 1 (by norm_num; omega),
    arg_length s 1 (by norm_num; omega), arg_length ms 2 (by norm_num; omega), _, ?_, rfl, ?_, ?_⟩
  · rw [stringtoTime_comma _ _ _ _ (arg_spec h 2).2.1 (arg_spec m 2).2.1 (arg_spec s 2).2.1
      (arg_spec ms 3).2.1 (by rw [(arg_spec h 2).1]; omega) (by rw [(arg_spec m 2).1]; omega)
      (by rw [(arg_spec s 2).1]; omega) (by rw [(arg_spec ms 3).1]; omega),
      (arg_spec h 2).1, (arg_spec m 2).1, (arg_spec s 2).1, (arg_spec ms 3).1]
    have e1 : roundDouble ((h : ℚ) * 3600) = (h : ℚ) * 3600 := by
      have := roundDouble_int ((h * 3600 : ℕ) : ℤ) (by rw [abs_of_nonneg (by positivity)]; omega)
      push_cast at this
      exact this
    have e2 : roundDouble ((m : ℚ) * 60) = (m : ℚ) * 60 := by
      have := roundDouble_int ((m * 60 : ℕ) : ℤ) (by rw [abs_of_nonneg (by positivity)]; omega)
      push_cast at this
      exact this
    have e3 : roundDouble ((h : ℚ) * 3600 + (m : ℚ) * 60) = (h : ℚ) * 3600 + (m : ℚ) * 60 := by
      have := roundDouble_int ((h * 3600 + m * 60 : ℕ) : ℤ)
        (by rw [abs_of_nonneg (by positivity)]; omega)
      push_cast at this
      exact this
    have e4 : roundDouble ((h : ℚ) * 3600 + (m : ℚ) * 60 + (s : ℚ))
        = (h : ℚ) * 3600 + (m : ℚ) * 60 + (s : ℚ) := by
      have := roundDouble_int ((h * 3600 + m * 60 + s : ℕ) : ℤ)
        (by rw [abs_of_nonneg (by positivity)]; omega)
      push_cast at this
      exact this
    rw [e1, e2, e3, e4]
    push_cast
    rfl
  · have hc : roundDouble (1 / 1000) = 1152921504606847 / 1152921504606846976 := by decide!
    have hms0 : (0 : ℚ) ≤ (ms : ℚ) := by positivity
    have hms1 : (ms : ℚ) ≤ 999 := by
      have : ms ≤ 999 := by omega
      exact_mod_cast this
    have hN0 : (0 : ℚ) ≤ ((h * 3600 + m * 60 + s : ℕ) : ℚ) := by positivity
    have hN1 : ((h * 3600 + m * 60 + s : ℕ) : ℚ) ≤ 362439 := by
      have : h * 3600 + m * 60 + s ≤ 362439 := by omega
      exact_mod_cast this
    have hNe : ((h * 3600 + m * 60 + s : ℕ) : ℚ) = (h : ℚ) * 3600 + (m : ℚ) * 60 + (s : ℚ) := by
      push_cast
      ring
    rw [hc]
    have hx0 : (0 : ℚ) ≤ (ms : ℚ) * (1152921504606847 / 1152921504606846976) := by positivity
    have hp := roundDouble_err ((ms : ℚ) * (1152921504606847 / 1152921504606846976)) 2
      (by rw [abs_of_nonneg hx0]; linarith) (by norm_num)
    rw [abs_le] at hp
    generalize roundDouble ((ms : ℚ) * (1152921504606847 / 1152921504606846976)) = p at hp ⊢
    have hr := roundDouble_err (((h * 3600 + m * 60 + s : ℕ) : ℚ) + p) 524288
      (by rw [abs_le]; constructor <;> norm_num at hp ⊢ <;> linarith) (by norm_num)
    rw [abs_le] at hr
    generalize roundDouble (((h * 3600 + m * 60 + s : ℕ) : ℚ) + p) = r at hr ⊢
    rw [← hNe]
    generalize ((h * 3600 + m * 60 + s : ℕ) : ℚ) = N at hN0 hN1 hr ⊢
    rw [abs_le]
    norm_num at hp hr ⊢
    constructor <;> linarith
  · intro h0
    subst h0
    have hz : roundDouble (((0 : ℕ) : ℚ) * roundDouble (1 / 1000)) = 0 := by
      simp [roundDouble]
    rw [hz, add_zero]
    have := roundDouble_int ((h * 3600 + m * 60 + s : ℕ) : ℤ)
      (by rw [abs_of_nonneg (by positivity)]; omega)
    push_cast at this ⊢
    exact this

/-- Witness of C17, amended: the time string `01:02:03,450` is read as the double
nearest to 3723.45 seconds. -/
theorem C17_stringtoTime_srt_amended_witness :
    stringtoTime "01:02:03,450".toList = some (4093976570442547 / 1099511627776) ∧
    ∃ v, stringtoTime "01:02:03,450".toList = some v ∧ |v - 74469 / 20| ≤ 1 / 2 ^ 33 :=
  have h := (C17_stringtoTime_srt_amended 1 2 3 450 (by norm_num) (by norm_num)
    (by norm_num) (by norm_num)).2.2.2.2
  have e : arg ((1 : ℕ) : ℤ) 2 ++ [':'] ++ arg ((2 : ℕ) : ℤ) 2 ++ [':'] ++ arg ((3 : ℕ) : ℤ) 2
      ++ [','] ++ arg ((450 : ℕ) : ℤ) 3 = "01:02:03,450".toList := by decide!
  ⟨by decide!, h.choose, e ▸ h.choose_spec.1,
    le_of_eq_of_le (by norm_num) h.choose_spec.2.2.1⟩

/-- C18 (the code diverges): `stringtoTime` reads the `.ass` time string `0:00:01.50`
as 1.05 seconds (the double nearest to it), not as 1.5 seconds: the field after the
`.` is multiplied by 0.001 as the millisecond field of an `.srt` time is. The `.ass`
time string `jsontoSubtitle` writes for 1.5 seconds is `0:00:01.50`, so reading it
back gives 1.05 seconds. -/
theorem C18_ass_time_misread :
    stringtoTime "0:00:01.50".toList = some (4728779608739021 / 4503599627370496) ∧
    (4728779608739021 / 4503599627370496 : ℚ) = roundDouble (21 / 20) ∧
    timeString (3 / 2) = some "0:00:01.50".toList ∧
    (timeString (3 / 2)).bind stringtoTime ≠ some (3 / 2) := by
  decide!

/-- C19 (the code diverges): `stringtoTime` indexes a list out of range on a time
with two `:`-separated parts, `00:01,000`, and on a time whose seconds part has
neither `.` nor `,`, `00:00:01`; `importSubtitle` guards only the number of
space-separated fields of the time line before it calls `stringtoTime`, so on a text
whose first block has such a time the import stops there and the well-formed second
block is not read. -/
theorem C19_stringtoTime_out_of_range :
    stringtoTime "00:01,000".toList = none ∧
    stringtoTime "00:00:01".toList = none ∧
    importSubtitle 25 empty 1
      "1\n00:01,000 --> 00:02,000\nbad\n\n2\n00:00:03,000 --> 00:00:04,000\ngood\n\n".toList 0
      = none ∧
    Option.map (fun m => m.m_subtitleList)
      (importSubtitle 25 empty 1 "2\n00:00:03,000 --> 00:00:04,000\ngood\n\n".toList 0)
      = some [(3, ("good", 4))] := by
  decide!

/-- The model with the cues (0 s, 2 s, "Hello") and (3 s, 5 s, "World") has sorted
maps and a registry in bijection with its store. -/
theorem inv_twoCues : WellFormed twoCues ∧ Consistent twoCues :=
  inv_of_sameData
    (inv_runOps 25 [.add 1 0 2 "Hello", .add 2 3 5 "World"] empty inv_empty (by decide!))
    (by decide!)

/-- Under the invariant, the id `getIdForStartPos` finds for a key of the store is
registered with this key. -/
theorem find_getIdForStartPos (s : SubtitleModel) (hw : WellFormed s) (hc : Consistent s)
    {k : GenTime} (hk : k ∈ s.m_subtitleList.keys) :
    s.m_allSubtitles.find (getIdForStartPos s k) = some k := by
  obtain ⟨j, hj, huniq⟩ := hc.2 k hk
  rw [getIdForStartPos_eq s hw.2 hj (fun j' h => huniq j' h)]
  exact hj

/-- The model `setText` leaves for a registered cue. -/
theorem setText_model (fps : ℚ) (s : SubtitleModel) (id : ℤ) (text : String)
    {st : GenTime} {e : String × GenTime} (hreg : s.m_allSubtitles.find id = some st)
    (hcue : s.m_subtitleList.find st = some e) :
    ∃ o, setText fps s id text = some o ∧ o.res = true ∧
      o.model = { s with m_subtitleList := s.m_subtitleList.assign st (text, e.2) } := by
  refine ⟨⟨true, fun m => (true, editSubtitle fps m st e.1),
    fun m => (true, editSubtitle fps m st text),
    editSubtitle fps { s with m_subtitleList := setFirst s.m_subtitleList st text } st text⟩,
    ?_, rfl, ?_⟩
  · simp only [setText, hreg, hcue]
  · show editSubtitle fps _ st text = _
    unfold editSubtitle
    split_ifs with h0
    · simp only [setFirst, hcue, Option.getD_some]
    · simp only [setFirst, hcue, Option.getD_some, find_assign_self, assign_assign]

/-- C25: in a model with sorted maps and a registry in bijection with the store,
`setText(id, text)` on an id that is not registered returns false and leaves the
model as it is, and `getText` of such an id is the empty string; on a registered id
it returns true, and afterwards `getText(id)` is `text`, the registry, the keys of
the store and the number of cues are what they were, and every cue has the end and,
but for the cue of `id`, the text it had. -/
theorem C25_setText (fps : ℚ) (s : SubtitleModel) (id : ℤ) (text : String)
    (hw : WellFormed s) (hc : Consistent s) :
    (s.m_allSubtitles.find id = none →
      getText s id = some "" ∧
      ∃ o, setText fps s id text = some o ∧ o.res = false ∧ o.model = s) ∧
    (∀ st, s.m_allSubtitles.find id = some st →
      ∃ o, setText fps s id text = some o ∧ o.res = true ∧
        getText o.model id = some text ∧
        o.model.m_allSubtitles = s.m_allSubtitles ∧
        o.model.m_subtitleList.keys = s.m_subtitleList.keys ∧
        o.model.m_subtitleList.size = s.m_subtitleList.size ∧
        (∀ k e, s.m_subtitleList.find k = some e →
          o.model.m_subtitleList.find k = some (if k = st then text else e.1, e.2))) := by
  constructor
  · intro hreg
    refine ⟨by simp [getText, hreg], ⟨false, noop, noop, s⟩, ?_, rfl, rfl⟩
    simp only [setText, hreg]
  · intro st hreg
    obtain ⟨e, hcue⟩ := ((inv_iff s).1 ⟨hw, hc⟩).2.2.1 id st hreg
    obtain ⟨o, ho, hres, hm⟩ := setText_model fps s id text hreg hcue
    refine ⟨o, ho, hres, ?_, ?_, ?_, ?_, ?_⟩
    · rw [hm]
      simp only [getText, hreg, find_assign_self]
    · rw [hm]
    · rw [hm]
      exact keys_assign_of_find _ _ hw.1 hcue
    · rw [hm]
      exact size_assign_of_find _ _ hw.1 hcue
    · intro k e' hk
      rw [hm]
      show (s.m_subtitleList.assign st (text, e.2)).find k = _
      by_cases hks : k = st
      · subst hks
        rw [hcue] at hk
        cases hk
        rw [find_assign_self, if_pos rfl]
      · rw [find_assign_ne _ _ hks, hk, if_neg hks]

/-- Witness of C25: `setText(1, "Hi")` on the model with two cues. -/
theorem C25_setText_witness :
    WellFormed twoCues ∧ Consistent twoCues ∧
    ∃ o, setText 25 twoCues 1 "Hi" = some o ∧ o.res = true ∧
      getText o.model 1 = some "Hi" ∧
      o.model.m_subtitleList.find 3 = some ("World", 5) :=
  have h := (C25_setText 25 twoCues 1 "Hi" inv_twoCues.1 inv_twoCues.2).2 0 (by decide!)
  ⟨inv_twoCues.1, inv_twoCues.2, h.choose, h.choose_spec.1, h.choose_spec.2.1,
    h.choose_spec.2.2.1,
    (h.choose_spec.2.2.2.2.2.2 3 ("World", 5) (by decide!)).trans (by decide!)⟩

/-- C28: at a positive frame rate, in a model whose registry is in bijection with the
store, `editSubtitle(startPos, text)` with a `startPos` that is not negative and not
a key of the store changes the store: afterwards `startPos` is the key of a cue with
the given text and the end 0, the store has one cue more, the other keys have the
cues they had, the registry is what it was and has no id for `startPos`, and the
registry is no longer in bijection with the store. -/
theorem C28_editSubtitle_missing_key (fps : ℚ) (hfps : 0 < fps) (s : SubtitleModel)
    (startPos : GenTime) (text : String) (h0 : 0 ≤ startPos)
    (hfree : s.m_subtitleList.find startPos = none) (hc : Consistent s) :
    (editSubtitle fps s startPos text).m_subtitleList ≠ s.m_subtitleList ∧
    (editSubtitle fps s startPos text).m_subtitleList.find startPos = some (text, 0) ∧
    (editSubtitle fps s startPos text).m_subtitleList.size = s.m_subtitleList.size + 1 ∧
    (∀ k, k ≠ startPos →
      (editSubtitle fps s startPos text).m_subtitleList.find k = s.m_subtitleList.find k) ∧
    (editSubtitle fps s startPos text).m_allSubtitles = s.m_allSubtitles ∧
    (∀ id, (editSubtitle fps s startPos text).m_allSubtitles.find id ≠ some startPos) ∧
    ¬ Consistent (editSubtitle fps s startPos text) := by
  have hf : ¬ startPos.frames fps < 0 := by
    have := frames_mono fps hfps h0
    rw [frames_zero] at this
    omega
  have hm : editSubtitle fps s startPos text
      = { s with m_subtitleList := s.m_subtitleList.assign startPos (text, 0) } := by
    simp only [editSubtitle, hf, if_false, setFirst, hfree, Option.getD_none]
  have hreg : ∀ id, s.m_allSubtitles.find id ≠ some startPos := by
    intro id hid
    have := hc.1 id startPos hid
    rw [mem_keys_iff] at this
    obtain ⟨v, hv⟩ := this
    rw [hfree] at hv
    cases hv
  rw [hm]
  refine ⟨?_, find_assign_self _ _ _, size_assign_of_find_none _ _ hfree,
    fun k hk => find_assign_ne _ _ hk, rfl, hreg, ?_⟩
  · intro heq
    have h1 : (s.m_subtitleList.assign startPos (text, 0)).find startPos = some (text, 0) :=
      find_assign_self _ _ _
    have h2 : (s.m_subtitleList.assign startPos (text, 0)).find startPos = none := by
      show StdMap.find
        ({ s with m_subtitleList := s.m_subtitleList.assign startPos (text, 0) }
          : SubtitleModel).m_subtitleList startPos = none
      rw [heq]
      exact hfree
    rw [h1] at h2
    cases h2
  · intro hcon
    have hk : startPos ∈ (s.m_subtitleList.assign startPos (text, 0)).keys := by
      rw [mem_keys_iff]
      exact ⟨_, find_assign_self _ _ _⟩
    obtain ⟨id, hid, _⟩ := hcon.2 startPos hk
    exact hreg id hid

/-- Witness of C28: `editSubtitle(10 s, "x")` on the model with two cues, at 25 frames
per second. -/
theorem C28_editSubtitle_missing_key_witness :
    Consistent twoCues ∧
    (editSubtitle 25 twoCues 10 "x").m_subtitleList
      = [(0, ("Hello", 2)), (3, ("World", 5)), (10, ("x", 0))] ∧
    (editSubtitle 25 twoCues 10 "x").m_allSubtitles = [(1, 0), (2, 3)] ∧
    ¬ Consistent (editSubtitle 25 twoCues 10 "x") :=
  ⟨inv_twoCues.2, by decide!, by decide!,
    (C28_editSubtitle_missing_key 25 (by norm_num) twoCues 10 "x" (by norm_num) (by decide!)
      inv_twoCues.2).2.2.2.2.2.2⟩

/-- The row of a key of the store is inside the store, and the key is at its row. -/
theorem rowOf_of_find : ∀ (m : StdMap GenTime (String × GenTime)) {k : GenTime}
    {e : String × GenTime}, m.find k = some e →
    rowOf m k < m.length ∧ m.keys.getD (rowOf m k) 0 = k := by
  intro m
  induction m with
  | nil => intro k e h; simp [find] at h
  | cons hd t ih =>
    intro k e h
    obtain ⟨k', v'⟩ := hd
    by_cases hk : k = k'
    · subst hk
      simp [rowOf, keys]
    · simp only [find, hk, if_false] at h
      obtain ⟨h1, h2⟩ := ih h
      simp only [rowOf, hk, if_false, List.length_cons, keys, List.map_cons, List.getD_cons_succ]
      exact ⟨by omega, h2⟩

/-- The row of a value that is not a key of the store is the size of the store. -/
theorem rowOf_of_find_none : ∀ (m : StdMap GenTime (String × GenTime)) {k : GenTime},
    m.find k = none → rowOf m k = m.length := by
  intro m
  induction m with
  | nil => intro k _; rfl
  | cons hd t ih =>
    intro k h
    obtain ⟨k', v'⟩ := hd
    by_cases hk : k = k'
    · simp [find, hk] at h
    · simp only [find, hk, if_false] at h
      simp only [rowOf, hk, if_false, List.length_cons, ih h]

/-- The key at a row inside the store is a key of the store. -/
theorem keys_getD_mem : ∀ (m : StdMap GenTime (String × GenTime)) (i : ℕ), i < m.length →
    m.keys.getD i 0 ∈ m.keys := by
  intro m
  induction m with
  | nil => intro i h; simp at h
  | cons hd t ih =>
    intro i h
    cases i with
    | zero => simp [keys]
    | succ i =>
      have := ih i (by simpa using h)
      simp only [keys, List.map_cons, List.getD_cons_succ, List.mem_cons]
      exact Or.inr this

/-- Every key of the store is at a row inside the store. -/
theorem keys_mem_getD : ∀ (m : StdMap GenTime (String × GenTime)) (k : GenTime),
    k ∈ m.keys → ∃ i, i < m.length ∧ m.keys.getD i 0 = k := by
  intro m k hk
  rw [mem_keys_iff] at hk
  obtain ⟨e, he⟩ := hk
  exact ⟨rowOf m k, rowOf_of_find m he⟩

/-- In a sorted store the keys ascend with the rows. -/
theorem keys_getD_lt : ∀ (m : StdMap GenTime (String × GenTime)), Sorted m →
    ∀ i j, i < j → j < m.length → m.keys.getD i 0 < m.keys.getD j 0 := by
  intro m
  induction m with
  | nil => intro _ i j _ h; simp at h
  | cons hd t ih =>
    intro hs i j hij hj
    rw [sorted_cons] at hs
    cases j with
    | zero => omega
    | succ j =>
      have hj' : j < t.length := by simpa using hj
      cases i with
      | zero =>
        have := hs.1 _ (keys_getD_mem t j hj')
        simpa [keys] using this
      | succ i =>
        have := ih hs.2 i j (by omega) hj'
        simpa [keys] using this

/-- In a sorted store the rows ascend with the keys. -/
theorem keys_getD_lt_iff (m : StdMap GenTime (String × GenTime)) (hs : Sorted m)
    {i j : ℕ} (hi : i < m.length) (hj : j < m.length) :
    m.keys.getD i 0 < m.keys.getD j 0 ↔ i < j := by
  constructor
  · intro h
    by_contra hij
    rcases Nat.lt_or_eq_of_le (not_lt.1 hij) with h1 | h1
    · exact absurd (keys_getD_lt m hs j i h1 hi) (not_lt.2 (le_of_lt h))
    · rw [h1] at h
      exact lt_irrefl _ h
  · intro h
    exact keys_getD_lt m hs i j h hj

/-- In a sorted store the row of the key at a row is this row. -/
theorem rowOf_keys_getD (m : StdMap GenTime (String × GenTime)) (hs : Sorted m)
    {i : ℕ} (hi : i < m.length) : rowOf m (m.keys.getD i 0) = i := by
  obtain ⟨e, he⟩ := (mem_keys_iff m _).1 (keys_getD_mem m i hi)
  obtain ⟨h1, h2⟩ := rowOf_of_find m he
  by_contra hne
  rcases Nat.lt_or_gt_of_ne hne with h | h
  · have := keys_getD_lt m hs _ _ h hi
    rw [h2] at this
    exact lt_irrefl _ this
  · have := keys_getD_lt m hs _ _ h h1
    rw [h2] at this
    exact lt_irrefl _ this

/-- The value of `getNextSub` in terms of the row of the start it looks up. -/
theorem getNextSub_eq (s : SubtitleModel) (id : ℤ) :
    getNextSub s id =
      if rowOf s.m_subtitleList (getStartPosForId s id) + 1 < s.m_subtitleList.length then
        getIdForStartPos s
          (s.m_subtitleList.keys.getD (rowOf s.m_subtitleList (getStartPosForId s id) + 1) 0)
      else -1 := by
  unfold getNextSub
  simp only [StdMap.size]
  have e : (((rowOf s.m_subtitleList (getStartPosForId s id) : ℕ) : ℤ) + 1).toNat
      = rowOf s.m_subtitleList (getStartPosForId s id) + 1 := by omega
  rw [e]
  by_cases h : rowOf s.m_subtitleList (getStartPosForId s id) + 1 < s.m_subtitleList.length
  · rw [if_pos h, if_pos (by omega)]
  · rw [if_neg h, if_neg (by omega)]

/-- The value of `getPreviousSub` in terms of the row of the start it looks up. -/
theorem getPreviousSub_eq (s : SubtitleModel) (id : ℤ) :
    getPreviousSub s id =
      if 0 < rowOf s.m_subtitleList (getStartPosForId s id) then
        getIdForStartPos s
          (s.m_subtitleList.keys.getD (rowOf s.m_subtitleList (getStartPosForId s id) - 1) 0)
      else -1 := by
  unfold getPreviousSub
  simp only
  have e : (((rowOf s.m_subtitleList (getStartPosForId s id) : ℕ) : ℤ) - 1).toNat
      = rowOf s.m_subtitleList (getStartPosForId s id) - 1 := by omega
  rw [e]
  by_cases h : 0 < rowOf s.m_subtitleList (getStartPosForId s id)
  · rw [if_pos h, if_pos (by omega)]
  · rw [if_neg h, if_neg (by omega)]

/-- C24: in a model with sorted maps and a registry in bijection with the store, for
an id registered with the start `st`: `getNextSub(id)` is -1 when no cue starts
after `st`, and is otherwise an id registered with the smallest start greater than
`st`; `getPreviousSub(id)` is -1 when no cue starts before `st`, and is otherwise an
id registered with the greatest start smaller than `st`; and
`getPreviousSub(getNextSub(id))` is `id` whenever `getNextSub(id)` is not -1. -/
theorem C24_next_previous (s : SubtitleModel) (id : ℤ) (st : GenTime)
    (hw : WellFormed s) (hc : Consistent s) (hreg : s.m_allSubtitles.find id = some st) :
    ((∀ k ∈ s.m_subtitleList.keys, k ≤ st) → getNextSub s id = -1) ∧
    (∀ k ∈ s.m_subtitleList.keys, st < k →
      (∀ k' ∈ s.m_subtitleList.keys, st < k' → k ≤ k') →
      s.m_allSubtitles.find (getNextSub s id) = some k) ∧
    ((∀ k ∈ s.m_subtitleList.keys, st ≤ k) → getPreviousSub s id = -1) ∧
    (∀ k ∈ s.m_subtitleList.keys, k < st →
      (∀ k' ∈ s.m_subtitleList.keys, k' < st → k' ≤ k) →
      s.m_allSubtitles.find (getPreviousSub s id) = some k) ∧
    (getNextSub s id ≠ -1 → getPreviousSub s (getNextSub s id) = id) := by
  obtain ⟨e, hcue⟩ := ((inv_iff s).1 ⟨hw, hc⟩).2.2.1 id st hreg
  obtain ⟨hr, hkr⟩ := rowOf_of_find s.m_subtitleList hcue
  have hstart := getStartPosForId_of_find s hreg
  have hnext := getNextSub_eq s id
  have hprev := getPreviousSub_eq s id
  rw [hstart] at hnext hprev
  refine ⟨?_, ?_, ?_, ?_, ?_⟩
  · intro hall
    rw [hnext, if_neg]
    intro hlt
    have h1 := keys_getD_lt _ hw.1 _ _ (Nat.lt_succ_self (rowOf s.m_subtitleList st)) hlt
    rw [hkr] at h1
    exact absurd (hall _ (keys_getD_mem _ _ hlt)) (not_le.2 h1)
  · intro k hk hlt hmin
    obtain ⟨j, hj, hkj⟩ := keys_mem_getD _ k hk
    have hrj : rowOf s.m_subtitleList st < j := by
      rw [← keys_getD_lt_iff _ hw.1 hr hj, hkr, hkj]
      exact hlt
    have hlt' : rowOf s.m_subtitleList st + 1 < s.m_subtitleList.length := by omega
    have h1 := keys_getD_lt _ hw.1 _ _ (Nat.lt_succ_self (rowOf s.m_subtitleList st)) hlt'
    rw [hkr] at h1
    have h2 := hmin _ (keys_getD_mem _ _ hlt') h1
    have h3 : s.m_subtitleList.keys.getD (rowOf s.m_subtitleList st + 1) 0 ≤ k := by
      rcases Nat.lt_or_eq_of_le (Nat.succ_le_of_lt hrj) with h | h
      · rw [← hkj]
        exact le_of_lt (keys_getD_lt _ hw.1 _ _ h hj)
      · rw [← hkj, ← h]
    rw [hnext, if_pos hlt', le_antisymm h3 h2]
    exact find_getIdForStartPos s hw hc hk
  · intro hall
    rw [hprev, if_neg]
    intro hpos
    have hlt' : rowOf s.m_subtitleList st - 1 < s.m_subtitleList.length := by omega
    have h1 := keys_getD_lt _ hw.1 (rowOf s.m_subtitleList st - 1) _ (by omega) hr
    rw [hkr] at h1
    exact absurd (hall _ (keys_getD_mem _ _ hlt')) (not_le.2 h1)
  · intro k hk hlt hmax
    obtain ⟨j, hj, hkj⟩ := keys_mem_getD _ k hk
    have hrj : j < rowOf s.m_subtitleList st := by
      rw [← keys_getD_lt_iff _ hw.1 hj hr, hkr, hkj]
      exact hlt
    have hpos : 0 < rowOf s.m_subtitleList st := by omega
    have hlt' : rowOf s.m_subtitleList st - 1 < s.m_subtitleList.length := by omega
    have h1 := keys_getD_lt _ hw.1 (rowOf s.m_subtitleList st - 1) _ (by omega) hr
    rw [hkr] at h1
    have h2 := hmax _ (keys_getD_mem _ _ hlt') h1
    have h3 : k ≤ s.m_subtitleList.keys.getD (rowOf s.m_subtitleList st - 1) 0 := by
      rcases Nat.lt_or_eq_of_le (Nat.le_sub_one_of_lt hrj) with h | h
      · rw [← hkj]
        exact le_of_lt (keys_getD_lt _ hw.1 _ _ h hlt')
      · rw [← hkj, h]
    rw [hprev, if_pos hpos, le_antisymm h2 h3]
    exact find_getIdForStartPos s hw hc hk
  · intro hne
    have hlt' : rowOf s.m_subtitleList st + 1 < s.m_subtitleList.length := by
      by_contra hcon
      rw [hnext, if_neg hcon] at hne
      exact hne rfl
    rw [hnext, if_pos hlt']
    have hk2 := keys_getD_mem _ _ hlt'
    have hreg2 := find_getIdForStartPos s hw hc hk2
    rw [getPreviousSub_eq, getStartPosForId_of_find s hreg2, rowOf_keys_getD _ hw.1 hlt',
      if_pos (Nat.succ_pos _), Nat.add_sub_cancel, hkr]
    exact getIdForStartPos_eq s hw.2 hreg (hc.own hreg)

/-- Witness of C24: the cue of id 1 of the model with two cues. -/
theorem C24_next_previous_witness :
    WellFormed twoCues ∧ Consistent twoCues ∧ twoCues.m_allSubtitles.find 1 = some 0 ∧
    getNextSub twoCues 1 = 2 ∧ getPreviousSub twoCues 1 = -1 ∧
    getPreviousSub twoCues (getNextSub twoCues 1) = 1 :=
  have hreg : twoCues.m_allSubtitles.find 1 = some 0 := by decide!
  have h := C24_next_previous twoCues 1 0 inv_twoCues.1 inv_twoCues.2 hreg
  ⟨inv_twoCues.1, inv_twoCues.2, hreg, by decide!, h.2.2.1 (by decide!),
    h.2.2.2.2 (by decide!)⟩

/-- The key at the last row of a store that is not empty. -/
theorem keys_getD_last : ∀ (m : StdMap GenTime (String × GenTime)), m ≠ [] →
    ∃ last, m.getLast? = some last ∧ m.keys.getD (m.length - 1) 0 = last.1 := by
  intro m
  induction m with
  | nil => intro h; exact absurd rfl h
  | cons hd t ih =>
    intro _
    cases t with
    | nil => exact ⟨hd, rfl, rfl⟩
    | cons hd2 t2 =>
      obtain ⟨last, h1, h2⟩ := ih (by simp)
      refine ⟨last, ?_, ?_⟩
      · rw [List.getLast?_cons_cons]
        exact h1
      · simpa [keys] using h2

/-- C30: in a model with sorted maps and a registry in bijection with the store, for
an id that is not registered, when the store is not empty and has no cue that
starts at time zero, `getNextSub(id)` is -1 and `getPreviousSub(id)` is an id
registered with the start of the last cue of the store; it is not -1 when -1 is not
a registered id. -/
theorem C30_unregistered_navigation (s : SubtitleModel) (id : ℤ)
    (hw : WellFormed s) (hc : Consistent s) (hid : s.m_allSubtitles.find id = none)
    (hne : s.m_subtitleList ≠ []) (h0 : s.m_subtitleList.find 0 = none) :
    getNextSub s id = -1 ∧
    ∃ last, s.m_subtitleList.getLast? = some last ∧
      s.m_allSubtitles.find (getPreviousSub s id) = some last.1 ∧
      (s.m_allSubtitles.find (-1) = none → getPreviousSub s id ≠ -1) := by
  have hstart : getStartPosForId s id = 0 := by
    have : s.m_allSubtitles.count id = 0 := (count_eq_zero_iff _ _).2 hid
    simp [getStartPosForId, this]
  have hrow := rowOf_of_find_none s.m_subtitleList h0
  have hlen : 0 < s.m_subtitleList.length := List.length_pos.2 hne
  obtain ⟨last, h1, h2⟩ := keys_getD_last s.m_subtitleList hne
  have hmem : last.1 ∈ s.m_subtitleList.keys := by
    rw [← h2]
    exact keys_getD_mem _ _ (by omega)
  have hprev : getPreviousSub s id = getIdForStartPos s last.1 := by
    rw [getPreviousSub_eq, hstart, hrow, if_pos hlen, h2]
  refine ⟨?_, last, h1, ?_, ?_⟩
  · rw [getNextSub_eq, hstart, hrow, if_neg (by omega)]
  · rw [hprev]
    exact find_getIdForStartPos s hw hc hmem
  · intro hm1 heq
    have := find_getIdForStartPos s hw hc hmem
    rw [← hprev, heq, hm1] at this
    cases this

/-- Witness of C30: the id 7, not registered, in the model of the one cue
(1 s, 2 s) of id 1. -/
theorem C30_unregistered_navigation_witness :
    twoLineCue.m_allSubtitles.find 7 = none ∧ twoLineCue.m_subtitleList.find 0 = none ∧
    getNextSub twoLineCue 7 = -1 ∧ getPreviousSub twoLineCue 7 = 1 :=
  have hinv : WellFormed twoLineCue ∧ Consistent twoLineCue :=
    inv_of_sameData (inv_runOps 25 [.add 1 1 2 "a\nb"] empty inv_empty (by decide!))
      (by decide!)
  have h := C30_unregistered_navigation twoLineCue 7 hinv.1 hinv.2 (by decide!) (by decide!)
    (by decide!)
  ⟨by decide!, by decide!, h.1, by decide!⟩

/-- C23 (counterexample): at 25 frames per second, `getItemsInRange(50, 75)` on the cue
(0 s, 2 s) of id 1 returns this id although the cue ends at frame 50, the start of
the range; `getItemsInRange(0, 75)` on the cues (0 s, 2 s) of id 1 and (3 s, 5 s) of
id 2 returns both ids although the second cue starts at frame 75, the end of the
range. -/
theorem C23_range_ends_counterexample :
    oneCue.m_subtitleList = [(0, ("Hello", 2))] ∧ GenTime.ofFrames 50 25 = 2 ∧
    getItemsInRange 25 oneCue 50 75 = [1] ∧
    twoCues.m_subtitleList = [(0, ("Hello", 2)), (3, ("World", 5))] ∧
    GenTime.ofFrames 75 25 = 3 ∧
    getItemsInRange 25 twoCues 0 75 = [1, 2] := by
  decide!

/-- C23, amended: in a model with sorted maps and a registry in bijection with the
store, for an end frame that is not negative, the ids `getItemsInRange(a, b)` returns
are the ids of the cues whose start is not after the time of frame `b` and whose
start or end is not before the time of frame `a`: both ends of the range belong to
it. -/
theorem C23_items_in_range_amended (fps : ℚ) (s : SubtitleModel) (a b : ℤ)
    (hw : WellFormed s) (hc : Consistent s) (hb : 0 ≤ b) (id : ℤ) :
    id ∈ getItemsInRange fps s a b ↔
      ∃ st e, s.m_allSubtitles.find id = some st ∧ s.m_subtitleList.find st = some e ∧
        st ≤ GenTime.ofFrames b fps ∧
        (GenTime.ofFrames a fps ≤ st ∨ GenTime.ofFrames a fps ≤ e.2) := by
  have hb' : b > -1 := by omega
  unfold getItemsInRange
  simp only [List.mem_map, List.mem_filter, hb', decide_True, Bool.true_and, Bool.and_eq_true,
    Bool.not_eq_true', decide_eq_false_iff_not, Bool.or_eq_true, decide_eq_true_eq, gt_iff_lt,
    not_lt, ge_iff_le]
  constructor
  · rintro ⟨p, ⟨hp, h1, h2⟩, hid⟩
    have hk : p.1 ∈ s.m_subtitleList.keys := List.mem_map_of_mem _ hp
    have hreg := find_getIdForStartPos s hw hc hk
    rw [hid] at hreg
    have hcue : s.m_subtitleList.find p.1 = some p.2 := find_of_mem_sorted _ hw.1 hp
    exact ⟨p.1, p.2, hreg, hcue, h1, h2⟩
  · rintro ⟨st, e, hreg, hcue, h1, h2⟩
    exact ⟨(st, e), ⟨find_some_mem _ hcue, h1, h2⟩,
      getIdForStartPos_eq s hw.2 hreg (hc.own hreg)⟩

/-- Witness of C23, amended: the range of the frames 0 to 50 on the model with two
cues, at 25 frames per second, holds the cue of id 1 and not the cue of id 2. -/
theorem C23_items_in_range_amended_witness :
    WellFormed twoCues ∧ Consistent twoCues ∧
    1 ∈ getItemsInRange 25 twoCues 0 50 ∧ 2 ∉ getItemsInRange 25 twoCues 0 50 :=
  ⟨inv_twoCues.1, inv_twoCues.2,
    (C23_items_in_range_amended 25 twoCues 0 50 inv_twoCues.1 inv_twoCues.2 (by norm_num) 1).2
      ⟨0, ("Hello", 2), by decide!, by decide!, by decide!, Or.inl (by decide!)⟩,
    by decide!⟩

/-! ## The time fields of the writer -/

/-- The milliseconds `jsontoSubtitle` computes for a time that is not negative, with
its whole milliseconds below 2^31 - 1: the floor of a double, at most 1 away from the
whole milliseconds of the time. -/
theorem millis_near (t : ℚ) (h0 : 0 ≤ t) (hint : ⌊t * 1000⌋ + 1 < 2 ^ 31) :
    millis t = some ⌊roundDouble (roundDouble t * 1000)⌋ ∧
    0 ≤ ⌊roundDouble (roundDouble t * 1000)⌋ ∧
    ⌊t * 1000⌋ - 1 ≤ ⌊roundDouble (roundDouble t * 1000)⌋ ∧
    ⌊roundDouble (roundDouble t * 1000)⌋ ≤ ⌊t * 1000⌋ + 1 := by
  have hu0 := roundDouble_nonneg t h0
  have ht : t * 1000 < 2147483648 := by
    have h1 := Int.lt_floor_add_one (t * 1000)
    have h2 : ⌊t * 1000⌋ + 1 ≤ 2147483648 := by
      have : (2 : ℤ) ^ 31 = 2147483648 := by norm_num
      omega
    have h3 : ((⌊t * 1000⌋ : ℤ) : ℚ) + 1 ≤ 2147483648 := by exact_mod_cast h2
    linarith
  have hu := roundDouble_err t 4194304 (by rw [abs_of_nonneg h0]; linarith) (by norm_num)
  rw [abs_le] at hu
  norm_num at hu
  have hy := roundDouble_err (roundDouble t * 1000) 8589934592
    (by rw [abs_of_nonneg (mul_nonneg hu0 (by norm_num))]; linarith) (by norm_num)
  rw [abs_le] at hy
  norm_num at hy
  have f1 := Int.floor_le (t * 1000)
  have f2 := Int.lt_floor_add_one (t * 1000)
  have hlo : ⌊t * 1000⌋ - 1 ≤ ⌊roundDouble (roundDouble t * 1000)⌋ := by
    rw [Int.le_floor]
    push_cast
    linarith
  have hhi : ⌊roundDouble (roundDouble t * 1000)⌋ ≤ ⌊t * 1000⌋ + 1 := by
    have : ⌊roundDouble (roundDouble t * 1000)⌋ < ⌊t * 1000⌋ + 2 := by
      rw [Int.floor_lt]
      push_cast
      linarith
    omega
  have hm := millis_nonneg t h0 (lt_of_le_of_lt hhi hint)
  exact ⟨hm.1, hm.2, hlo, hhi⟩

/-- C27 (counterexample): for the time 1.001 s the fields `jsontoSubtitle` computes
are 0, 0, 1, 0 and add up to 1000 milliseconds, while floor(1.001 · 1000) is 1001;
for the double nearest to 0.58 s they add up to 580, while the floor of its 1000-fold
is 579. -/
theorem C27_double_product_counterexample :
    timeFields (1001 / 1000) = some (0, 0, 1, 0) ∧ ⌊(1001 / 1000 : ℚ) * 1000⌋ = 1001 ∧
    timeFields (roundDouble (29 / 50)) = some (0, 0, 0, 580) ∧
    ⌊roundDouble (29 / 50) * 1000⌋ = 579 := by
  decide!

/-- C27, amended: for every time `t` that is not negative, with its whole
milliseconds below 2^31 - 1, `jsontoSubtitle` computes fields, and they add up to
`M`, the integer part of the double product of the double of `t` and 1000, which is
within the range of `int` and at most 1 away from floor(t·1000); the hours are not
negative, minutes and seconds lie in 0..59 and millisec in 0..999, and the last
field of the `.ass` time string is floor(millisec / 10), in 0..99. -/
theorem C27_time_fields_amended (t : ℚ) (h0 : 0 ≤ t) (hint : ⌊t * 1000⌋ + 1 < 2 ^ 31) :
    ∃ (M : ℤ) (f : ℤ × ℤ × ℤ × ℤ), millis t = some M ∧ timeFields t = some f ∧
      f.1 * 3600000 + f.2.1 * 60000 + f.2.2.1 * 1000 + f.2.2.2 = M ∧
      M = ⌊roundDouble (roundDouble t * 1000)⌋ ∧ 0 ≤ M ∧ M < 2 ^ 31 ∧
      ⌊t * 1000⌋ - 1 ≤ M ∧ M ≤ ⌊t * 1000⌋ + 1 ∧
      0 ≤ f.1 ∧ 0 ≤ f.2.1 ∧ f.2.1 < 60 ∧ 0 ≤ f.2.2.1 ∧ f.2.2.1 < 60 ∧
      0 ≤ f.2.2.2 ∧ f.2.2.2 < 1000 ∧
      ∃ cs : ℤ, cs = ⌊((f.2.2.2 : ℤ) : ℚ) / 10⌋ ∧ 0 ≤ cs ∧ cs < 100 ∧
        timeString t = some (arg f.1 1 ++ [':'] ++ arg f.2.1 2 ++ [':'] ++
          arg f.2.2.1 2 ++ ['.'] ++ arg cs 2) := by
  obtain ⟨hm, hm0, hlo, hhi⟩ := millis_near t h0 hint
  obtain ⟨n, hn⟩ := Int.eq_ofNat_of_zero_le hm0
  rw [hn] at hm hlo hhi
  have hf := timeFields_nonneg t n hm
  have hcs : ((n % 1000 : ℕ) : ℤ).tdiv 10 = ⌊((((n % 1000 : ℕ) : ℤ) : ℤ) : ℚ) / 10⌋ := by
    rw [Int.tdiv_eq_ediv (Int.natCast_nonneg _) (by norm_num)]
    have := Rat.floor_intCast_div_natCast ((n % 1000 : ℕ) : ℤ) 10
    exact_mod_cast this.symm
  have hlt : (n : ℤ) < 2 ^ 31 := lt_of_le_of_lt hhi hint
  refine ⟨(n : ℤ), _, hm, hf, ?_, hn.symm, Int.natCast_nonneg n, hlt, hlo, hhi, ?_, ?_, ?_,
    ?_, ?_, ?_, ?_, ((n % 1000 : ℕ) : ℤ).tdiv 10, hcs, ?_, ?_, ?_⟩
  · simp only
    omega
  · simp only; omega
  · simp only; omega
  · simp only; omega
  · simp only; omega
  · simp only; omega
  · simp only; omega
  · simp only; omega
  · rw [Int.tdiv_eq_ediv (Int.natCast_nonneg _) (by norm_num)]
    omega
  · rw [Int.tdiv_eq_ediv (Int.natCast_nonneg _) (by norm_num)]
    omega
  · unfold timeString
    rw [hf]

/-- Witness of C27, amended: the time 3723.456 s has the fields 1, 2, 3, 456, adding
up to 3723456 milliseconds, and is written `1:02:03.45` in an `.ass` file. -/
theorem C27_time_fields_amended_witness :
    millis (3723456 / 1000) = some 3723456 ∧
    timeFields (3723456 / 1000) = some (1, 2, 3, 456) ∧
    timeString (3723456 / 1000) = some "1:02:03.45".toList ∧
    ∃ (M : ℤ) (f : ℤ × ℤ × ℤ × ℤ), millis (3723456 / 1000) = some M ∧
      timeFields (3723456 / 1000) = some f ∧
      f.1 * 3600000 + f.2.1 * 60000 + f.2.2.1 * 1000 + f.2.2.2 = M ∧
      (3723456 : ℤ) - 1 ≤ M ∧ M ≤ 3723456 + 1 :=
  have h := C27_time_fields_amended (3723456 / 1000) (by norm_num) (by decide!)
  have e : ⌊(3723456 / 1000 : ℚ) * 1000⌋ = 3723456 := by decide!
  ⟨by decide!, by decide!, by decide!,
    h.choose, h.choose_spec.choose, h.choose_spec.choose_spec.1,
    h.choose_spec.choose_spec.2.1, h.choose_spec.choose_spec.2.2.1,
    e ▸ h.choose_spec.choose_spec.2.2.2.2.2.2.1,
    e ▸ h.choose_spec.choose_spec.2.2.2.2.2.2.2.1⟩

/-- C22 (the code diverges): the `.srt` time string `jsontoSubtitle` writes for 2.5 s,
a time below 100 hours, is `0:00:02,500`, with one hour digit, and the block of the
cue (1 s, 2.5 s, "Hi there") has the time line `0:00:01,000 --> 0:00:02,500`; the
hours get two digits only from 10 hours on, 36002.5 s is written `10:00:02,500`. -/
theorem C22_srt_one_hour_digit :
    (0 : ℚ) ≤ 5 / 2 ∧ (5 / 2 : ℚ) < 100 * 3600 ∧
    timeStringSRT (5 / 2) = some "0:00:02,500".toList ∧
    jsontoSubtitle [⟨1, "Hi there", 5 / 2⟩]
      = some "1\n0:00:01,000 --> 0:00:02,500\nHi there\n\n".toList ∧
    timeStringSRT (72005 / 2) = some "10:00:02,500".toList := by
  decide!

/-! ## The snap listener -/

theorem snapAdded_append (a b : List SnapCall) :
    snapAdded (a ++ b) = snapAdded a ++ snapAdded b := by
  induction a with
  | nil => rfl
  | cons c t ih => cases c <;> simp [snapAdded, ih]

theorem snapRemoved_append (a b : List SnapCall) :
    snapRemoved (a ++ b) = snapRemoved a ++ snapRemoved b := by
  induction a with
  | nil => rfl
  | cons c t ih => cases c <;> simp [snapRemoved, ih]

theorem added_addPoint (log : List SnapCall) (f : ℤ) :
    (snapAdded (log ++ [SnapCall.addPoint f]) : Multiset ℤ)
      = (snapAdded log : Multiset ℤ) + {f} := by
  rw [snapAdded_append, ← Multiset.coe_add]
  rfl

theorem added_removePoint (log : List SnapCall) (f : ℤ) :
    (snapAdded (log ++ [SnapCall.removePoint f]) : Multiset ℤ) = (snapAdded log : Multiset ℤ) := by
  rw [snapAdded_append]
  simp [snapAdded]

theorem removed_addPoint (log : List SnapCall) (f : ℤ) :
    (snapRemoved (log ++ [SnapCall.addPoint f]) : Multiset ℤ)
      = (snapRemoved log : Multiset ℤ) := by
  rw [snapRemoved_append]
  simp [snapRemoved]

theorem removed_removePoint (log : List SnapCall) (f : ℤ) :
    (snapRemoved (log ++ [SnapCall.removePoint f]) : Multiset ℤ)
      = (snapRemoved log : Multiset ℤ) + {f} := by
  rw [snapRemoved_append, ← Multiset.coe_add]
  rfl

theorem boundary_cons (fps : ℚ) (p : GenTime × (String × GenTime))
    (t : StdMap GenTime (String × GenTime)) :
    (boundaryFrames fps (p :: t) : Multiset ℤ)
      = {p.1.frames fps} + {p.2.2.frames fps} + (boundaryFrames fps t : Multiset ℤ) := by
  show ((p.1.frames fps :: p.2.2.frames fps :: boundaryFrames fps t : List ℤ) : Multiset ℤ) = _
  rw [← Multiset.cons_coe, ← Multiset.cons_coe, ← Multiset.singleton_add,
    ← Multiset.singleton_add, add_assoc]

/-- The boundaries of a store with one cue more. -/
theorem boundary_insert (fps : ℚ) :
    ∀ (m : StdMap GenTime (String × GenTime)) (k : GenTime) (v : String × GenTime),
      m.find k = none →
      (boundaryFrames fps (m.assign k v) : Multiset ℤ)
        = {k.frames fps} + {v.2.frames fps} + (boundaryFrames fps m : Multiset ℤ) := by
  intro m
  induction m with
  | nil =>
    intro k v _
    exact boundary_cons fps (k, v) []
  | cons hd t ih =>
    intro k v h
    obtain ⟨k', v'⟩ := hd
    have hk : ¬ k = k' := by
      intro e
      simp [find, e] at h
    simp only [find, hk, if_false] at h
    unfold assign
    split_ifs with h1
    · exact boundary_cons fps (k, v) ((k', v') :: t)
    · rw [boundary_cons, boundary_cons, ih k v h]
      abel

/-- The boundaries of a sorted store, with one cue taken apart. -/
theorem boundary_erase (fps : ℚ) :
    ∀ (m : StdMap GenTime (String × GenTime)) (k : GenTime) (v : String × GenTime),
      Sorted m → m.find k = some v →
      (boundaryFrames fps m : Multiset ℤ)
        = {k.frames fps} + {v.2.frames fps} + (boundaryFrames fps (m.erase k) : Multiset ℤ) := by
  intro m
  induction m with
  | nil => intro k v _ h; simp [find] at h
  | cons hd t ih =>
    intro k v hs h
    obtain ⟨k', v'⟩ := hd
    rw [sorted_cons] at hs
    by_cases hk : k = k'
    · subst hk
      simp only [find, if_true, Option.some.injEq] at h
      subst h
      have ht : StdMap.erase t k = t := erase_of_find_none t (find_none_of_lt t hs.1)
      have he : StdMap.erase ((k, v') :: t) k = t := by
        rw [← ht]
        simp [erase, List.filter_cons]
      rw [he, boundary_cons]
    · simp only [find, hk, if_false] at h
      have he : StdMap.erase ((k', v') :: t) k = (k', v') :: StdMap.erase t k := by
        have : k' ≠ k := fun e => hk e.symm
        simp [erase, List.filter_cons, this]
      rw [he, boundary_cons, boundary_cons, ih k v hs.2 h]
      abel

/-- The boundaries of a sorted store after the cue of a key is replaced. -/
theorem boundary_replace (fps : ℚ) (m : StdMap GenTime (String × GenTime)) (k : GenTime)
    (v0 v : String × GenTime) (hs : Sorted m) (h : m.find k = some v0) :
    (boundaryFrames fps (m.assign k v) : Multiset ℤ) + {v0.2.frames fps}
      = (boundaryFrames fps m : Multiset ℤ) + {v.2.frames fps} := by
  have e : m.assign k v = (m.erase k).assign k v := by
    conv_lhs => rw [← assign_erase_of_find m hs h]
    rw [assign_assign]
  rw [e, boundary_insert fps _ k v (find_erase_self m k), boundary_erase fps m k v0 hs h]
  abel

/-- The closure `reverse` of a resize from the right is its `operation` with the two
ends exchanged. -/
theorem resizeRightReverse_eq (fps : ℚ) (st a b : GenTime) :
    resizeRightReverse fps st a b = resizeRightOperation fps st b a := rfl

/-- A resize from the right that removes the snap point of the end the cue has keeps
the store sorted, the listener synchronised and the other keys as they are. -/
theorem synced_resizeRight (fps : ℚ) (s : SubtitleModel) {st : GenTime}
    {e : String × GenTime} (newEnd : GenTime) (hs : Sorted s.m_subtitleList)
    (h : SnapSynced fps s) (hcue : s.m_subtitleList.find st = some e) :
    Sorted (resizeRightOperation fps st e.2 newEnd s).2.m_subtitleList ∧
    SnapSynced fps (resizeRightOperation fps st e.2 newEnd s).2 ∧
    (resizeRightOperation fps st e.2 newEnd s).2.m_subtitleList.find st = some (e.1, newEnd) := by
  have hd := (resizeRightOperation_data fps s e.2 newEnd hcue).1
  refine ⟨?_, ?_, ?_⟩
  · rw [hd]
    exact sorted_assign _ _ _ hs
  · unfold SnapSynced
    rw [hd]
    show (snapAdded (s.snapLog ++ [SnapCall.removePoint (e.2.frames fps)]
        ++ [SnapCall.addPoint (newEnd.frames fps)]) : Multiset ℤ)
      = (snapRemoved (s.snapLog ++ [SnapCall.removePoint (e.2.frames fps)]
        ++ [SnapCall.addPoint (newEnd.frames fps)]) : Multiset ℤ) + _
    rw [added_addPoint, added_removePoint, removed_addPoint, removed_removePoint]
    have hb := boundary_replace fps s.m_subtitleList st e (e.1, newEnd) hs hcue
    unfold SnapSynced at h
    rw [h, add_assoc, add_assoc, add_comm {e.2.frames fps}, hb]
  · rw [hd]
    exact find_assign_self _ _ _

/-- An `addSubtitle` keeps the store sorted and the listener synchronised. -/
theorem synced_add (fps : ℚ) (s : SubtitleModel) (id : ℤ) (st en : GenTime) (str : String)
    (hs : Sorted s.m_subtitleList) (h : SnapSynced fps s) :
    Sorted (addSubtitle fps s id st en str).2.m_subtitleList ∧
    SnapSynced fps (addSubtitle fps s id st en str).2 := by
  rcases addSubtitle_cases fps s id st en str with hr | ⟨hnone, _, hr⟩
  · rw [hr]; exact ⟨hs, h⟩
  · rw [hr]
    refine ⟨sorted_assign _ _ _ hs, ?_⟩
    unfold SnapSynced at h ⊢
    simp only
    rw [added_addPoint, added_addPoint, removed_addPoint, removed_addPoint,
      boundary_insert fps _ st (str, en) hnone, h]
    abel

/-- One call keeps the store sorted and the listener synchronised. -/
theorem synced_run (fps : ℚ) (s : SubtitleModel) (op : Op)
    (hs : Sorted s.m_subtitleList) (h : SnapSynced fps s) :
    Sorted (Op.run fps s op).m_subtitleList ∧ SnapSynced fps (Op.run fps s op) := by
  cases op with
  | add id st en str =>
    simp only [Op.run, Op.call]
    exact synced_add fps s id st en str hs h
  | remove id =>
    simp only [Op.run, Op.call]
    rcases removeSubtitle_cases fps s id with hr | ⟨st, e, hreg, hcue, hr⟩
    · rw [hr]; exact ⟨hs, h⟩
    · rw [hr]
      refine ⟨sorted_erase _ _ hs, ?_⟩
      unfold SnapSynced at h ⊢
      simp only
      rw [added_removePoint, added_removePoint, removed_removePoint, removed_removePoint, h,
        boundary_erase fps _ st e hs hcue]
      abel
  | move id newPos =>
    simp only [Op.run, Op.call]
    rcases moveSubtitle_cases fps s id newPos true true with hr | ⟨old, e, hreg, hcue, hfree, hr⟩
    · rw [hr]; exact ⟨hs, h⟩
    · rw [hr]
      refine ⟨sorted_assign _ _ _ (sorted_erase _ _ hs), ?_⟩
      have hne : newPos ≠ old := by
        intro e'
        rw [e', hcue] at hfree
        cases hfree
      have hfree' : (s.m_subtitleList.erase old).find newPos = none := by
        rw [find_erase_ne _ hne]
        exact hfree
      unfold SnapSynced at h ⊢
      simp only
      rw [added_addPoint, added_addPoint, added_removePoint, added_removePoint,
        removed_addPoint, removed_addPoint, removed_removePoint, removed_removePoint, h,
        boundary_insert fps _ newPos _ hfree', boundary_erase fps _ old e hs hcue]
      abel
  | resize id size right =>
    simp only [Op.run, Op.call]
    rcases requestResize3_cases fps s id size right with hr | hr | ⟨st, e, hreg, hcue, _, hr⟩ |
      ⟨st, e, hreg, hcue, _, hfree, hr⟩
    · rw [hr]; exact ⟨hs, h⟩
    · rw [hr]; exact ⟨hs, h⟩
    · rw [hr]
      have := synced_resizeRight fps s (st + GenTime.ofFrames size fps) hs h hcue
      exact ⟨this.1, this.2.1⟩
    · rw [hr]
      have hne : e.2 - GenTime.ofFrames size fps ≠ st := by
        intro e'
        rw [e', hcue] at hfree
        cases hfree
      have hfree' : (s.m_subtitleList.erase st).find (e.2 - GenTime.ofFrames size fps)
          = none := by
        rw [find_erase_ne _ hne]
        exact hfree
      refine ⟨sorted_assign _ _ _ (sorted_erase _ _ hs), ?_⟩
      unfold SnapSynced at h ⊢
      show (snapAdded (s.snapLog ++ [SnapCall.removePoint (st.frames fps)]
          ++ [SnapCall.addPoint ((e.2 - GenTime.ofFrames size fps).frames fps)]) : Multiset ℤ)
        = (snapRemoved (s.snapLog ++ [SnapCall.removePoint (st.frames fps)]
          ++ [SnapCall.addPoint ((e.2 - GenTime.ofFrames size fps).frames fps)]) : Multiset ℤ)
          + (boundaryFrames fps ((s.m_subtitleList.erase st).assign
              (e.2 - GenTime.ofFrames size fps) (e.1, e.2)) : Multiset ℤ)
      rw [added_addPoint, added_removePoint, removed_addPoint, removed_removePoint, h,
        boundary_insert fps _ _ _ hfree', boundary_erase fps _ st e hs hcue]
      abel
  | cut position newId =>
    simp only [Op.run, Op.call]
    rcases cutSubtitle1_cases fps s position newId with hr | hr |
      ⟨c, e, st2, e2, _, _, _, _, hcue, hreg, hcue2, ⟨hadd, hr⟩ | ⟨hadd, hr⟩⟩
    · rw [hr]; exact ⟨hs, h⟩
    · rw [hr]; exact ⟨hs, h⟩
    · rw [hr]
      have hmid := synced_resizeRight fps s
        (st2 + GenTime.ofFrames (position - c.1.frames fps) fps) hs h hcue2
      exact synced_add fps _ newId _ _ _ hmid.1 hmid.2.1
    · rw [hr, resizeRightReverse_eq]
      have hmid := synced_resizeRight fps s
        (st2 + GenTime.ofFrames (position - c.1.frames fps) fps) hs h hcue2
      have hback := synced_resizeRight fps _ e2.2 hmid.1 hmid.2.1 hmid.2.2
      exact ⟨hback.1, hback.2.1⟩

/-- A sequence of calls keeps the store sorted and the listener synchronised. -/
theorem synced_runOps (fps : ℚ) (ops : List Op) :
    ∀ s : SubtitleModel, Sorted s.m_subtitleList → SnapSynced fps s →
      Sorted (runOps fps s ops).m_subtitleList ∧ SnapSynced fps (runOps fps s ops) := by
  induction ops with
  | nil => intro s hs h; exact ⟨hs, h⟩
  | cons op ops ih =>
    intro s hs h
    have := synced_run fps s op hs h
    exact ih (Op.run fps s op) this.1 this.2

/-- C26 (the code diverges): at 25 frames per second, after `addSubtitle(1, 0 s, 2 s)`
on the empty model the listener holds the frames 0 and 50; `editEndPos(0 s, 3 s)` then
moves the end of the cue to frame 75 and forwards nothing: the listener still holds
0 and 50, not the boundaries 0 and 75 of the cue. `requestResize(1, 75, right)`
leaves the same store and forwards `removePoint(50)` and `addPoint(75)`. Every
sequence of `addSubtitle`, `removeSubtitle`, `moveSubtitle`, `requestResize` and
`cutSubtitle` calls on the empty model leaves the listener synchronised. -/
theorem C26_editEndPos_forwards_nothing :
    SnapSynced 25 (runOps 25 empty [.add 1 0 2 "Hello"]) ∧
    (editEndPos (runOps 25 empty [.add 1 0 2 "Hello"]) 0 3).m_subtitleList
      = [(0, ("Hello", 3))] ∧
    (editEndPos (runOps 25 empty [.add 1 0 2 "Hello"]) 0 3).snapLog
      = [.addPoint 0, .addPoint 50] ∧
    boundaryFrames 25 (editEndPos (runOps 25 empty [.add 1 0 2 "Hello"]) 0 3).m_subtitleList
      = [0, 75] ∧
    ¬ SnapSynced 25 (editEndPos (runOps 25 empty [.add 1 0 2 "Hello"]) 0 3) ∧
    Option.map (fun r => (r.1, r.2.m_subtitleList, r.2.snapLog))
        (requestResize3 25 (runOps 25 empty [.add 1 0 2 "Hello"]) 1 75 true)
      = some (true, [(0, ("Hello", 3))],
          [.addPoint 0, .addPoint 50, .removePoint 50, .addPoint 75]) ∧
    ∀ (fps : ℚ) (ops : List Op), SnapSynced fps (runOps fps empty ops) := by
  refine ⟨by decide!, by decide!, by decide!, by decide!, by decide!, by decide!, ?_⟩
  intro fps ops
  have hs : Sorted empty.m_subtitleList := inv_empty.1.1
  have h0 : SnapSynced fps empty := by
    unfold SnapSynced
    simp [empty, snapAdded, snapRemoved, boundaryFrames]
  exact (synced_runOps fps ops empty hs h0).2

/-! ## Blank lines of an `.srt` file, and the text of an `.ass` file -/

/-- The cues of the store stay under `addSubtitle`. -/
theorem addSubtitle_find_kept (fps : ℚ) (s : SubtitleModel) (id : ℤ) (st en : GenTime)
    (str : String) {k : GenTime} {e : String × GenTime}
    (h : s.m_subtitleList.find k = some e) :
    (addSubtitle fps s id st en str).2.m_subtitleList.find k = some e := by
  rcases addSubtitle_cases fps s id st en str with hr | ⟨hnone, _, hr⟩
  · rw [hr]; exact h
  · rw [hr]
    have hne : k ≠ st := by
      intro e'
      rw [e', hnone] at h
      cases h
    show (s.m_subtitleList.assign st (str, en)).find k = some e
    rw [find_assign_ne _ _ hne]
    exact h

/-- The model one turn of the `.srt` loop leaves: the model it had, or the model an
`addSubtitle` leaves. -/
theorem srtLine_model (fps : ℚ) (off : GenTime) (st st' : SrtState) (raw : List Char)
    (hl : srtLine fps off st raw = some st') :
    st'.model = st.model ∨
    st'.model = (addSubtitle fps st.model st.nextId (st.startPos + off) (st.endPos + off)
      (String.mk st.comment)).2 := by
  unfold srtLine at hl
  simp only at hl
  split_ifs at hl
  all_goals try split at hl
  all_goals try split at hl
  all_goals cases hl <;> first | exact Or.inl rfl | exact Or.inr rfl

/-- The cues of the store stay under one turn of the `.srt` loop. -/
theorem srtLine_find_kept (fps : ℚ) (off : GenTime) (st st' : SrtState) (raw : List Char)
    {k : GenTime} {e : String × GenTime} (hl : srtLine fps off st raw = some st')
    (h : st.model.m_subtitleList.find k = some e) :
    st'.model.m_subtitleList.find k = some e := by
  rcases srtLine_model fps off st st' raw hl with hm | hm
  · rw [hm]; exact h
  · rw [hm]; exact addSubtitle_find_kept fps _ _ _ _ _ h

/-- The cues of the store stay under the `.srt` loop. -/
theorem srtLines_find_kept (fps : ℚ) (off : GenTime) {k : GenTime} {e : String × GenTime} :
    ∀ (lines : List (List Char)) (st st' : SrtState),
      srtLines fps off st lines = some st' → st.model.m_subtitleList.find k = some e →
      st'.model.m_subtitleList.find k = some e := by
  intro lines
  induction lines with
  | nil =>
    intro st st' hl h
    simp only [srtLines, Option.some.injEq] at hl
    rw [← hl]
    exact h
  | cons raw rest ih =>
    intro st st' hl h
    unfold srtLines at hl
    cases h1 : srtLine fps off st raw with
    | none => simp [h1] at hl
    | some st1 =>
      simp only [h1] at hl
      exact ih st1 st' hl (srtLine_find_kept fps off st st1 raw h1 h)

/-- C29: every line of an `.srt` file that is empty after `simplified` makes the loop
of `importSubtitle` call `addSubtitle` with the start and end parsed last and the
text gathered so far. At a positive frame rate and with an offset that is not
negative, the import of the text of one empty line into the empty model leaves the
one cue with the empty text and start = end = the offset time, and every import
that returns, of a text that begins with an empty line, leaves this cue in the
store. -/
theorem C29_leading_blank_line (fps : ℚ) (hfps : 0 < fps) (nextId offset : ℤ)
    (hoff : 0 ≤ offset) :
    (∀ (off : GenTime) (st : SrtState) (raw : List Char), simplified raw = [] →
      srtLine fps off st raw
        = some { st with
            model := (addSubtitle fps st.model st.nextId (st.startPos + off)
              (st.endPos + off) (String.mk st.comment)).2,
            nextId := st.nextId + 1, comment := [], timeLine := [], turn := 0, r := 0 }) ∧
    Option.map (fun m => (m.m_subtitleList, m.m_allSubtitles))
        (importSubtitle fps empty nextId ['\n'] offset)
      = some ([(GenTime.ofFrames offset fps, ("", GenTime.ofFrames offset fps))],
          [(nextId, GenTime.ofFrames offset fps)]) ∧
    ∀ rest m, importSubtitle fps empty nextId ('\n' :: rest) offset = some m →
      m.m_subtitleList.find (GenTime.ofFrames offset fps)
        = some ("", GenTime.ofFrames offset fps) := by
  have hblank : ∀ (off : GenTime) (st : SrtState) (raw : List Char), simplified raw = [] →
      srtLine fps off st raw
        = some { st with
            model := (addSubtitle fps st.model st.nextId (st.startPos + off)
              (st.endPos + off) (String.mk st.comment)).2,
            nextId := st.nextId + 1, comment := [], timeLine := [], turn := 0, r := 0 } := by
    intro off st raw hraw
    unfold srtLine
    simp [hraw]
  have h0 : (0 : ℚ) ≤ GenTime.ofFrames offset fps := by
    unfold GenTime.ofFrames
    have : (0 : ℚ) ≤ (offset : ℚ) := by exact_mod_cast hoff
    positivity
  have hv : ValidCue fps (GenTime.ofFrames offset fps, ("", GenTime.ofFrames offset fps)) :=
    validCue_of_le fps hfps "" h0 le_rfl
  have hadd := addSubtitle_eq fps empty nextId (GenTime.ofFrames offset fps)
    (GenTime.ofFrames offset fps) "" hv rfl
  have hfirst : srtLine fps (GenTime.ofFrames offset fps) ⟨0, 0, [], [], 0, 0, nextId, empty⟩ []
      = some ⟨0, 0, [], [], 0, 0, nextId + 1,
          (addSubtitle fps empty nextId (GenTime.ofFrames offset fps)
            (GenTime.ofFrames offset fps) "").2⟩ := by
    rw [hblank _ _ [] (by decide)]
    simp only [zero_add]
  refine ⟨hblank, ?_, ?_⟩
  · have hl : readLines ['\n'] = [[]] := by decide
    unfold importSubtitle
    simp only [hl, srtLines, hfirst, hadd, Option.map_some']
    simp [empty, assign]
  · intro rest m hm
    have hl : readLines ('\n' :: rest) = [] :: readLines rest :=
      readLines_cons [] rest (by simp)
    unfold importSubtitle at hm
    simp only [hl, srtLines, hfirst] at hm
    cases hrest : srtLines fps (GenTime.ofFrames offset fps)
        ⟨0, 0, [], [], 0, 0, nextId + 1,
          (addSubtitle fps empty nextId (GenTime.ofFrames offset fps)
            (GenTime.ofFrames offset fps) "").2⟩ (readLines rest) with
    | none =>
      rw [hrest] at hm
      cases hm
    | some st' =>
      rw [hrest] at hm
      simp only [Option.some.injEq] at hm
      rw [← hm]
      refine srtLines_find_kept fps _ _ _ _ hrest ?_
      rw [hadd]
      show (empty.m_subtitleList.assign _ _).find _ = _
      exact find_assign_self _ _ _

/-- Witness of C29: at 25 frames per second and with the offset 0, the import of a
text that begins with an empty line before a well-formed block leaves the
zero-length cue at 0 s with the empty text before the cue of the block. -/
theorem C29_leading_blank_line_witness :
    Option.map (fun m => m.m_subtitleList)
      (importSubtitle 25 empty 1 "\n1\n00:00:01,000 --> 00:00:02,500\nHi there\n\n".toList 0)
      = some [(0, ("", 0)), (1, ("Hi there", 5 / 2))] ∧
    Option.map (fun m => (m.m_subtitleList, m.m_allSubtitles))
      (importSubtitle 25 empty 1 ['\n'] 0)
      = some ([(GenTime.ofFrames 0 25, ("", GenTime.ofFrames 0 25))],
          [(1, GenTime.ofFrames 0 25)]) :=
  ⟨by decide!, (C29_leading_blank_line 25 (by norm_num) 1 0 (by norm_num)).2.1⟩

/-- C21 (the code diverges): for a frame of 1920 by 1080 and at 25 frames per second,
the `.ass` text `jsontoSubtitle` writes from a freshly constructed model for the cue
(0 s, 2 s, "Hello") is read back by `importSubtitle` as a cue whose text is `Hello`
followed by a comma and the whole of the `Dialogue` fields, and for the cue
(0 s, 2 s, "a,b") as a cue whose text is `a` followed by a comma and the whole of the
fields: the section `Events` written has no `Format:` line, so `maxSplit` is 0.
With the usual `Format:` line of ten columns in the section, "a,b" is read back as
it is, and "Hello" with a comma after it. -/
theorem C21_ass_text_not_reproduced :
    Option.map (fun r => r.1.m_subtitleList)
      ((jsontoSubtitleAss (AssSections.fresh 1920 1080) (toJson oneCue)).bind
        (fun content => importSubtitleAss 25 empty (AssSections.fresh 1920 1080) 1 content 0))
      = some [(0, ("Hello,0,0:00:00.00,0:00:02.00,Default,,0000,0000,0000,,Hello", 2))] ∧
    Option.map (fun r => r.1.m_subtitleList)
      ((jsontoSubtitleAss (AssSections.fresh 1920 1080) (toJson commaCue)).bind
        (fun content => importSubtitleAss 25 empty (AssSections.fresh 1920 1080) 1 content 0))
      = some [(0, ("a,0,0:00:00.00,0:00:02.00,Default,,0000,0000,0000,,a,b", 2))] ∧
    Option.map (fun r => r.1.m_subtitleList)
      ((jsontoSubtitleAss (AssSections.withFormat 1920 1080) (toJson oneCue)).bind
        (fun content => importSubtitleAss 25 empty (AssSections.fresh 1920 1080) 1 content 0))
      = some [(0, ("Hello,", 2))] ∧
    Option.map (fun r => r.1.m_subtitleList)
      ((jsontoSubtitleAss (AssSections.withFormat 1920 1080) (toJson commaCue)).bind
        (fun content => importSubtitleAss 25 empty (AssSections.fresh 1920 1080) 1 content 0))
      = some [(0, ("a,b", 2))] := by
  decide!

end SubtitleModel

end Kdenlive
